import Mathlib

/-! xgfile: container header, archive reader and segment extraction.

A shallow embedding of the Go package `pkg/xgfile` (files `xgutils.go`,
`xgstruct.go`, `xgzarc.go`, `xgimport.go`).

Conventions of the embedding:

* a byte is a `Fin 256`; a Go `[]byte` whose capacity equals its length is a
  `List Byte`;
* unsigned machine integers are `Nat`, signed ones are `Int`, with the
  two's-complement conversion written out (`toInt32`, `toInt64`, `wrapInt64`);
* a Go run-time panic (slice bounds, negative `make` length) is the error
  value `Error.panic`;
* Go strings that hold text produced by `fmt.Sprintf` or `WriteRune` are Lean
  `String`s; Go strings that hold raw bytes (archive entry names) are
  `List Byte`.
-/

namespace Xgfile

/-- One octet. -/
abbrev Byte := Fin 256

deriving instance DecidableEq for Except

/-- Errors and abnormal terminations that the package can produce. -/
inductive Error where
  /-- Sentinel `io.EOF`. -/
  | eof
  /-- Sentinel `io.ErrUnexpectedEOF`. -/
  | unexpectedEOF
  /-- Seek to a negative position (`EINVAL`). -/
  | seekInvalid
  /-- Text "invalid magic number or header version". -/
  | invalidMagic
  /-- Text "not a game data format file". -/
  | notGameDataFormat
  /-- Text "invalid number of bytes for uncompressed segment". -/
  | invalidNumBytes
  /-- Text "not a valid XG gamefile". -/
  | invalidGameFile
  /-- Text "binary.Read: invalid type ...". -/
  | binaryInvalidType
  /-- Failure reported by the zlib reader. -/
  | zlib
  /-- Operation on a closed file handle (`os.ErrClosed`). -/
  | fileClosed
  /-- Named file does not exist (`os.ErrNotExist`). -/
  | notExist
  /-- Go run-time panic. -/
  | panic
  deriving DecidableEq, Repr

/-! ## Slices and little-endian integers -/

/-- Go slice expression `data[lo:hi]` on a slice whose capacity is its length;
`none` is the run-time panic for bounds out of range. -/
def slice (data : List Byte) (lo hi : Nat) : Option (List Byte) :=
  if lo ≤ hi ∧ hi ≤ data.length then some ((data.drop lo).take (hi - lo)) else none

/-- Go `binary.LittleEndian.Uint16`; `none` is the bounds-check panic on a
slice shorter than two bytes.  The bit-wise or of disjoint shifted bytes is
written as a sum. -/
def leUint16 : List Byte → Option Nat
  | b0 :: b1 :: _ => some (b0.val + 256 * b1.val)
  | _ => none

/-- Go `binary.LittleEndian.Uint32`; `none` is the bounds-check panic on a
slice shorter than four bytes. -/
def leUint32 : List Byte → Option Nat
  | b0 :: b1 :: b2 :: b3 :: _ =>
      some (b0.val + 256 * b1.val + 65536 * b2.val + 16777216 * b3.val)
  | _ => none

/-- Go `binary.LittleEndian.Uint64`; `none` is the bounds-check panic on a
slice shorter than eight bytes. -/
def leUint64 : List Byte → Option Nat
  | b0 :: b1 :: b2 :: b3 :: b4 :: b5 :: b6 :: b7 :: _ =>
      some (b0.val + 256 * b1.val + 65536 * b2.val + 16777216 * b3.val
        + 4294967296 * b4.val + 1099511627776 * b5.val
        + 281474976710656 * b6.val + 72057594037927936 * b7.val)
  | _ => none

/-- Go conversion `int32(x)` of a `uint32` value. -/
def toInt32 (x : Nat) : Int :=
  if x % 4294967296 < 2147483648 then (x % 4294967296 : Nat)
  else ((x % 4294967296 : Nat) : Int) - 4294967296

/-- Go conversion `int64(x)` of a `uint64` value. -/
def toInt64 (x : Nat) : Int :=
  if x % 18446744073709551616 < 9223372036854775808 then (x % 18446744073709551616 : Nat)
  else ((x % 18446744073709551616 : Nat) : Int) - 18446744073709551616

/-- Result of an `int64` addition or subtraction, wrapped to 64 bits. -/
def wrapInt64 (x : Int) : Int :=
  (x + 9223372036854775808) % 18446744073709551616 - 9223372036854775808

/-! ## xgutils.go / xgstruct.go: text and GUID primitives -/

/-- Lower-case hexadecimal digits of a number, as `%x` prints them. -/
def hexDigits (n : Nat) : List Char := Nat.toDigits 16 n

/-- Go `%0Nx` applied to an unsigned integer: hexadecimal, left-padded with
zeros to at least `width` characters. -/
def fmtHex (width n : Nat) : List Char :=
  List.replicate (width - (hexDigits n).length) '0' ++ hexDigits n

/-- Two hexadecimal digits of one byte. -/
def hexByte (b : Byte) : List Char :=
  [Nat.digitChar (b.val / 16), Nat.digitChar (b.val % 16)]

/-- Go `%0Nx` applied to a byte slice: two digits per byte in stored order,
left-padded with zeros to at least `width` characters. -/
def fmtHexBytes (width : Nat) (bs : List Byte) : List Char :=
  List.replicate (width - 2 * bs.length) '0' ++ bs.flatMap hexByte

/-- Go `formatGUID` (xgstruct.go).  The format string is
`%08x-%04x-%04x-%04x-%012x`; the arguments are the little-endian `uint32` of
`guid[0:4]`, the little-endian `uint16` of `guid[4:6]`, of `guid[6:8]` and of
`guid[8:10]`, and the raw slice `guid[10:16]`. -/
def formatGUID (guid : List Byte) : Option String := do
  let a ← (slice guid 0 4).bind leUint32
  let b ← (slice guid 4 6).bind leUint16
  let c ← (slice guid 6 8).bind leUint16
  let d ← (slice guid 8 10).bind leUint16
  let e ← slice guid 10 16
  pure (String.mk (fmtHex 8 a ++ '-' :: fmtHex 4 b ++ '-' :: fmtHex 4 c ++ '-' :: fmtHex 4 d
    ++ '-' :: fmtHexBytes 12 e))

/-- Go `unpackUint16Array` (xgstruct.go): consecutive little-endian 16-bit
units.  On an odd-length slice the last iteration slices `data[i:i+2]` past
the length, which is the panic `none`. -/
def unpackUint16Array : List Byte → Option (List Nat)
  | [] => some []
  | [_] => none
  | b0 :: b1 :: rest => (unpackUint16Array rest).map (fun r => (b0.val + 256 * b1.val) :: r)

/-- Go `buf.WriteRune(rune(intval))` for a 16-bit unit: the character with
that code point, and U+FFFD for a surrogate, which is not a valid rune. -/
def writeRune (v : Nat) : Char :=
  if 0xD800 ≤ v ∧ v ≤ 0xDFFF then Char.ofNat 0xFFFD else Char.ofNat v

/-- Loop of `UTF16IntArrayToStr`: range over the units, break at the first
zero, append the rune otherwise. -/
def utf16Loop : List Nat → List Char
  | [] => []
  | v :: rest => if v = 0 then [] else writeRune v :: utf16Loop rest

/-- Go `UTF16IntArrayToStr` (xgutils.go). -/
def UTF16IntArrayToStr (intArray : List Nat) : String :=
  String.mk (utf16Loop intArray)

/-! ## Read-only files -/

/-- An `*os.File` opened for reading on a regular file: the file's bytes and
the current offset.  The offset may lie past the end, never below zero. -/
structure File where
  data : List Byte
  pos : Nat
  deriving DecidableEq, Repr

namespace File

/-- Bytes from the current offset to the end of the file. -/
def remaining (f : File) : List Byte := f.data.drop f.pos

/-- Move to an absolute target offset; a negative target is rejected and the
offset stays where it was. -/
def seekTo (f : File) (target : Int) : File × Option Error :=
  if target < 0 then (f, some Error.seekInvalid) else ({ f with pos := target.toNat }, none)

/-- Go `f.Seek(offset, io.SeekStart)`. -/
def seekStart (f : File) (offset : Int) : File × Option Error := f.seekTo offset

/-- Go `f.Seek(offset, io.SeekEnd)`. -/
def seekEnd (f : File) (offset : Int) : File × Option Error :=
  f.seekTo ((f.data.length : Int) + offset)

/-- Go `f.Read(buf)` with `len(buf) = n`: the bytes read, the file after the
read and the error; `io.EOF` when a non-empty buffer receives nothing. -/
def read (f : File) (n : Nat) : List Byte × File × Option Error :=
  let bs := f.remaining.take n
  (bs, { f with pos := f.pos + bs.length },
    if 0 < n ∧ bs.length = 0 then some Error.eof else none)

/-- Go `io.ReadFull(f, buf)` with `len(buf) = n`: `io.EOF` when nothing could
be read, `io.ErrUnexpectedEOF` when fewer than `n` bytes could. -/
def readFull (f : File) (n : Nat) : List Byte × File × Option Error :=
  let bs := f.remaining.take n
  (bs, { f with pos := f.pos + bs.length },
    if bs.length = n then none
    else if bs.length = 0 then some Error.eof else some Error.unexpectedEOF)

end File

/-! ## xgstruct.go: the container header -/

/-- Go `GameDataFormatHdrRecord`.  `MagicNumber` is `string(unpackedData[0:4])`,
four raw bytes. -/
structure GameDataFormatHdrRecord where
  MagicNumber : List Byte
  HeaderVersion : Int
  HeaderSize : Int
  ThumbnailOffset : Int
  ThumbnailSize : Int
  GameGUID : String
  GameName : String
  SaveName : String
  LevelName : String
  Comments : String
  deriving DecidableEq, Repr

/-- Zero value of the header record. -/
def GameDataFormatHdrRecord.zero : GameDataFormatHdrRecord :=
  ⟨[], 0, 0, 0, 0, "", "", "", "", ""⟩

/-- The ASCII bytes of "HMGR". -/
def magicHMGR : List Byte := [0x48, 0x4D, 0x47, 0x52]

/-- Length of the buffer `unpackedData` of the header decoder. -/
def headerSpan : Nat := 8232

/-- Statements of `GameDataFormatHdrRecord.FromStream` after the magic and
version check: the remaining fields, decoded from the 8232-byte buffer. -/
def decodeHeaderBody (hdr : GameDataFormatHdrRecord) (unpackedData : List Byte) :
    Option GameDataFormatHdrRecord := do
  let headerSize ← (slice unpackedData 8 12).bind leUint32
  let thumbnailOffset ← (slice unpackedData 12 20).bind leUint64
  let thumbnailSize ← (slice unpackedData 20 24).bind leUint32
  let guid ← slice unpackedData 24 40
  let gameGUID ← formatGUID guid
  let gameName ← (slice unpackedData 40 2064).bind unpackUint16Array
  let saveName ← (slice unpackedData 2064 4088).bind unpackUint16Array
  let levelName ← (slice unpackedData 4088 6112).bind unpackUint16Array
  let comments ← (slice unpackedData 6112 8136).bind unpackUint16Array
  pure { hdr with
    HeaderSize := toInt32 headerSize
    ThumbnailOffset := toInt64 thumbnailOffset
    ThumbnailSize := toInt32 thumbnailSize
    GameGUID := gameGUID
    GameName := UTF16IntArrayToStr gameName
    SaveName := UTF16IntArrayToStr saveName
    LevelName := UTF16IntArrayToStr levelName
    Comments := UTF16IntArrayToStr comments }

/-- Go `(*GameDataFormatHdrRecord).FromStream` (xgstruct.go): the record and
the stream after the call, and the returned error.  The record is updated in
place, so the magic and version fields are already assigned when the check
on them fails. -/
def GameDataFormatHdrRecord.FromStream (hdr : GameDataFormatHdrRecord) (stream : File) :
    GameDataFormatHdrRecord × File × Option Error :=
  match stream.readFull headerSpan with
  | (_, stream, some err) => (hdr, stream, some err)
  | (unpackedData, stream, none) =>
    match slice unpackedData 0 4, (slice unpackedData 4 8).bind leUint32 with
    | some magic, some version =>
      let hdr := { hdr with MagicNumber := magic, HeaderVersion := toInt32 version }
      if hdr.MagicNumber ≠ magicHMGR ∨ hdr.HeaderVersion ≠ 1 then
        (hdr, stream, some Error.invalidMagic)
      else
        match decodeHeaderBody hdr unpackedData with
        | some hdr => (hdr, stream, none)
        | none => (hdr, stream, some Error.panic)
    | _, _ => (hdr, stream, some Error.panic)

/-! ## Temporary storage

`os.CreateTemp`, `os.Open`, `Close` and `os.Remove` act on a directory of
temporary files.  A file is named by its creation index.  The environment is
taken to be well-behaved: creating, writing and syncing a temporary file do not
fail. -/

/-- A file of the temporary directory. -/
structure TmpFile where
  content : List Byte
  removed : Bool
  deriving DecidableEq, Repr

/-- An open `*os.File` on a temporary file. -/
structure Handle where
  file : Nat
  pos : Nat
  closed : Bool
  deriving DecidableEq, Repr

/-- The temporary directory and the table of handles opened on it. -/
structure World where
  files : List TmpFile
  handles : List Handle
  deriving DecidableEq, Repr

namespace World

/-- No temporary file, no handle. -/
def empty : World := ⟨[], []⟩

/-- Go `os.CreateTemp("", "tmpXGI")`: the new file's name, the handle on it,
and the world after the call. -/
def createTemp (w : World) : Nat × Nat × World :=
  (w.files.length, w.handles.length,
    { files := w.files ++ [⟨[], false⟩], handles := w.handles ++ [⟨w.files.length, 0, false⟩] })

/-- Bytes stored under a name. -/
def content (w : World) (name : Nat) : List Byte :=
  match w.files[name]? with
  | some f => f.content
  | none => []

/-- Whether a name denotes a file that is still in the directory. -/
def fileExists (w : World) (name : Nat) : Bool :=
  match w.files[name]? with
  | some f => !f.removed
  | none => false

/-- Go `h.Write(bs)`: the bytes go to the file at the handle's offset, which
advances. -/
def write (w : World) (h : Nat) (bs : List Byte) : World :=
  match w.handles[h]? with
  | none => w
  | some hd =>
    match w.files[hd.file]? with
    | none => w
    | some f =>
      { files := w.files.set hd.file
          { f with content := f.content.take hd.pos ++ bs ++ f.content.drop (hd.pos + bs.length) }
        handles := w.handles.set h { hd with pos := hd.pos + bs.length } }

/-- Go `os.Open(name)` on a temporary file: a new handle at offset 0. -/
def openFile (w : World) (name : Nat) : Except Error Nat × World :=
  if w.fileExists name then
    (Except.ok w.handles.length, { w with handles := w.handles ++ [⟨name, 0, false⟩] })
  else (Except.error Error.notExist, w)

/-- Go `h.Close()`. -/
def close (w : World) (h : Nat) : World × Option Error :=
  match w.handles[h]? with
  | none => (w, some Error.fileClosed)
  | some hd =>
    if hd.closed then (w, some Error.fileClosed)
    else ({ w with handles := w.handles.set h { hd with closed := true } }, none)

/-- Go `os.Remove(name)`. -/
def remove (w : World) (name : Nat) : World × Option Error :=
  match w.files[name]? with
  | none => (w, some Error.notExist)
  | some f =>
    if f.removed then (w, some Error.notExist)
    else ({ w with files := w.files.set name { f with removed := true } }, none)

/-- Go `h.Seek(offset, io.SeekStart)` on a handle of the table. -/
def seekStart (w : World) (h : Nat) (offset : Int) : World × Option Error :=
  match w.handles[h]? with
  | none => (w, some Error.fileClosed)
  | some hd =>
    if hd.closed then (w, some Error.fileClosed)
    else if offset < 0 then (w, some Error.seekInvalid)
    else ({ w with handles := w.handles.set h { hd with pos := offset.toNat } }, none)

/-- Go `h.Read(buf)` with `len(buf) = n` on a handle of the table: the bytes
read, the world after the read and the error. -/
def read (w : World) (h : Nat) (n : Nat) : List Byte × World × Option Error :=
  match w.handles[h]? with
  | none => ([], w, some Error.fileClosed)
  | some hd =>
    if hd.closed then ([], w, some Error.fileClosed)
    else
      match (File.mk (w.content hd.file) hd.pos).read n with
      | (bs, f, err) => (bs, { w with handles := w.handles.set h { hd with pos := f.pos } }, err)

end World

/-! ## xgzarc.go: the archive reader -/

/-- Result of running the zlib reader (`zlib.NewReader` followed by `io.Copy`)
on the bytes that follow the stream's offset: the bytes delivered to the
destination, the number of source bytes taken from the stream, and the error
if the data is not a well-formed zlib stream. -/
structure Inflated where
  output : List Byte
  consumed : Nat
  err : Option Error

/-- The zlib decompressor of package `compress/zlib`, a parameter of the
development: it maps the source bytes from the current offset on to the
outcome of decompressing them. -/
abbrev Inflater := List Byte → Inflated

/-- Go `ArchiveRecord`: the trailer of the archive. -/
structure ArchiveRecord where
  CRC : Nat
  FileCount : Int
  Version : Int
  RegistrySize : Int
  ArchiveSize : Int
  CompressedRegistry : Bool
  Reserved : List Byte
  deriving DecidableEq, Repr

/-- Zero value of the trailer record. -/
def ArchiveRecord.zero : ArchiveRecord := ⟨0, 0, 0, 0, 0, false, List.replicate 12 0⟩

/-- Go `binary.Size(ArchiveRecord{})`: the sum of the field widths. -/
def archiveRecordSize : Nat := 4 + 4 + 4 + 4 + 4 + 1 + 12

/-- Go `(*ArchiveRecord).FromStream`: `binary.Read` of the fixed-size record,
little-endian, fields in declaration order; a `bool` is true for a non-zero
byte. -/
def ArchiveRecord.FromStream (ar : ArchiveRecord) (stream : File) :
    ArchiveRecord × File × Option Error :=
  match stream.readFull archiveRecordSize with
  | (_, stream, some err) => (ar, stream, some err)
  | (buf, stream, none) =>
    match (slice buf 0 4).bind leUint32, (slice buf 4 8).bind leUint32,
      (slice buf 8 12).bind leUint32, (slice buf 12 16).bind leUint32,
      (slice buf 16 20).bind leUint32, (buf[20]? : Option Byte), slice buf 21 33 with
    | some crc, some fileCount, some version, some registrySize, some archiveSize,
        some flag, some reserved =>
      ({ CRC := crc, FileCount := toInt32 fileCount, Version := toInt32 version,
         RegistrySize := toInt32 registrySize, ArchiveSize := toInt32 archiveSize,
         CompressedRegistry := decide (flag ≠ 0), Reserved := reserved }, stream, none)
    | _, _, _, _, _, _, _ => (ar, stream, some Error.panic)

/-- Go `FileRecord`: one row of the registry.  `Name` and `Path` are Go
strings made of raw bytes. -/
structure FileRecord where
  Name : List Byte
  Path : List Byte
  OSize : Int
  CSize : Int
  Start : Int
  CRC : Nat
  Compressed : Bool
  CompressionLevel : Byte
  deriving DecidableEq, Repr

/-- Zero value of a registry row (`var filerec FileRecord`). -/
def FileRecord.zero : FileRecord := ⟨[], [], 0, 0, 0, 0, false, 0⟩

/-- Go `bytes.Trim(b, "\x00")`: leading and trailing zero bytes removed. -/
def bytesTrimNul (b : List Byte) : List Byte :=
  (((b.dropWhile (fun x => decide (x = 0))).reverse).dropWhile (fun x => decide (x = 0))).reverse

/-- Go `(*FileRecord).FromStream`.  The two 256-byte arrays are read with
`binary.Read` and trimmed into `Name` and `Path`.  The last statement is
`binary.Read(stream, binary.LittleEndian, fr)` with `fr` a pointer to the
whole `FileRecord`.  `encoding/binary` decodes only fixed-size values; a
struct with a `string` field has no fixed size (`binary.Size` is -1 for it),
and `binary.Read` then returns the error "binary.Read: invalid type" before
it reads any byte. -/
def FileRecord.FromStream (fr : FileRecord) (stream : File) :
    FileRecord × File × Option Error :=
  match stream.readFull 256 with
  | (_, stream, some err) => (fr, stream, some err)
  | (nameBytes, stream, none) =>
    match stream.readFull 256 with
    | (_, stream, some err) => (fr, stream, some err)
    | (pathBytes, stream, none) =>
      ({ fr with Name := bytesTrimNul nameBytes, Path := bytesTrimNul pathBytes }, stream,
        some Error.binaryInvalidType)

/-- Go `ZlibArchive`.  `Stream` is the archive's own handle on the input file;
the `Filename` field is left out. -/
structure ZlibArchive where
  ArcRec : ArchiveRecord
  ArcRegistry : List FileRecord
  StartOfArcData : Int
  EndOfArcData : Int
  Stream : File
  MaxBufSize : Nat
  deriving DecidableEq, Repr

/-- Go `io.CopyN(dst, src, n)` seen from the source: the bytes copied, the
source after the copy, and `io.EOF` when the source ends before `n` bytes. -/
def File.copyN (f : File) (n : Nat) : List Byte × File × Option Error :=
  let bs := f.remaining.take n
  (bs, { f with pos := f.pos + bs.length }, if bs.length < n then some Error.eof else none)

/-- Go `(*ZlibArchive).extractSegment`: the name of the temporary file that
received the segment, or the error.  The deferred `tmpFile.Close()` runs on
every path; the temporary file is not removed on failure. -/
def ZlibArchive.extractSegment (inflate : Inflater) (za : ZlibArchive) (w : World)
    (isCompressed : Bool) (numBytes : Int) : Except Error Nat × ZlibArchive × World :=
  match w.createTemp with
  | (name, tmpFile, w) =>
    if isCompressed then
      let r := inflate za.Stream.remaining
      let za := { za with Stream := { za.Stream with pos := za.Stream.pos + r.consumed } }
      let w := w.write tmpFile r.output
      match r.err with
      | some err => (Except.error err, za, (w.close tmpFile).1)
      | none => (Except.ok name, za, (w.close tmpFile).1)
    else
      if numBytes ≤ 0 then (Except.error Error.invalidNumBytes, za, (w.close tmpFile).1)
      else
        match za.Stream.copyN numBytes.toNat with
        | (bs, stream, some err) =>
          (Except.error err, { za with Stream := stream }, ((w.write tmpFile bs).close tmpFile).1)
        | (bs, stream, none) =>
          (Except.ok name, { za with Stream := stream }, ((w.write tmpFile bs).close tmpFile).1)

/-- Loop of `getArchiveIndex` over `i < FileCount`: each iteration decodes one
row from the index file into a fresh record and appends it. -/
def registryLoop : Nat → File → List FileRecord → List FileRecord × File × Option Error
  | 0, idxFile, registry => (registry, idxFile, none)
  | n + 1, idxFile, registry =>
    match FileRecord.FromStream FileRecord.zero idxFile with
    | (_, idxFile, some err) => (registry, idxFile, some err)
    | (filerec, idxFile, none) => registryLoop n idxFile (registry ++ [filerec])

/-- Go `(*ZlibArchive).getArchiveIndex`.  The deferred calls are applied on
every return path after their `defer` statement: the stream is moved back to
the saved offset, the index handle is closed and the index file removed. -/
def ZlibArchive.getArchiveIndex (inflate : Inflater) (za : ZlibArchive) (w : World) :
    ZlibArchive × World × Option Error :=
  let curStreamPos : Int := za.Stream.pos
  let restore := fun (z : ZlibArchive) => { z with Stream := (z.Stream.seekStart curStreamPos).1 }
  match za.Stream.seekEnd (-(archiveRecordSize : Int)) with
  | (_, some err) => (restore za, w, some err)
  | (stream, none) =>
    let za := { za with Stream := stream, EndOfArcData := stream.pos }
    match za.ArcRec.FromStream za.Stream with
    | (_, stream, some err) => (restore { za with Stream := stream }, w, some err)
    | (arcRec, stream, none) =>
      let za := { za with ArcRec := arcRec, Stream := stream }
      match za.Stream.seekEnd (-(archiveRecordSize : Int) - za.ArcRec.RegistrySize) with
      | (_, some err) => (restore za, w, some err)
      | (stream, none) =>
        let za := { za with Stream := stream,
                            StartOfArcData := wrapInt64 (stream.pos - za.ArcRec.ArchiveSize) }
        match za.extractSegment inflate w za.ArcRec.CompressedRegistry 0 with
        | (Except.error err, za, w) => (restore za, w, some err)
        | (Except.ok idxFilename, za, w) =>
          match w.openFile idxFilename with
          | (Except.error err, w) => (restore za, (w.remove idxFilename).1, some err)
          | (Except.ok idxFile, w) =>
            match registryLoop za.ArcRec.FileCount.toNat ⟨w.content idxFilename, 0⟩
                za.ArcRegistry with
            | (registry, _, err) =>
              (restore { za with ArcRegistry := registry },
                ((w.close idxFile).1.remove idxFilename).1, err)

/-- Go `NewZlibArchive`: a fresh handle on the input file, block size 32768,
then the index is read; no archive is returned on failure. -/
def NewZlibArchive (inflate : Inflater) (data : List Byte) (w : World) :
    Except Error ZlibArchive × World :=
  let za : ZlibArchive :=
    { ArcRec := ArchiveRecord.zero, ArcRegistry := [], StartOfArcData := 0, EndOfArcData := 0,
      Stream := ⟨data, 0⟩, MaxBufSize := 32768 }
  match za.getArchiveIndex inflate w with
  | (_, w, some err) => (Except.error err, w)
  | (za, w, none) => (Except.ok za, w)

/-- Go `(*ZlibArchive).GetArchiveFile`: the handle opened on the extracted
temporary file and that file's name (the caller in xgimport.go receives both),
or the error. -/
def ZlibArchive.GetArchiveFile (inflate : Inflater) (za : ZlibArchive) (filerec : FileRecord)
    (w : World) : Except Error (Nat × Nat) × ZlibArchive × World :=
  match za.Stream.seekStart (wrapInt64 (filerec.Start + za.StartOfArcData)) with
  | (_, some err) => (Except.error err, za, w)
  | (stream, none) =>
    match ZlibArchive.extractSegment inflate { za with Stream := stream } w filerec.Compressed
        filerec.CSize with
    | (Except.error err, za, w) => (Except.error err, za, w)
    | (Except.ok tmpFilename, za, w) =>
      match w.openFile tmpFilename with
      | (Except.error err, w) => (Except.error err, za, w)
      | (Except.ok tmpFile, w) => (Except.ok (tmpFile, tmpFilename), za, w)

/-! ## xgimport.go: segments

The declarations at the end of xgimport.go that repeat `GameDataFormatHdrRecord`,
`ZlibArchive`, `FileRecord` and their methods with elided bodies stand for the
definitions of xgstruct.go and xgzarc.go, which are the ones embedded here. -/

/-- Segment kind `GDF_HDR`. -/
def GDF_HDR : Nat := 0
/-- Segment kind `GDF_IMAGE`. -/
def GDF_IMAGE : Nat := 1
/-- Segment kind `XG_GAMEHDR`. -/
def XG_GAMEHDR : Nat := 2
/-- Segment kind `XG_GAMEFILE`. -/
def XG_GAMEFILE : Nat := 3
/-- Segment kind `XG_ROLLOUTS`. -/
def XG_ROLLOUTS : Nat := 4
/-- Segment kind `XG_COMMENT`. -/
def XG_COMMENT : Nat := 5
/-- Segment kind `ZLIBARC_IDX`. -/
def ZLIBARC_IDX : Nat := 6
/-- Segment kind `XG_UNKNOWN`. -/
def XG_UNKNOWN : Nat := 7

/-- Go `XG_GAMEHDR_LEN`. -/
def XG_GAMEHDR_LEN : Nat := 556

/-- Bytes of an ASCII string literal. -/
def ascii (s : String) : List Byte := s.toList.map (fun c => Fin.ofNat c.toNat)

/-- The ASCII bytes of "DMLI". -/
def magicDMLI : List Byte := [0x44, 0x4D, 0x4C, 0x49]

/-- Go `XG_FILEMAP`. -/
def XG_FILEMAP : List (List Byte × Nat) :=
  [(ascii "temp.xgi", XG_GAMEHDR), (ascii "temp.xgr", XG_ROLLOUTS),
   (ascii "temp.xgc", XG_COMMENT), (ascii "temp.xg", XG_GAMEFILE)]

/-- Go map index expression `m[key]` on a `map[string]int`: the stored value,
and the zero value 0 for a key that is absent. -/
def mapIndex (m : List (List Byte × Nat)) (key : List Byte) : Nat :=
  match m.lookup key with
  | some v => v
  | none => 0

/-- Go `filepath.Base` with separator '/': "." for the empty path, trailing
separators dropped, then the last element, "/" if nothing is left. -/
def filepathBase (path : List Byte) : List Byte :=
  if path = [] then [46]
  else
    let stripped := (path.reverse.dropWhile (fun x => decide (x = 47))).reverse
    let last := (stripped.reverse.takeWhile (fun x => decide (x ≠ 47))).reverse
    if last = [] then [47] else last

/-- Go `Segment`: the temporary file's name, the handle on it, the kind (Go
field `Type`, a reserved word here) and the auto-delete flag.  Names and
handles made by this package are never empty or nil. -/
structure Segment where
  Filename : Nat
  File : Nat
  Kind : Nat
  AutoDelete : Bool
  deriving DecidableEq, Repr

/-- Go `NewSegment`. -/
def NewSegment (segmentType : Nat) (autoDelete : Bool) (w : World) : Segment × World :=
  match w.createTemp with
  | (name, tmpFile, w) => (⟨name, tmpFile, segmentType, autoDelete⟩, w)

/-- Go `(*Segment).Close`: close the handle, then remove the file when the
segment is auto-deleting; the first error ends the call. -/
def Segment.Close (s : Segment) (w : World) : World × Option Error :=
  match w.close s.File with
  | (w, some err) => (w, some err)
  | (w, none) => if s.AutoDelete then w.remove s.Filename else (w, none)

/-- A call postponed by a `defer` statement of `GetFileSegment`. -/
inductive Deferred where
  /-- Statement `defer segment.Close()`. -/
  | closeSegment (s : Segment)
  /-- Statement `defer segmentFile.Close()`. -/
  | closeHandle (h : Nat)
  /-- Statement `defer os.Remove(segFilename)`. -/
  | removeFile (name : Nat)
  deriving DecidableEq, Repr

/-- Run one deferred call; its result is discarded. -/
def Deferred.run (d : Deferred) (w : World) : World :=
  match d with
  | Deferred.closeSegment s => (s.Close w).1
  | Deferred.closeHandle h => (w.close h).1
  | Deferred.removeFile name => (w.remove name).1

/-- Run the deferred calls when the function returns, last registered first;
the list holds the most recent `defer` at its head. -/
def runDeferred : List Deferred → World → World
  | [], w => w
  | d :: rest, w => runDeferred rest (d.run w)

/-- Outcome of `GetFileSegment`: the returned slice (`none` is `nil`), the
returned error, and the temporary storage when the caller regains control. -/
structure SegResult where
  segments : Option (List Segment)
  err : Option Error
  world : World
  deriving DecidableEq, Repr

/-- Lines 137-165 of `GetFileSegment`: the loop over `archiveobj.ArcRegistry`,
and the final `return segments, nil`. -/
def segmentLoop (inflate : Inflater) :
    List FileRecord → ZlibArchive → World → List Deferred → List Segment → SegResult
  | [], _, w, defers, segments => ⟨some segments, none, runDeferred defers w⟩
  | filerec :: rest, archiveobj, w, defers, segments =>
    match archiveobj.GetArchiveFile inflate filerec w with
    | (Except.error err, _, w) => ⟨none, some err, runDeferred defers w⟩
    | (Except.ok (segmentFile, segFilename), archiveobj, w) =>
      let defers := Deferred.removeFile segFilename :: Deferred.closeHandle segmentFile :: defers
      let xgFileType := mapIndex XG_FILEMAP (filepathBase filerec.Name)
      let xgFileSegment : Segment := ⟨segFilename, segmentFile, xgFileType, false⟩
      if xgFileType = XG_GAMEFILE then
        match (w.seekStart segmentFile XG_GAMEHDR_LEN).1.read segmentFile 4 with
        | (_, w, some err) => ⟨none, some err, runDeferred defers w⟩
        | (bs, w, none) =>
          let magicStr := bs ++ List.replicate (4 - bs.length) 0
          if magicStr ≠ magicDMLI then ⟨none, some Error.invalidGameFile, runDeferred defers w⟩
          else segmentLoop inflate rest archiveobj w defers (segments ++ [xgFileSegment])
      else segmentLoop inflate rest archiveobj w defers (segments ++ [xgFileSegment])

/-- Lines 132-135 of `GetFileSegment`: open the archive, then run the loop. -/
def archivePhase (inflate : Inflater) (data : List Byte) (w : World) (defers : List Deferred)
    (segments : List Segment) : SegResult :=
  match NewZlibArchive inflate data w with
  | (Except.error err, w) => ⟨none, some err, runDeferred defers w⟩
  | (Except.ok archiveobj, w) =>
    segmentLoop inflate archiveobj.ArcRegistry archiveobj w defers segments

/-- Lines 113-130 of `GetFileSegment`: the thumbnail segment when
`ThumbnailSize > 0`.  The result of the `Seek` is ignored; `make` panics on a
negative length, which cannot happen under the guard. -/
def thumbnailPhase (inflate : Inflater) (data : List Byte) (gdfheader : GameDataFormatHdrRecord)
    (xginfile : File) (w : World) (defers : List Deferred) (segments : List Segment) :
    SegResult :=
  if gdfheader.ThumbnailSize > 0 then
    match NewSegment GDF_IMAGE true w with
    | (segment, w) =>
      let defers := Deferred.closeSegment segment :: defers
      let xginfile := (xginfile.seekStart gdfheader.ThumbnailOffset).1
      match xginfile.read gdfheader.ThumbnailSize.toNat with
      | (_, _, some err) => ⟨none, some err, runDeferred defers w⟩
      | (bs, _, none) =>
        let imgbuf := bs ++ List.replicate (gdfheader.ThumbnailSize.toNat - bs.length) 0
        archivePhase inflate data (w.write segment.File imgbuf) defers (segments ++ [segment])
  else archivePhase inflate data w defers segments

/-- Go `(*Import).GetFileSegment` on an input file with the given bytes.
Opening the input is taken to succeed.  `make([]byte, gdfheader.HeaderSize)`
panics on a negative size; deferred calls run on that path too. -/
def GetFileSegment (inflate : Inflater) (data : List Byte) (w : World) : SegResult :=
  match GameDataFormatHdrRecord.FromStream GameDataFormatHdrRecord.zero ⟨data, 0⟩ with
  | (_, _, some _) => ⟨none, some Error.notGameDataFormat, w⟩
  | (gdfheader, xginfile, none) =>
    match NewSegment GDF_HDR true w with
    | (segment, w) =>
      let defers := [Deferred.closeSegment segment]
      let xginfile := (xginfile.seekStart 0).1
      if gdfheader.HeaderSize < 0 then ⟨none, some Error.panic, runDeferred defers w⟩
      else
        match xginfile.read gdfheader.HeaderSize.toNat with
        | (_, _, some err) => ⟨none, some err, runDeferred defers w⟩
        | (bs, xginfile, none) =>
          let block := bs ++ List.replicate (gdfheader.HeaderSize.toNat - bs.length) 0
          thumbnailPhase inflate data gdfheader xginfile (w.write segment.File block) defers
            [segment]

/-- A zlib reader defined on one stream only: it accepts the eight bytes
`78 9c 03 00 00 00 00 01`, the zlib encoding of the empty byte string, and
rejects every other input. -/
def inflateEmptyOnly : Inflater := fun src =>
  if src.take 8 = [0x78, 0x9c, 0x03, 0x00, 0x00, 0x00, 0x00, 0x01] then ⟨[], 8, none⟩
  else ⟨[], 0, some Error.zlib⟩

/-! ## Derived descriptions and sample inputs -/

/-- What `GetArchiveFile` makes of a registry entry, as a function of the input
file's bytes and of `StartOfArcData` alone: the bytes that the temporary file
receives, or the error. -/
def entryOutcome (inflate : Inflater) (data : List Byte) (startOfArcData : Int)
    (filerec : FileRecord) : Except Error (List Byte) :=
  let target := wrapInt64 (filerec.Start + startOfArcData)
  if target < 0 then Except.error Error.seekInvalid
  else if filerec.Compressed then
    match (inflate (data.drop target.toNat)).err with
    | some err => Except.error err
    | none => Except.ok (inflate (data.drop target.toNat)).output
  else if filerec.CSize ≤ 0 then Except.error Error.invalidNumBytes
  else if ((data.drop target.toNat).take filerec.CSize.toNat).length < filerec.CSize.toNat then
    Except.error Error.eof
  else Except.ok ((data.drop target.toNat).take filerec.CSize.toNat)

/-- Content of the temporary file that `GetArchiveFile` hands back for an
entry, when the extraction succeeds (run in an empty temporary directory). -/
def extractedContent (inflate : Inflater) (za : ZlibArchive) (filerec : FileRecord) :
    Option (List Byte) :=
  match za.GetArchiveFile inflate filerec World.empty with
  | (Except.ok (_, name), _, w) => some (w.content name)
  | (Except.error _, _, _) => none

/-- The record and the error that the header decoder gives for an input file
read from its start. -/
def headerOutcome (data : List Byte) : GameDataFormatHdrRecord × Option Error :=
  match GameDataFormatHdrRecord.FromStream GameDataFormatHdrRecord.zero ⟨data, 0⟩ with
  | (hdr, _, err) => (hdr, err)

/-- The archive that `NewZlibArchive` returns for an input, when it opens (run
in an empty temporary directory). -/
def openedArchive (inflate : Inflater) (data : List Byte) : Option ZlibArchive :=
  match NewZlibArchive inflate data World.empty with
  | (Except.ok za, _) => some za
  | (Except.error _, _) => none

/-- The sixteen packed bytes `00 11 22 ... FF`. -/
def sampleGUID : List Byte :=
  [0x00, 0x11, 0x22, 0x33, 0x44, 0x55, 0x66, 0x77,
   0x88, 0x99, 0xAA, 0xBB, 0xCC, 0xDD, 0xEE, 0xFF]

/-- The zlib encoding of the empty byte string. -/
def emptyZlib : List Byte := [0x78, 0x9c, 0x03, 0x00, 0x00, 0x00, 0x00, 0x01]

/-- A trailer: no entry, registry of 8 bytes, compressed-registry flag set. -/
def sampleTrailer : List Byte :=
  [0, 0, 0, 0, 0, 0, 0, 0, 0, 0, 0, 0, 8, 0, 0, 0, 0, 0, 0, 0, 1] ++ List.replicate 12 0

/-- A well-formed file: header with HeaderSize 8232 and no thumbnail, an empty
compressed registry, the trailer. -/
def sampleFile : List Byte :=
  magicHMGR ++ [1, 0, 0, 0] ++ [0x28, 0x20, 0, 0] ++ List.replicate 8220 0
    ++ emptyZlib ++ sampleTrailer

/-- The same file with ThumbnailSize 1 and ThumbnailOffset 1000000, an offset
past the end of the file. -/
def badThumbFile : List Byte :=
  magicHMGR ++ [1, 0, 0, 0] ++ [0x28, 0x20, 0, 0] ++ [0x40, 0x42, 0x0F, 0, 0, 0, 0, 0]
    ++ [1, 0, 0, 0] ++ List.replicate 8208 0 ++ emptyZlib ++ sampleTrailer

/-- An archive with an uncompressed registry: four bytes of entry data, one
530-byte registry row for the entry "temp.xg" (sizes 4, start 0, not
compressed), and a trailer with FileCount 1, RegistrySize 530, ArchiveSize 4
and the compressed-registry flag unset. -/
def rawRegistryFile : List Byte :=
  ascii "DATA"
    ++ (ascii "temp.xg" ++ List.replicate 249 0 ++ List.replicate 256 0
        ++ [4, 0, 0, 0, 4, 0, 0, 0, 0, 0, 0, 0, 0, 0, 0, 0, 0, 0])
    ++ ([0, 0, 0, 0, 1, 0, 0, 0, 0, 0, 0, 0, 0x12, 2, 0, 0, 4, 0, 0, 0, 0] ++ List.replicate 12 0)

/-- An archive object over the four bytes "DATA", entry data starting at 0,
with its stream left at offset 3. -/
def sampleArchive : ZlibArchive :=
  { ArcRec := ArchiveRecord.zero, ArcRegistry := [], StartOfArcData := 0, EndOfArcData := 4,
    Stream := ⟨ascii "DATA", 3⟩, MaxBufSize := 32768 }

/-- A registry entry whose name is not in `XG_FILEMAP`: "dir/foo.bin", four
bytes at start 0, not compressed. -/
def unknownEntry : FileRecord :=
  { Name := ascii "dir/foo.bin", Path := [], OSize := 4, CSize := 4, Start := 0, CRC := 0,
    Compressed := false, CompressionLevel := 0 }

/-- The archive object that `NewZlibArchive` returns for `sampleFile` with the
one-stream zlib reader. -/
def sampleOpened : ZlibArchive :=
  match openedArchive inflateEmptyOnly sampleFile with
  | some za => za
  | none => sampleArchive

/-- Entry data of 560 bytes with "DMLI" at offset 556. -/
def gameData : List Byte := List.replicate 556 0 ++ magicDMLI

/-- An archive object over `gameData`, entry data starting at 0. -/
def gameArchive : ZlibArchive :=
  { ArcRec := ArchiveRecord.zero, ArcRegistry := [], StartOfArcData := 0, EndOfArcData := 560,
    Stream := ⟨gameData, 0⟩, MaxBufSize := 32768 }

/-- The entry "temp.xg" covering all 560 bytes of `gameData`, not compressed. -/
def goodGameEntry : FileRecord :=
  { Name := ascii "temp.xg", Path := [], OSize := 560, CSize := 560, Start := 0, CRC := 0,
    Compressed := false, CompressionLevel := 0 }

/-- The entry "temp.xg" covering only the first 556 bytes of `gameData`. -/
def badGameEntry : FileRecord :=
  { Name := ascii "temp.xg", Path := [], OSize := 556, CSize := 556, Start := 0, CRC := 0,
    Compressed := false, CompressionLevel := 0 }

/-! ## xgutils.go: Delphi short strings and the stream checksum -/

/-- Go `DelphiShortStrToStr` (xgutils.go): `shortStr[0]` is the length, the
result is `string(shortStr[1 : length+1])`, raw bytes.  `none` is the panic of
the index or slice expression on a buffer that is too short. -/
def DelphiShortStrToStr (shortStr : List Byte) : Option (List Byte) :=
  match shortStr[0]? with
  | none => none
  | some length => slice shortStr 1 (length.val + 1)

/-- Go `crc32Update` (xgutils.go).  The body is
`crc32 ^ binary.LittleEndian.Uint32(data)`; no `crc32` is in scope there, and
the name is read as the parameter `crc`.  Only the first four bytes of `data`
enter the result; `none` is the bounds panic of `Uint32` on fewer than four
bytes. -/
def crc32Update (crc : Nat) (data : List Byte) : Option Nat :=
  (leUint32 data).map (fun v => crc ^^^ v)

/-- Result of one `n, err := stream.Read(...)` step of `StreamCRC32` on the
running checksum: `if n > 0 { crc32 = crc32Update(crc32, buf[:n]) }`. -/
def crcStep (crc : Nat) (bs : List Byte) : Option Nat :=
  if 0 < bs.length then crc32Update crc bs else some crc

/-- Loop of `StreamCRC32` for `numBytes == 0`: read blocks until `io.EOF`.
`none` means that the given number of iterations did not reach a `return` or
`break`. -/
def crcLoopAll (blkSize : Nat) : Nat → File → Nat → Option (Except Error Nat × File)
  | 0, _, _ => none
  | fuel + 1, stream, crc =>
    match stream.read blkSize with
    | (bs, stream, err) =>
      match crcStep crc bs with
      | none => some (Except.error Error.panic, stream)
      | some crc =>
        match err with
        | some Error.eof => some (Except.ok crc, stream)
        | some e => some (Except.error e, stream)
        | none => crcLoopAll blkSize fuel stream crc

/-- Loop of `StreamCRC32` for `numBytes != 0`: `for bytesLeft > 0`, with the
block size cut down to the bytes left.  `none` means that the given number of
iterations did not reach the end of the loop. -/
def crcLoopN : Nat → Nat → Int → File → Nat → Option (Except Error Nat × File)
  | 0, _, _, _, _ => none
  | fuel + 1, blkSize, bytesLeft, stream, crc =>
    if bytesLeft > 0 then
      let blkSize := if (blkSize : Int) > bytesLeft then bytesLeft.toNat else blkSize
      match stream.read blkSize with
      | (bs, stream, err) =>
        match crcStep crc bs with
        | none => some (Except.error Error.panic, stream)
        | some crc =>
          match err with
          | some e => some (Except.error e, stream)
          | none =>
            crcLoopN fuel blkSize (if 0 < bs.length then bytesLeft - bs.length else bytesLeft)
              stream crc
    else some (Except.ok crc, stream)

/-- Go `StreamCRC32` (xgutils.go), run for at most `fuel` loop iterations: the
returned checksum or error and the stream after the call; `none` when the loop
does not end within `fuel` iterations.  `make([]byte, blkSize)` panics on a
negative block size. -/
def StreamCRC32 (fuel : Nat) (stream : File) (numBytes startPos blkSize : Int) :
    Option (Except Error Nat × File) :=
  let curStreamPos : Int := stream.pos
  match (if startPos ≠ 0 then stream.seekStart startPos else (stream, none)) with
  | (stream, some err) => some (Except.error err, stream)
  | (stream, none) =>
    if blkSize < 0 then some (Except.error Error.panic, stream)
    else
      match (if numBytes = 0 then crcLoopAll blkSize.toNat fuel stream 0
        else crcLoopN fuel blkSize.toNat numBytes stream 0) with
      | none => none
      | some (Except.error err, stream) => some (Except.error err, stream)
      | some (Except.ok crc, stream) =>
        match stream.seekStart curStreamPos with
        | (stream, some err) => some (Except.error err, stream)
        | (stream, none) => some (Except.ok crc, stream)

/-- The checksum as the specification words it: the exclusive or, starting
from 0, of the consecutive 4-byte chunks read as little-endian integers. -/
def xorOfChunks : List Byte → Nat
  | b0 :: b1 :: b2 :: b3 :: rest =>
      (b0.val + 256 * b1.val + 65536 * b2.val + 16777216 * b3.val) ^^^ xorOfChunks rest
  | _ => 0

/-- One 530-byte registry row: name "temp.xg", empty path, OSize 4, CSize 4,
Start 0, CRC 0, not compressed, level 0. -/
def sampleRow : List Byte :=
  ascii "temp.xg" ++ List.replicate 249 0 ++ List.replicate 256 0
    ++ [4, 0, 0, 0, 4, 0, 0, 0, 0, 0, 0, 0, 0, 0, 0, 0, 0, 0]

/-- A header record with every field set. -/
def sampleRecord : GameDataFormatHdrRecord :=
  ⟨magicHMGR, 1, 8232, 40, 7, "guid", "game", "save", "level", "comments"⟩

/-- Adler-32 checksum of RFC 1950, as the pair of running sums. -/
def adler32Sums (bs : List Byte) : Nat × Nat :=
  bs.foldl (fun s x => ((s.1 + x.val) % 65521, (s.2 + (s.1 + x.val) % 65521) % 65521)) (1, 0)

/-- The four bytes of the Adler-32 checksum, most significant first. -/
def adler32Bytes (bs : List Byte) : List Byte :=
  [Fin.ofNat ((adler32Sums bs).2 / 256), Fin.ofNat ((adler32Sums bs).2 % 256),
   Fin.ofNat ((adler32Sums bs).1 / 256), Fin.ofNat ((adler32Sums bs).1 % 256)]

/-- The zlib stream (RFC 1950) that holds a payload of fewer than 65536 bytes
in one final stored block (RFC 1951, block type 00): header `78 01`, block
header `01`, the length and its complement, the payload, the Adler-32
checksum. -/
def zlibStored (payload : List Byte) : List Byte :=
  [0x78, 0x01, 0x01, Fin.ofNat (payload.length % 256), Fin.ofNat (payload.length / 256),
    Fin.ofNat (255 - payload.length % 256), Fin.ofNat (255 - payload.length / 256)]
    ++ payload ++ adler32Bytes payload

/-- A zlib reader defined on single stored blocks only: it accepts a stream of
the form `zlibStored payload`, checks the length complement and the checksum,
delivers the payload, and rejects every other input. -/
def inflateStored : Inflater := fun src =>
  match src with
  | 0x78 :: 0x01 :: 0x01 :: l0 :: l1 :: n0 :: n1 :: rest =>
    if l0.val + n0.val = 255 ∧ l1.val + n1.val = 255 ∧
        l0.val + 256 * l1.val ≤ rest.length ∧
        (rest.drop (l0.val + 256 * l1.val)).take 4
          = adler32Bytes (rest.take (l0.val + 256 * l1.val)) then
      ⟨rest.take (l0.val + 256 * l1.val), 7 + (l0.val + 256 * l1.val) + 4, none⟩
    else ⟨[], 0, some Error.zlib⟩
  | _ => ⟨[], 0, some Error.zlib⟩

/-- The 530-byte registry row of the entry "temp.xg" of `wellFormedFile`:
OSize 560, CSize 571, Start 0, CRC 0, compressed, level 0. -/
def gameRow : List Byte :=
  ascii "temp.xg" ++ List.replicate 249 0 ++ List.replicate 256 0
    ++ [0x30, 2, 0, 0, 0x3B, 2, 0, 0, 0, 0, 0, 0, 0, 0, 0, 0, 1, 0]

/-- A well-formed file with a 0-byte thumbnail and one compressed entry
"temp.xg": the header (HeaderSize 8232), the zlib stream of the 560 bytes of
`gameData` ("DMLI" at offset 556), the zlib stream of the registry row, and the
trailer with FileCount 1, RegistrySize 541, ArchiveSize 571 and the
compressed-registry flag set. -/
def wellFormedFile : List Byte :=
  magicHMGR ++ [1, 0, 0, 0] ++ [0x28, 0x20, 0, 0] ++ List.replicate 8220 0
    ++ zlibStored gameData ++ zlibStored gameRow
    ++ ([0, 0, 0, 0, 1, 0, 0, 0, 0, 0, 0, 0, 0x1D, 2, 0, 0, 0x3B, 2, 0, 0, 1]
        ++ List.replicate 12 0)

/-- Whether a handle of the table is open. -/
def World.handleOpen (w : World) (h : Nat) : Bool :=
  match w.handles[h]? with
  | some hd => !hd.closed
  | none => false

/-- The file `sampleFile` with HeaderSize 9000 in the header: a header size
larger than the 8273 bytes of the file. -/
def longHeaderFile : List Byte :=
  magicHMGR ++ [1, 0, 0, 0] ++ [0x28, 0x23, 0, 0] ++ List.replicate 8220 0
    ++ emptyZlib ++ sampleTrailer

/-- The registry entry that the row `gameRow` describes: "temp.xg", OSize 560,
CSize 571, Start 0, compressed. -/
def gameEntry : FileRecord :=
  { Name := ascii "temp.xg", Path := [], OSize := 560, CSize := 571, Start := 0, CRC := 0,
    Compressed := true, CompressionLevel := 0 }

/-- An archive object over `wellFormedFile` with the offsets that its trailer
gives: entry data from 8232 to the start of the registry at 8803. -/
def wellFormedArchive : ZlibArchive :=
  { ArcRec := ArchiveRecord.zero, ArcRegistry := [], StartOfArcData := 8232, EndOfArcData := 9344,
    Stream := ⟨wellFormedFile, 0⟩, MaxBufSize := 32768 }

/-! ## xgstruct.go: the double-action record of the analysis engine -/

/-- Go conversion `int8(b)` of a byte. -/
def toInt8 (b : Byte) : Int := if b.val < 128 then (b.val : Int) else (b.val : Int) - 256

/-- Go conversion `float32(x)` of a `uint32` value: the nearest value with a
24-bit significand, ties to the even significand.  The result is a whole number
between 0 and 2^32 and is represented by that number. -/
def float32OfUint32 (v : Nat) : Nat :=
  if v < 16777216 then v
  else
    let e := Nat.log2 v - 23
    let q := v / 2 ^ e
    let r := v % 2 ^ e
    if 2 * r > 2 ^ e ∨ (2 * r = 2 ^ e ∧ q % 2 = 1) then (q + 1) * 2 ^ e else q * 2 ^ e

/-- Go `EngineStructDoubleAction`.  A `float32` field that `FromStream` fills
holds the value of a `uint32` converted to `float32`, a whole number. -/
structure EngineStructDoubleAction where
  Pos : List Int
  Level : Int
  Score : List Int
  Cube : Int
  CubePos : Int
  Jacoby : Int
  Crawford : Int
  Met : Int
  FlagDouble : Int
  IsBeaver : Int
  Eval : List Nat
  EquB : Nat
  EquDouble : Nat
  EquDrop : Nat
  LevelRequest : Int
  DoubleChoice3 : Int
  EvalDouble : List Nat
  deriving DecidableEq, Repr

/-- Zero value of the record. -/
def EngineStructDoubleAction.zero : EngineStructDoubleAction :=
  { Pos := List.replicate 26 0, Level := 0, Score := [0, 0], Cube := 0, CubePos := 0,
    Jacoby := 0, Crawford := 0, Met := 0, FlagDouble := 0, IsBeaver := 0,
    Eval := List.replicate 7 0, EquB := 0, EquDouble := 0, EquDrop := 0, LevelRequest := 0,
    DoubleChoice3 := 0, EvalDouble := List.replicate 7 0 }

/-- Expression `int32(binary.LittleEndian.Uint32(unpackedData[lo:hi]))`. -/
def int32At (unpackedData : List Byte) (lo hi : Nat) : Option Int :=
  ((slice unpackedData lo hi).bind leUint32).map toInt32

/-- Expression `float32(binary.LittleEndian.Uint32(unpackedData[lo:hi]))`. -/
def float32At (unpackedData : List Byte) (lo hi : Nat) : Option Nat :=
  ((slice unpackedData lo hi).bind leUint32).map float32OfUint32

/-- Run assignment statements in order on a record that is updated in place;
a statement that panics (`none`) ends the run with the record as it is. -/
def runSteps {ρ : Type} : List (ρ → Option ρ) → ρ → ρ × Option Error
  | [], r => (r, none)
  | step :: rest, r =>
    match step r with
    | none => (r, some Error.panic)
    | some r => runSteps rest r

/-- The assignment statements of `(*EngineStructDoubleAction).FromStream` after
the read, in source order; the two `for i := 0; i < 7; i++` loops contribute
one statement per iteration.  `copy(esdar.Pos[:], unpackedData[0:26])` is read
as the element-wise conversion of the 26 bytes to `int8`. -/
def doubleActionSteps (unpackedData : List Byte) :
    List (EngineStructDoubleAction → Option EngineStructDoubleAction) :=
  [fun r => (slice unpackedData 0 26).map (fun bs => { r with Pos := bs.map toInt8 }),
   fun r => (int32At unpackedData 26 30).map (fun v => { r with Level := v }),
   fun r => (int32At unpackedData 30 34).map (fun v => { r with Score := r.Score.set 0 v }),
   fun r => (int32At unpackedData 34 38).map (fun v => { r with Score := r.Score.set 1 v }),
   fun r => (int32At unpackedData 38 42).map (fun v => { r with Cube := v }),
   fun r => (int32At unpackedData 42 46).map (fun v => { r with CubePos := v }),
   fun r => (int32At unpackedData 46 50).map (fun v => { r with Jacoby := v }),
   fun r => (int32At unpackedData 50 54).map (fun v => { r with Crawford := v }),
   fun r => (int32At unpackedData 54 58).map (fun v => { r with Met := v }),
   fun r => (int32At unpackedData 58 62).map (fun v => { r with FlagDouble := v }),
   fun r => (int32At unpackedData 62 66).map (fun v => { r with IsBeaver := v })]
  ++ (List.range 7).map (fun i => fun r =>
        (float32At unpackedData (66 + i * 4) (70 + i * 4)).map
          (fun v => { r with Eval := r.Eval.set i v }))
  ++ [fun r => (float32At unpackedData 94 98).map (fun v => { r with EquB := v }),
      fun r => (float32At unpackedData 98 102).map (fun v => { r with EquDouble := v }),
      fun r => (float32At unpackedData 102 106).map (fun v => { r with EquDrop := v }),
      fun r => (int32At unpackedData 106 110).map (fun v => { r with LevelRequest := v }),
      fun r => (int32At unpackedData 110 114).map (fun v => { r with DoubleChoice3 := v })]
  ++ (List.range 7).map (fun i => fun r =>
        (float32At unpackedData (114 + i * 4) (118 + i * 4)).map
          (fun v => { r with EvalDouble := r.EvalDouble.set i v }))

/-- Go `(*EngineStructDoubleAction).FromStream` (xgstruct.go): `io.ReadFull`
into a 132-byte array, then the assignments.  The record is updated in place,
so the fields assigned before a panic keep their new values. -/
def EngineStructDoubleAction.FromStream (esdar : EngineStructDoubleAction) (stream : File) :
    EngineStructDoubleAction × File × Option Error :=
  match stream.readFull 132 with
  | (_, stream, some err) => (esdar, stream, some err)
  | (unpackedData, stream, none) =>
    match runSteps (doubleActionSteps unpackedData) esdar with
    | (esdar, err) => (esdar, stream, err)

/-- A stream of 142 bytes, the sum of the field widths of
`EngineStructDoubleAction`: byte `i` has value `i`. -/
def doubleActionBytes : List Byte := (List.range 142).map (fun i => Fin.ofNat i)

/-- The archive object that `NewZlibArchive` builds before it reads the index,
with its stream moved to a given offset. -/
def archiveAt (data : List Byte) (pos : Nat) : ZlibArchive :=
  { ArcRec := ArchiveRecord.zero, ArcRegistry := [], StartOfArcData := 0, EndOfArcData := 0,
    Stream := ⟨data, pos⟩, MaxBufSize := 32768 }

/-- A trailer with FileCount 1, a registry of 8 bytes and the
compressed-registry flag set. -/
def oneRowTrailer : List Byte :=
  [0, 0, 0, 0, 1, 0, 0, 0, 0, 0, 0, 0, 8, 0, 0, 0, 0, 0, 0, 0, 1] ++ List.replicate 12 0

/-- The GUID rendering as the specification words it: bytes 0-3 as a
little-endian 32-bit group, bytes 4-5 and 6-7 as little-endian 16-bit groups,
and the bytes from index 8 on in their stored order, in groups of 8, 4, 4, 4
and 12 hexadecimal digits. -/
def guidRendering (guid : List Byte) : Option String := do
  let a ← (slice guid 0 4).bind leUint32
  let b ← (slice guid 4 6).bind leUint16
  let c ← (slice guid 6 8).bind leUint16
  let d ← slice guid 8 10
  let e ← slice guid 10 16
  pure (String.mk (fmtHex 8 a ++ '-' :: fmtHex 4 b ++ '-' :: fmtHex 4 c ++ '-'
    :: fmtHexBytes 4 d ++ '-' :: fmtHexBytes 12 e))

/-- The file `sampleFile` with the sixteen bytes `00 11 22 ... FF` as the
packed GUID at [24:40). -/
def guidFile : List Byte :=
  magicHMGR ++ [1, 0, 0, 0] ++ [0x28, 0x20, 0, 0] ++ List.replicate 12 0 ++ sampleGUID
    ++ List.replicate 8192 0 ++ emptyZlib ++ sampleTrailer

/-- The 530-byte registry row of the entry "dir/foo.bin" of `unknownEntryFile`:
OSize 4, CSize 15, Start 0, CRC 0, compressed, level 0. -/
def fooRow : List Byte :=
  ascii "dir/foo.bin" ++ List.replicate 245 0 ++ List.replicate 256 0
    ++ [4, 0, 0, 0, 15, 0, 0, 0, 0, 0, 0, 0, 0, 0, 0, 0, 1, 0]

/-- A well-formed file with a 0-byte thumbnail and one compressed entry named
"dir/foo.bin", a name that `XG_FILEMAP` does not hold: the header (HeaderSize
8232), the zlib stream of the four bytes "DATA", the zlib stream of the
registry row, and the trailer with FileCount 1, RegistrySize 541, ArchiveSize
15 and the compressed-registry flag set. -/
def unknownEntryFile : List Byte :=
  magicHMGR ++ [1, 0, 0, 0] ++ [0x28, 0x20, 0, 0] ++ List.replicate 8220 0
    ++ zlibStored (ascii "DATA") ++ zlibStored fooRow
    ++ ([0, 0, 0, 0, 1, 0, 0, 0, 0, 0, 0, 0, 0x1D, 2, 0, 0, 15, 0, 0, 0, 1]
        ++ List.replicate 12 0)

/-- The registry entry that the row `fooRow` describes. -/
def fooEntry : FileRecord :=
  { Name := ascii "dir/foo.bin", Path := [], OSize := 4, CSize := 15, Start := 0, CRC := 0,
    Compressed := true, CompressionLevel := 0 }

/-- An archive object over `unknownEntryFile` with the offsets that its
trailer gives: entry data from 8232 to the start of the registry at 8247. -/
def unknownEntryArchive : ZlibArchive :=
  { ArcRec := ArchiveRecord.zero, ArcRegistry := [], StartOfArcData := 8232, EndOfArcData := 8788,
    Stream := ⟨unknownEntryFile, 0⟩, MaxBufSize := 32768 }

/-! ## Theorems -/

/-! ### Helper lemmas on slices and integers -/

theorem slice_eq_some {data : List Byte} {lo hi : Nat} (h1 : lo ≤ hi) (h2 : hi ≤ data.length) :
    slice data lo hi = some ((data.drop lo).take (hi - lo)) := by
  simp [slice, h1, h2]

theorem slice_length {data out : List Byte} {lo hi : Nat} (h : slice data lo hi = some out) :
    out.length = hi - lo := by
  unfold slice at h
  split at h
  · rename_i hc
    simp only [Option.some.injEq] at h
    subst h
    simp only [List.length_take, List.length_drop]
    omega
  · simp at h

theorem slice_take {data : List Byte} {lo hi n : Nat} (h1 : hi ≤ n) (h2 : n ≤ data.length) :
    slice (data.take n) lo hi = slice data lo hi := by
  unfold slice
  have hl : (data.take n).length = n := by simp [List.length_take]; omega
  by_cases hc : lo ≤ hi
  · have c1 : lo ≤ hi ∧ hi ≤ (data.take n).length := ⟨hc, by omega⟩
    have c2 : lo ≤ hi ∧ hi ≤ data.length := ⟨hc, by omega⟩
    rw [if_pos c1, if_pos c2, List.drop_take, List.take_take]
    congr 2
    omega
  · have c1 : ¬ (lo ≤ hi ∧ hi ≤ (data.take n).length) := fun h => hc h.1
    have c2 : ¬ (lo ≤ hi ∧ hi ≤ data.length) := fun h => hc h.1
    rw [if_neg c1, if_neg c2]

theorem leUint16_isSome {l : List Byte} (h : 2 ≤ l.length) : ∃ v, leUint16 l = some v := by
  rcases l with _ | ⟨a, _ | ⟨b, t⟩⟩
  · simp at h
  · simp at h
  · exact ⟨_, rfl⟩

theorem leUint32_isSome {l : List Byte} (h : 4 ≤ l.length) : ∃ v, leUint32 l = some v := by
  rcases l with _ | ⟨a, _ | ⟨b, _ | ⟨c, _ | ⟨d, t⟩⟩⟩⟩
  · simp at h
  · simp at h
  · simp at h
  · simp at h
  · exact ⟨_, rfl⟩

theorem leUint64_isSome {l : List Byte} (h : 8 ≤ l.length) : ∃ v, leUint64 l = some v := by
  rcases l with _ | ⟨a, _ | ⟨b, _ | ⟨c, _ | ⟨d, _ | ⟨e, _ | ⟨f, _ | ⟨g, _ | ⟨k, t⟩⟩⟩⟩⟩⟩⟩⟩
  all_goals first
    | exact ⟨_, rfl⟩
    | simp at h

theorem unpackUint16Array_isSome : ∀ (n : Nat) (l : List Byte), l.length = 2 * n →
    ∃ v, unpackUint16Array l = some v
  | 0, l, h => by
      have : l = [] := List.length_eq_zero.mp (by omega)
      subst this
      exact ⟨[], rfl⟩
  | n + 1, l, h => by
      rcases l with _ | ⟨a, _ | ⟨b, t⟩⟩
      · simp at h
      · simp only [List.length_cons, List.length_nil] at h; omega
      · have ht : t.length = 2 * n := by
          simp only [List.length_cons] at h; omega
        obtain ⟨v, hv⟩ := unpackUint16Array_isSome n t ht
        exact ⟨(a.val + 256 * b.val) :: v, by simp [unpackUint16Array, hv]⟩

theorem formatGUID_isSome (guid : List Byte) (h : 16 ≤ guid.length) :
    ∃ s, formatGUID guid = some s := by
  obtain ⟨a, ha⟩ := leUint32_isSome (l := (guid.drop 0).take (4 - 0))
    (by simp only [List.length_take, List.length_drop]; omega)
  obtain ⟨b, hb⟩ := leUint16_isSome (l := (guid.drop 4).take (6 - 4))
    (by simp only [List.length_take, List.length_drop]; omega)
  obtain ⟨c, hc⟩ := leUint16_isSome (l := (guid.drop 6).take (8 - 6))
    (by simp only [List.length_take, List.length_drop]; omega)
  obtain ⟨d, hd⟩ := leUint16_isSome (l := (guid.drop 8).take (10 - 8))
    (by simp only [List.length_take, List.length_drop]; omega)
  unfold formatGUID
  rw [slice_eq_some (by omega) (by omega), slice_eq_some (by omega) (by omega),
    slice_eq_some (by omega) (by omega), slice_eq_some (by omega) (by omega),
    slice_eq_some (by omega) (by omega)]
  simp only [Option.some_bind, ha, hb, hc, hd, Option.bind_eq_bind, Option.pure_def]
  exact ⟨_, rfl⟩

theorem leUint32_lt {l : List Byte} {v : Nat} (h : leUint32 l = some v) : v < 4294967296 := by
  rcases l with _ | ⟨a, _ | ⟨b, _ | ⟨c, _ | ⟨d, t⟩⟩⟩⟩
  · simp [leUint32] at h
  · simp [leUint32] at h
  · simp [leUint32] at h
  · simp [leUint32] at h
  · simp only [leUint32, Option.some.injEq] at h
    have := a.isLt
    have := b.isLt
    have := c.isLt
    have := d.isLt
    omega

theorem toInt32_eq_one_iff {v : Nat} (h : v < 4294967296) : toInt32 v = 1 ↔ v = 1 := by
  unfold toInt32
  rw [Nat.mod_eq_of_lt h]
  split <;> omega

theorem readFull_of_le {stream : File} {n : Nat} (h : n ≤ stream.remaining.length) :
    stream.readFull n = (stream.remaining.take n, { stream with pos := stream.pos + n }, none) := by
  have hl : (stream.remaining.take n).length = n := by
    simp only [List.length_take]; omega
  simp only [File.readFull, hl, if_true]

theorem readFull_error_of_lt (stream : File) (n : Nat) (h : stream.remaining.length < n) :
    ∃ bs s e, stream.readFull n = (bs, s, some e) := by
  have hl : (stream.remaining.take n).length ≠ n := by
    simp only [List.length_take]; omega
  simp only [File.readFull, hl, if_false]
  split
  · exact ⟨_, _, _, rfl⟩
  · exact ⟨_, _, _, rfl⟩

theorem decodeHeaderBody_isSome (hdr : GameDataFormatHdrRecord) {d : List Byte}
    (hd : d.length = 8232) : ∃ r, decodeHeaderBody hdr d = some r := by
  obtain ⟨v1, h1⟩ := leUint32_isSome (l := (d.drop 8).take (12 - 8))
    (by simp only [List.length_take, List.length_drop]; omega)
  obtain ⟨v2, h2⟩ := leUint64_isSome (l := (d.drop 12).take (20 - 12))
    (by simp only [List.length_take, List.length_drop]; omega)
  obtain ⟨v3, h3⟩ := leUint32_isSome (l := (d.drop 20).take (24 - 20))
    (by simp only [List.length_take, List.length_drop]; omega)
  obtain ⟨v4, h4⟩ := formatGUID_isSome ((d.drop 24).take (40 - 24))
    (by simp only [List.length_take, List.length_drop]; omega)
  obtain ⟨v5, h5⟩ := unpackUint16Array_isSome 1012 ((d.drop 40).take (2064 - 40))
    (by simp only [List.length_take, List.length_drop]; omega)
  obtain ⟨v6, h6⟩ := unpackUint16Array_isSome 1012 ((d.drop 2064).take (4088 - 2064))
    (by simp only [List.length_take, List.length_drop]; omega)
  obtain ⟨v7, h7⟩ := unpackUint16Array_isSome 1012 ((d.drop 4088).take (6112 - 4088))
    (by simp only [List.length_take, List.length_drop]; omega)
  obtain ⟨v8, h8⟩ := unpackUint16Array_isSome 1012 ((d.drop 6112).take (8136 - 6112))
    (by simp only [List.length_take, List.length_drop]; omega)
  unfold decodeHeaderBody
  rw [slice_eq_some (by omega) (by omega), slice_eq_some (by omega) (by omega),
    slice_eq_some (by omega) (by omega), slice_eq_some (by omega) (by omega),
    slice_eq_some (by omega) (by omega), slice_eq_some (by omega) (by omega),
    slice_eq_some (by omega) (by omega), slice_eq_some (by omega) (by omega)]
  simp only [Option.some_bind, h1, h2, h3, h4, h5, h6, h7, h8, Option.bind_eq_bind,
    Option.pure_def]
  exact ⟨_, rfl⟩

/-- Unfolding of the header decoder on a stream that holds the whole span. -/
theorem FromStream_of_le (hdr : GameDataFormatHdrRecord) (stream : File)
    (h : headerSpan ≤ stream.remaining.length) :
    ∃ version, leUint32 ((stream.remaining.drop 4).take 4) = some version ∧
      version < 4294967296 ∧
      GameDataFormatHdrRecord.FromStream hdr stream =
        if stream.remaining.take 4 ≠ magicHMGR ∨ toInt32 version ≠ 1 then
          ({ hdr with MagicNumber := stream.remaining.take 4, HeaderVersion := toInt32 version },
            { stream with pos := stream.pos + headerSpan }, some Error.invalidMagic)
        else
          match decodeHeaderBody
              { hdr with MagicNumber := stream.remaining.take 4, HeaderVersion := toInt32 version }
              (stream.remaining.take headerSpan) with
          | some r => (r, { stream with pos := stream.pos + headerSpan }, none)
          | none =>
            ({ hdr with MagicNumber := stream.remaining.take 4, HeaderVersion := toInt32 version },
              { stream with pos := stream.pos + headerSpan }, some Error.panic) := by
  have hspan : headerSpan = 8232 := rfl
  have hl : (stream.remaining.take headerSpan).length = 8232 := by
    simp only [List.length_take]; omega
  have hm : slice (stream.remaining.take headerSpan) 0 4 = some (stream.remaining.take 4) := by
    rw [slice_take (by omega) h, slice_eq_some (by omega) (by omega)]
    simp
  have hv : slice (stream.remaining.take headerSpan) 4 8
      = some ((stream.remaining.drop 4).take 4) := by
    rw [slice_take (by omega) h, slice_eq_some (by omega) (by omega)]
  obtain ⟨version, hversion⟩ := leUint32_isSome (l := (stream.remaining.drop 4).take 4)
    (by simp only [List.length_take, List.length_drop]; omega)
  refine ⟨version, hversion, leUint32_lt hversion, ?_⟩
  unfold GameDataFormatHdrRecord.FromStream
  rw [readFull_of_le h]
  simp only [hm, hv, Option.some_bind, hversion]

theorem FromStream_ok_length {hdr : GameDataFormatHdrRecord} {stream : File}
    (h : (GameDataFormatHdrRecord.FromStream hdr stream).2.2 = none) :
    headerSpan ≤ stream.remaining.length := by
  by_contra hlt
  obtain ⟨bs, s, e, he⟩ := readFull_error_of_lt stream headerSpan (by omega)
  unfold GameDataFormatHdrRecord.FromStream at h
  rw [he] at h
  simp at h

/-- Field equations of a successful header decode, against the input bytes. -/
theorem FromStream_fields {hdr : GameDataFormatHdrRecord} {stream : File}
    (h : (GameDataFormatHdrRecord.FromStream hdr stream).2.2 = none) :
    (GameDataFormatHdrRecord.FromStream hdr stream).1.MagicNumber = magicHMGR ∧
    (GameDataFormatHdrRecord.FromStream hdr stream).1.HeaderVersion = 1 ∧
    ((slice stream.remaining 8 12).bind leUint32).map toInt32
      = some (GameDataFormatHdrRecord.FromStream hdr stream).1.HeaderSize ∧
    ((slice stream.remaining 12 20).bind leUint64).map toInt64
      = some (GameDataFormatHdrRecord.FromStream hdr stream).1.ThumbnailOffset ∧
    ((slice stream.remaining 20 24).bind leUint32).map toInt32
      = some (GameDataFormatHdrRecord.FromStream hdr stream).1.ThumbnailSize ∧
    (slice stream.remaining 24 40).bind formatGUID
      = some (GameDataFormatHdrRecord.FromStream hdr stream).1.GameGUID ∧
    ((slice stream.remaining 40 2064).bind unpackUint16Array).map UTF16IntArrayToStr
      = some (GameDataFormatHdrRecord.FromStream hdr stream).1.GameName ∧
    ((slice stream.remaining 2064 4088).bind unpackUint16Array).map UTF16IntArrayToStr
      = some (GameDataFormatHdrRecord.FromStream hdr stream).1.SaveName ∧
    ((slice stream.remaining 4088 6112).bind unpackUint16Array).map UTF16IntArrayToStr
      = some (GameDataFormatHdrRecord.FromStream hdr stream).1.LevelName ∧
    ((slice stream.remaining 6112 8136).bind unpackUint16Array).map UTF16IntArrayToStr
      = some (GameDataFormatHdrRecord.FromStream hdr stream).1.Comments := by
  have hlen := FromStream_ok_length h
  have hspan : headerSpan = 8232 := rfl
  obtain ⟨version, _, _, heq⟩ := FromStream_of_le hdr stream hlen
  rw [heq] at h ⊢
  split at h
  · simp at h
  · rename_i hcond
    rw [if_neg hcond]
    simp only [not_or, not_not] at hcond
    have hl : (stream.remaining.take headerSpan).length = 8232 := by
      simp only [List.length_take]; omega
    obtain ⟨r, hr⟩ := decodeHeaderBody_isSome
      { hdr with MagicNumber := stream.remaining.take 4, HeaderVersion := toInt32 version } hl
    rw [hr]
    simp only
    unfold decodeHeaderBody at hr
    rw [slice_take (by omega) hlen, slice_take (by omega) hlen, slice_take (by omega) hlen,
      slice_take (by omega) hlen, slice_take (by omega) hlen, slice_take (by omega) hlen,
      slice_take (by omega) hlen, slice_take (by omega) hlen] at hr
    simp only [Option.bind_eq_bind, Option.pure_def, Option.bind_eq_some,
      Option.some.injEq] at hr
    obtain ⟨v1, ⟨s1, hs1, hv1⟩, v2, ⟨s2, hs2, hv2⟩, v3, ⟨s3, hs3, hv3⟩, g, hg, v4, hv4,
      v5, ⟨s5, hs5, hv5⟩, v6, ⟨s6, hs6, hv6⟩, v7, ⟨s7, hs7, hv7⟩, v8, ⟨s8, hs8, hv8⟩, hrec⟩ := hr
    subst hrec
    simp only [hs1, hs2, hs3, hg, hs5, hs6, hs7, hs8, hv1, hv2, hv3, hv4, hv5, hv6, hv7, hv8,
      Option.some_bind, Option.map_some', hcond.1, hcond.2, and_self]

/-! ### Temporary storage lemmas -/

theorem getElem?_append_self {α : Type} (l : List α) (x : α) : (l ++ [x])[l.length]? = some x := by
  simp

theorem set_append_self {α : Type} (l : List α) (x y : α) :
    (l ++ [x]).set l.length y = l ++ [y] := by
  rw [List.set_append_right _ _ (le_refl _)]
  simp

theorem World.createTemp_write_close (w : World) (bs : List Byte) :
    ((w.createTemp.2.2.write w.handles.length bs).close w.handles.length).1
      = ⟨w.files ++ [⟨bs, false⟩], w.handles ++ [⟨w.files.length, bs.length, true⟩]⟩ := by
  simp only [World.createTemp, World.write, getElem?_append_self, set_append_self, World.close,
    List.take_zero, List.nil_append, Nat.zero_add, List.drop_nil, List.append_nil]
  simp

theorem World.openFile_appended (fs : List TmpFile) (hs : List Handle) (c : List Byte) :
    (World.mk (fs ++ [⟨c, false⟩]) hs).openFile fs.length
      = (Except.ok hs.length, ⟨fs ++ [⟨c, false⟩], hs ++ [⟨fs.length, 0, false⟩]⟩) := by
  simp [World.openFile, World.fileExists]

theorem World.content_appended (fs : List TmpFile) (hs : List Handle) (c : List Byte) :
    (World.mk (fs ++ [⟨c, false⟩]) hs).content fs.length = c := by
  simp [World.content]

theorem wrapInt64_of_range {x : Int} (h1 : -9223372036854775808 ≤ x)
    (h2 : x < 9223372036854775808) : wrapInt64 x = x := by
  unfold wrapInt64
  omega

theorem toInt32_range (x : Nat) : -2147483648 ≤ toInt32 x ∧ toInt32 x < 2147483648 := by
  unfold toInt32
  split <;> omega

/-- Successful extraction of an entry, in any state of the temporary storage
and at any offset of the shared stream. -/
theorem GetArchiveFile_ok (inflate : Inflater) (za : ZlibArchive) (filerec : FileRecord)
    (w : World) {c : List Byte}
    (h : entryOutcome inflate za.Stream.data za.StartOfArcData filerec = Except.ok c) :
    ∃ pos, za.GetArchiveFile inflate filerec w =
      (Except.ok (w.handles.length + 1, w.files.length),
        { za with Stream := ⟨za.Stream.data, pos⟩ },
        ⟨w.files ++ [⟨c, false⟩],
          w.handles ++ [⟨w.files.length, c.length, true⟩] ++ [⟨w.files.length, 0, false⟩]⟩) := by
  unfold entryOutcome at h
  simp only at h
  split at h
  · simp at h
  · rename_i htarget
    have hseek : za.Stream.seekStart (wrapInt64 (filerec.Start + za.StartOfArcData))
        = (⟨za.Stream.data, (wrapInt64 (filerec.Start + za.StartOfArcData)).toNat⟩, none) := by
      simp [File.seekStart, File.seekTo, htarget]
    unfold ZlibArchive.GetArchiveFile
    rw [hseek]
    simp only
    unfold ZlibArchive.extractSegment
    have hct : w.createTemp = (w.files.length, w.handles.length, w.createTemp.2.2) := rfl
    rw [hct]
    simp only
    split at h
    · rename_i hcomp
      simp only [hcomp, if_true, File.remaining]
      split at h
      · simp at h
      · rename_i herr
        simp only [Except.ok.injEq] at h
        subst h
        simp only [herr, World.createTemp_write_close, World.openFile_appended,
          List.length_append, List.length_singleton]
        exact ⟨_, rfl⟩
    · rename_i hcomp
      simp only [hcomp, Bool.false_eq_true, if_false]
      split at h
      · simp at h
      · rename_i hcs
        split at h
        · simp at h
        · rename_i hlen
          simp only [Except.ok.injEq] at h
          subst h
          simp only [hcs, if_false, File.copyN, File.remaining, hlen,
            World.createTemp_write_close, World.openFile_appended, List.length_append,
            List.length_singleton]
          exact ⟨_, rfl⟩

/-- Failed extraction of an entry, in any state of the temporary storage and
at any offset of the shared stream. -/
theorem GetArchiveFile_error (inflate : Inflater) (za : ZlibArchive) (filerec : FileRecord)
    (w : World) {e : Error}
    (h : entryOutcome inflate za.Stream.data za.StartOfArcData filerec = Except.error e) :
    ∃ za2 w2, za.GetArchiveFile inflate filerec w = (Except.error e, za2, w2) := by
  unfold entryOutcome at h
  simp only at h
  unfold ZlibArchive.GetArchiveFile
  split at h
  · rename_i htarget
    simp only [Except.error.injEq] at h
    simp only [File.seekStart, File.seekTo, htarget, if_true, h]
    exact ⟨_, _, rfl⟩
  · rename_i htarget
    have hseek : za.Stream.seekStart (wrapInt64 (filerec.Start + za.StartOfArcData))
        = (⟨za.Stream.data, (wrapInt64 (filerec.Start + za.StartOfArcData)).toNat⟩, none) := by
      simp [File.seekStart, File.seekTo, htarget]
    rw [hseek]
    simp only
    unfold ZlibArchive.extractSegment
    have hct : w.createTemp = (w.files.length, w.handles.length, w.createTemp.2.2) := rfl
    rw [hct]
    simp only
    split at h
    · rename_i hcomp
      simp only [hcomp, if_true, File.remaining]
      split at h
      · rename_i err herr
        simp only [Except.error.injEq] at h
        simp only [herr, h]
        exact ⟨_, _, rfl⟩
      · simp at h
    · rename_i hcomp
      simp only [hcomp, Bool.false_eq_true, if_false]
      split at h
      · rename_i hcs
        simp only [Except.error.injEq] at h
        simp only [hcs, if_true, h]
        exact ⟨_, _, rfl⟩
      · rename_i hcs
        split at h
        · rename_i hlen
          simp only [Except.error.injEq] at h
          simp only [hcs, if_false, File.copyN, File.remaining, hlen, if_true, h]
          exact ⟨_, _, rfl⟩
        · simp at h

theorem FromStream_error_of_bad_magic (hdr : GameDataFormatHdrRecord) (stream : File)
    (h : stream.remaining.take 4 ≠ magicHMGR ∨
      leUint32 ((stream.remaining.drop 4).take 4) ≠ some 1) :
    ∃ e, (GameDataFormatHdrRecord.FromStream hdr stream).2.2 = some e := by
  by_cases hl : headerSpan ≤ stream.remaining.length
  · obtain ⟨version, hversion, hlt, heq⟩ := FromStream_of_le hdr stream hl
    have hcond : stream.remaining.take 4 ≠ magicHMGR ∨ toInt32 version ≠ 1 := by
      rcases h with h | h
      · exact Or.inl h
      · right
        intro h1
        rw [hversion, (toInt32_eq_one_iff hlt).mp h1] at h
        exact h rfl
    rw [heq, if_pos hcond]
    exact ⟨_, rfl⟩
  · obtain ⟨bs, s, e, he⟩ := readFull_error_of_lt stream headerSpan (by omega)
    unfold GameDataFormatHdrRecord.FromStream
    rw [he]
    exact ⟨_, rfl⟩

theorem seekEnd_eq (f : File) (off : Int) :
    f.seekEnd off = if (f.data.length : Int) + off < 0 then (f, some Error.seekInvalid)
      else (⟨f.data, ((f.data.length : Int) + off).toNat⟩, none) := by
  simp only [File.seekEnd, File.seekTo]

theorem extractSegment_zero_ok {inflate : Inflater} {za za1 : ZlibArchive} {w w1 : World}
    {b : Bool} {name : Nat}
    (h : za.extractSegment inflate w b 0 = (Except.ok name, za1, w1)) :
    b = true ∧ (inflate za.Stream.remaining).err = none ∧ name = w.files.length ∧
    w1 = ⟨w.files ++ [⟨(inflate za.Stream.remaining).output, false⟩],
      w.handles ++ [⟨w.files.length, (inflate za.Stream.remaining).output.length, true⟩]⟩ ∧
    za1 = { za with Stream := { za.Stream with
      pos := za.Stream.pos + (inflate za.Stream.remaining).consumed } } := by
  unfold ZlibArchive.extractSegment at h
  have hct : w.createTemp = (w.files.length, w.handles.length, w.createTemp.2.2) := rfl
  rw [hct] at h
  simp only at h
  cases b
  · simp at h
  · simp only [if_true] at h
    split at h
    · simp at h
    · rename_i herr
      simp only [Prod.mk.injEq, Except.ok.injEq, World.createTemp_write_close] at h
      obtain ⟨h1, h2, h3⟩ := h
      exact ⟨rfl, herr, h1.symm, h3.symm, h2.symm⟩

theorem trailer_FromStream_data (ar : ArchiveRecord) (s : File) :
    (ar.FromStream s).2.1.data = s.data := by
  unfold ArchiveRecord.FromStream
  split
  · rename_i h
    simp only [File.readFull, Prod.mk.injEq] at h
    rw [← h.2.1]
  · rename_i h
    simp only [File.readFull, Prod.mk.injEq] at h
    split
    · rw [← h.2.1]
    · rw [← h.2.1]

theorem World.content_close (w : World) (h n : Nat) : (w.close h).1.content n = w.content n := by
  unfold World.close
  split
  · rfl
  · split <;> rfl

theorem World.content_remove (w : World) (m n : Nat) :
    (w.remove m).1.content n = w.content n := by
  unfold World.remove
  split
  · rfl
  · rename_i f hf
    split
    · rfl
    · simp only [World.content]
      by_cases hmn : m = n
      · subst hmn
        have hlt : m < w.files.length := by
          by_contra hge
          rw [List.getElem?_eq_none (by omega)] at hf
          simp at hf
        rw [List.getElem?_set_self hlt, hf]
      · rw [List.getElem?_set_ne hmn]

theorem getArchiveIndex_ok {inflate : Inflater} {za0 za : ZlibArchive} {w w2 : World}
    (h : za0.getArchiveIndex inflate w = (za, w2, none)) :
    (archiveRecordSize : Int) ≤ za0.Stream.data.length ∧
    za.EndOfArcData = za0.Stream.data.length - archiveRecordSize ∧
    (za0.ArcRec.FromStream ⟨za0.Stream.data, za0.Stream.data.length - archiveRecordSize⟩).1
      = za.ArcRec ∧
    (za0.ArcRec.FromStream ⟨za0.Stream.data, za0.Stream.data.length - archiveRecordSize⟩).2.2
      = none ∧
    0 ≤ (za0.Stream.data.length : Int) - archiveRecordSize - za.ArcRec.RegistrySize ∧
    za.ArcRec.CompressedRegistry = true ∧
    (inflate (za0.Stream.data.drop ((za0.Stream.data.length : Int) - archiveRecordSize
      - za.ArcRec.RegistrySize).toNat)).err = none ∧
    w2.content w.files.length = (inflate (za0.Stream.data.drop ((za0.Stream.data.length : Int)
      - archiveRecordSize - za.ArcRec.RegistrySize).toNat)).output ∧
    za.StartOfArcData = wrapInt64 ((za0.Stream.data.length : Int) - archiveRecordSize
      - za.ArcRec.RegistrySize - za.ArcRec.ArchiveSize) ∧
    za.Stream = ⟨za0.Stream.data, za0.Stream.pos⟩ ∧
    (registryLoop za.ArcRec.FileCount.toNat ⟨(inflate (za0.Stream.data.drop
      ((za0.Stream.data.length : Int) - archiveRecordSize
        - za.ArcRec.RegistrySize).toNat)).output, 0⟩ za0.ArcRegistry)
      = (za.ArcRegistry, (registryLoop za.ArcRec.FileCount.toNat ⟨(inflate (za0.Stream.data.drop
      ((za0.Stream.data.length : Int) - archiveRecordSize
        - za.ArcRec.RegistrySize).toNat)).output, 0⟩ za0.ArcRegistry).2.1, none) := by
  unfold ZlibArchive.getArchiveIndex at h
  simp only [seekEnd_eq] at h
  split at h
  · simp at h
  · rename_i x1 stream1 hseek1
    split at hseek1
    · simp at hseek1
    · rename_i hL
      simp only [Prod.mk.injEq, and_true] at hseek1
      subst hseek1
      simp only at h
      split at h
      · simp at h
      · rename_i x2 arcRec stream2 hrec
        split at h
        · simp at h
        · rename_i x3 stream3 hseek2
          split at hseek2
          · simp at hseek2
          · rename_i hR
            simp only [Prod.mk.injEq, and_true] at hseek2
            subst hseek2
            split at h
            · simp at h
            · rename_i x4 idxFilename za1 w1 hext
              obtain ⟨hb, herr, hname, hw1, hza1⟩ := extractSegment_zero_ok hext
              subst hname hw1 hza1
              have hdata : stream2.data = za0.Stream.data := by
                have := trailer_FromStream_data za0.ArcRec
                  ⟨za0.Stream.data, (↑za0.Stream.data.length + -↑archiveRecordSize : Int).toNat⟩
                rw [hrec] at this
                exact this
              simp only [World.openFile_appended, Prod.mk.injEq, World.content_appended] at h
              obtain ⟨hza, hw, hloop⟩ := h
              subst hza hw
              clear hext
              simp only [File.remaining, hdata] at herr hloop hR ⊢
              have he : (za0.Stream.data.length : Int) + (-(archiveRecordSize : Int)
                  - arcRec.RegistrySize)
                  = (za0.Stream.data.length : Int) - archiveRecordSize - arcRec.RegistrySize := by
                omega
              have hp : ((za0.Stream.data.length : Int) + -(archiveRecordSize : Int)).toNat
                  = za0.Stream.data.length - archiveRecordSize := by
                omega
              rw [he] at herr hloop ⊢
              rw [hp] at hrec ⊢
              rw [hrec]
              refine ⟨by omega, by omega, rfl, rfl, by omega, hb, herr, ?_, ?_, ?_, ?_⟩
              · rw [World.content_remove, World.content_close, World.content_appended]
              · congr 1
                omega
              · have hnn : ¬ ((za0.Stream.pos : Int) < 0) := by omega
                simp only [File.seekStart, File.seekTo, hnn, if_false, Int.toNat_ofNat]
              · rw [← hloop]
theorem extractSegment_compressed_ok (inflate : Inflater) (za : ZlibArchive) (w : World)
    (numBytes : Int) (herr : (inflate za.Stream.remaining).err = none) :
    za.extractSegment inflate w true numBytes =
      (Except.ok w.files.length,
        { za with Stream := { za.Stream with
            pos := za.Stream.pos + (inflate za.Stream.remaining).consumed } },
        ⟨w.files ++ [⟨(inflate za.Stream.remaining).output, false⟩],
          w.handles ++ [⟨w.files.length, (inflate za.Stream.remaining).output.length, true⟩]⟩) := by
  unfold ZlibArchive.extractSegment
  have hct : w.createTemp = (w.files.length, w.handles.length, w.createTemp.2.2) := rfl
  rw [hct]
  simp only [if_true, herr, World.createTemp_write_close]

/-- Converse of `getArchiveIndex_ok`: the facts that make the index readable. -/
theorem getArchiveIndex_of_facts (inflate : Inflater) (za0 : ZlibArchive) (w : World)
    {arcRec : ArchiveRecord} {s2 : File} {registry : List FileRecord} {idx : File}
    (hL : (archiveRecordSize : Int) ≤ za0.Stream.data.length)
    (hrec : za0.ArcRec.FromStream ⟨za0.Stream.data, za0.Stream.data.length - archiveRecordSize⟩
      = (arcRec, s2, none))
    (hR : 0 ≤ (za0.Stream.data.length : Int) - archiveRecordSize - arcRec.RegistrySize)
    (hb : arcRec.CompressedRegistry = true)
    (herr : (inflate (za0.Stream.data.drop ((za0.Stream.data.length : Int) - archiveRecordSize
      - arcRec.RegistrySize).toNat)).err = none)
    (hloop : registryLoop arcRec.FileCount.toNat ⟨(inflate (za0.Stream.data.drop
      ((za0.Stream.data.length : Int) - archiveRecordSize - arcRec.RegistrySize).toNat)).output, 0⟩
      za0.ArcRegistry = (registry, idx, none)) :
    ∃ w2, za0.getArchiveIndex inflate w =
      ({ ArcRec := arcRec, ArcRegistry := registry,
         StartOfArcData := wrapInt64 ((za0.Stream.data.length : Int) - archiveRecordSize
           - arcRec.RegistrySize - arcRec.ArchiveSize),
         EndOfArcData := (za0.Stream.data.length : Int) - archiveRecordSize,
         Stream := ⟨za0.Stream.data, za0.Stream.pos⟩, MaxBufSize := za0.MaxBufSize }, w2, none) := by
  have hdata : s2.data = za0.Stream.data := by
    have := trailer_FromStream_data za0.ArcRec
      ⟨za0.Stream.data, za0.Stream.data.length - archiveRecordSize⟩
    rw [hrec] at this
    exact this
  have h1 : ¬ ((za0.Stream.data.length : Int) + -(archiveRecordSize : Int) < 0) := by omega
  have hp : ((za0.Stream.data.length : Int) + -(archiveRecordSize : Int)).toNat
      = za0.Stream.data.length - archiveRecordSize := by omega
  have h2 : ¬ ((za0.Stream.data.length : Int) - (archiveRecordSize : Int) - arcRec.RegistrySize
      < 0) := by omega
  have he : (za0.Stream.data.length : Int) + (-(archiveRecordSize : Int) - arcRec.RegistrySize)
      = (za0.Stream.data.length : Int) - archiveRecordSize - arcRec.RegistrySize := by omega
  have hnn : ¬ ((za0.Stream.pos : Int) < 0) := by omega
  unfold ZlibArchive.getArchiveIndex
  simp only [seekEnd_eq, h1, if_false, hp, hrec, hdata, he, h2, hb]
  rw [extractSegment_compressed_ok inflate _ w 0 (by simpa [File.remaining] using herr)]
  simp only [World.openFile_appended, World.content_appended, File.remaining, hloop,
    File.seekStart, File.seekTo, hnn, if_false, Int.toNat_ofNat]
  have e1 : (((za0.Stream.data.length : Int) - archiveRecordSize - arcRec.RegistrySize).toNat : Int)
      - arcRec.ArchiveSize
      = (za0.Stream.data.length : Int) - archiveRecordSize - arcRec.RegistrySize
        - arcRec.ArchiveSize := by omega
  have e2 : ((za0.Stream.data.length - archiveRecordSize : Nat) : Int)
      = (za0.Stream.data.length : Int) - archiveRecordSize := by omega
  rw [e1, e2]
  exact ⟨_, rfl⟩

theorem triple_eta {α β γ : Type} {p : α × β × Option γ} {a : α} (h1 : p.1 = a)
    (h3 : p.2.2 = none) : p = (a, p.2.1, none) := by
  rcases p with ⟨x, y, z⟩
  simp only at h1 h3
  subst h1 h3
  rfl

/-- The archive that opens in an empty temporary directory opens, to the same
archive object, in every state of the temporary storage. -/
theorem NewZlibArchive_of_opened {inflate : Inflater} {data : List Byte} {za : ZlibArchive}
    (h : openedArchive inflate data = some za) (w : World) :
    ∃ w2, NewZlibArchive inflate data w = (Except.ok za, w2) := by
  unfold openedArchive at h
  split at h
  · rename_i za1 w1 hnew
    simp only [Option.some.injEq] at h
    subst h
    unfold NewZlibArchive at hnew
    simp only at hnew
    split at hnew
    · simp at hnew
    · rename_i za2 w2 hidx
      simp only [Prod.mk.injEq, Except.ok.injEq] at hnew
      obtain ⟨hz, hw⟩ := hnew
      subst hz hw
      obtain ⟨f1, _, f3, f4, f5, f6, f7, _, _, _, f11⟩ := getArchiveIndex_ok hidx
      have hrec := triple_eta f3 f4
      obtain ⟨wa, ha⟩ := getArchiveIndex_of_facts inflate _ World.empty f1 hrec f5 f6 f7 f11
      obtain ⟨wb, hb⟩ := getArchiveIndex_of_facts inflate _ w f1 hrec f5 f6 f7 f11
      rw [ha] at hidx
      simp only [Prod.mk.injEq, and_true] at hidx
      unfold NewZlibArchive
      simp only [hb, hidx.1]
      exact ⟨_, rfl⟩
  · simp at h

theorem trailer_FromStream_range {ar r : ArchiveRecord} {s s2 : File}
    (h : ar.FromStream s = (r, s2, none)) :
    -2147483648 ≤ r.RegistrySize ∧ r.RegistrySize < 2147483648 ∧
    -2147483648 ≤ r.ArchiveSize ∧ r.ArchiveSize < 2147483648 := by
  unfold ArchiveRecord.FromStream at h
  split at h
  · simp at h
  · split at h
    · simp only [Prod.mk.injEq, and_true] at h
      rw [← h.1]
      exact ⟨(toInt32_range _).1, (toInt32_range _).2, (toInt32_range _).1, (toInt32_range _).2⟩
    · simp at h

theorem sampleFile_length : sampleFile.length = 8273 := by
  simp only [sampleFile, magicHMGR, emptyZlib, sampleTrailer, List.length_append,
    List.length_replicate, List.length_cons, List.length_nil]

theorem sampleFile_opened :
    openedArchive inflateEmptyOnly sampleFile = some sampleOpened ∧
    sampleOpened.ArcRegistry = [] := by
  have h : (openedArchive inflateEmptyOnly sampleFile).map (fun za => za.ArcRegistry)
      = some [] := by decide!
  unfold sampleOpened
  rcases hz : openedArchive inflateEmptyOnly sampleFile with _ | za
  · rw [hz] at h
    simp at h
  · rw [hz] at h
    simp only [Option.map_some', Option.some.injEq] at h
    exact ⟨rfl, h⟩

theorem fst_of_openedArchive {inflate : Inflater} {data : List Byte} {za : ZlibArchive}
    (h : openedArchive inflate data = some za) :
    (NewZlibArchive inflate data World.empty).1 = Except.ok za := by
  unfold openedArchive at h
  split at h
  · rename_i za1 w1 hn
    simp only [Option.some.injEq] at h
    rw [hn, h]
  · simp at h

theorem sampleFile_opens :
    (NewZlibArchive inflateEmptyOnly sampleFile World.empty).1 = Except.ok sampleOpened :=
  fst_of_openedArchive sampleFile_opened.1

theorem getElem?_append_two {α : Type} (l : List α) (x y : α) :
    (l ++ [x] ++ [y])[l.length + 1]? = some y := by
  have hl : (l ++ [x]).length = l.length + 1 := by simp
  rw [← hl]
  exact getElem?_append_self _ _

theorem set_append_two {α : Type} (l : List α) (x y z : α) :
    (l ++ [x] ++ [y]).set (l.length + 1) z = l ++ [x] ++ [z] := by
  have hl : (l ++ [x]).length = l.length + 1 := by simp
  rw [← hl]
  exact set_append_self _ _ _

theorem World.seek_read_appended (fs : List TmpFile) (hs : List Handle) (h1 : Handle)
    (c : List Byte) (off n : Nat) :
    ((World.mk (fs ++ [⟨c, false⟩]) (hs ++ [h1] ++ [⟨fs.length, 0, false⟩])).seekStart
        (hs.length + 1) (off : Int)).1.read (hs.length + 1) n
      = ((c.drop off).take n,
          ⟨fs ++ [⟨c, false⟩],
            hs ++ [h1] ++ [⟨fs.length, off + ((c.drop off).take n).length, false⟩]⟩,
          if 0 < n ∧ ((c.drop off).take n).length = 0 then some Error.eof else none) := by
  have hnn : ¬ ((off : Int) < 0) := by omega
  simp only [World.seekStart, getElem?_append_two, Bool.false_eq_true, if_false, hnn,
    set_append_two, Int.toNat_ofNat, World.read, World.content_appended, File.read,
    File.remaining]

theorem pad_eq_magicDMLI_iff (bs : List Byte) (hl : bs.length ≤ 4) :
    bs ++ List.replicate (4 - bs.length) 0 = magicDMLI ↔ bs = magicDMLI := by
  rcases bs with _ | ⟨a, _ | ⟨b, _ | ⟨c, _ | ⟨d, _ | ⟨e, t⟩⟩⟩⟩⟩
  · simp [magicDMLI, List.replicate]
  · simp [magicDMLI, List.replicate]
  · simp [magicDMLI, List.replicate]
  · simp [magicDMLI, List.replicate]
  · simp [magicDMLI, List.replicate]
  · simp at hl

/-- One iteration of the segment loop on an entry that extracts. -/
theorem segmentLoop_cons (inflate : Inflater) (filerec : FileRecord) (rest : List FileRecord)
    (za : ZlibArchive) (w : World) (defers : List Deferred) (segments : List Segment)
    {c : List Byte}
    (h : entryOutcome inflate za.Stream.data za.StartOfArcData filerec = Except.ok c) :
    (mapIndex XG_FILEMAP (filepathBase filerec.Name) = XG_GAMEFILE ∧
      (c.drop XG_GAMEHDR_LEN).take 4 ≠ magicDMLI ∧
      ∃ err wf, segmentLoop inflate (filerec :: rest) za w defers segments
        = ⟨none, some err, wf⟩) ∨
    (¬ (mapIndex XG_FILEMAP (filepathBase filerec.Name) = XG_GAMEFILE ∧
        (c.drop XG_GAMEHDR_LEN).take 4 ≠ magicDMLI) ∧
      ∃ pos w2 defers2 seg,
        seg.Kind = mapIndex XG_FILEMAP (filepathBase filerec.Name) ∧
        segmentLoop inflate (filerec :: rest) za w defers segments
          = segmentLoop inflate rest { za with Stream := ⟨za.Stream.data, pos⟩ } w2 defers2
              (segments ++ [seg])) := by
  obtain ⟨pos, hget⟩ := GetArchiveFile_ok inflate za filerec w h
  simp only [segmentLoop, hget]
  by_cases hk : mapIndex XG_FILEMAP (filepathBase filerec.Name) = XG_GAMEFILE
  · simp only [hk, if_true, true_and, World.seek_read_appended]
    by_cases hlen : ((c.drop XG_GAMEHDR_LEN).take 4).length = 0
    · left
      refine ⟨?_, ?_⟩
      · intro heq
        rw [heq] at hlen
        simp [magicDMLI] at hlen
      · simp only [hlen, and_true, Nat.lt_irrefl, if_true]
        rw [if_pos (by decide)]
        exact ⟨_, _, rfl⟩
    · simp only [hlen, and_false, if_false]
      have hpad := pad_eq_magicDMLI_iff ((c.drop XG_GAMEHDR_LEN).take 4)
        (by simp only [List.length_take]; omega)
      by_cases hb : (c.drop XG_GAMEHDR_LEN).take 4 = magicDMLI
      · right
        refine ⟨fun hh => hh hb, ?_⟩
        rw [if_neg (by rw [ne_eq, hpad]; exact fun hh => hh hb)]
        exact ⟨_, _, _, _, rfl, rfl⟩
      · left
        refine ⟨hb, ?_⟩
        rw [if_pos (by rw [ne_eq, hpad]; exact hb)]
        exact ⟨_, _, rfl⟩
  · right
    refine ⟨fun hh => hk hh.1, ?_⟩
    simp only [hk, if_false]
    exact ⟨_, _, _, _, rfl, rfl⟩
/-- The segment loop over a registry whose entries all extract fails exactly
when an entry classified `XG_GAMEFILE` lacks the magic. -/
theorem segmentLoop_fails_iff (inflate : Inflater) (data : List Byte) (start : Int) :
    ∀ (registry : List FileRecord) (za : ZlibArchive) (w : World) (defers : List Deferred)
      (segments : List Segment),
      za.Stream.data = data → za.StartOfArcData = start →
      (∀ e ∈ registry, ∃ c, entryOutcome inflate data start e = Except.ok c) →
      (((segmentLoop inflate registry za w defers segments).err ≠ none ↔
          ∃ e ∈ registry, mapIndex XG_FILEMAP (filepathBase e.Name) = XG_GAMEFILE ∧
            ∀ c, entryOutcome inflate data start e = Except.ok c →
              (c.drop XG_GAMEHDR_LEN).take 4 ≠ magicDMLI) ∧
        ((segmentLoop inflate registry za w defers segments).err ≠ none →
          (segmentLoop inflate registry za w defers segments).segments = none)) := by
  intro registry
  induction registry with
  | nil =>
    intro za w defers segments _ _ _
    simp [segmentLoop]
  | cons e rest ih =>
    intro za w defers segments hd hs hall
    obtain ⟨c, hc⟩ := hall e (List.mem_cons_self _ _)
    have hc2 : entryOutcome inflate za.Stream.data za.StartOfArcData e = Except.ok c := by
      rw [hd, hs]; exact hc
    rcases segmentLoop_cons inflate e rest za w defers segments hc2 with
      ⟨hk, hbad, err, wf, heq⟩ | ⟨hnot, pos, w2, d2, seg, _, heq⟩
    · rw [heq]
      refine ⟨⟨fun _ => ⟨e, List.mem_cons_self _ _, hk, ?_⟩, fun _ => by simp⟩, fun _ => rfl⟩
      intro c2 hc3
      rw [hc] at hc3
      simp only [Except.ok.injEq] at hc3
      subst hc3
      exact hbad
    · rw [heq]
      have hih := ih { za with Stream := ⟨za.Stream.data, pos⟩ } w2 d2 (segments ++ [seg]) hd hs
        (fun e2 he2 => hall e2 (List.mem_cons_of_mem _ he2))
      refine ⟨?_, hih.2⟩
      rw [hih.1]
      constructor
      · rintro ⟨e2, he2, h2⟩
        exact ⟨e2, List.mem_cons_of_mem _ he2, h2⟩
      · rintro ⟨e2, he2, hk2, hb2⟩
        rcases List.mem_cons.mp he2 with rfl | hin
        · exact absurd ⟨hk2, hb2 c hc⟩ hnot
        · exact ⟨e2, hin, hk2, hb2⟩

theorem extractedContent_eq (inflate : Inflater) (za : ZlibArchive) (filerec : FileRecord) :
    extractedContent inflate za filerec =
      match entryOutcome inflate za.Stream.data za.StartOfArcData filerec with
      | Except.ok c => some c
      | Except.error _ => none := by
  unfold extractedContent
  rcases h : entryOutcome inflate za.Stream.data za.StartOfArcData filerec with e | c
  · obtain ⟨za2, w2, hget⟩ := GetArchiveFile_error inflate za filerec World.empty h
    rw [hget]
  · obtain ⟨pos, hget⟩ := GetArchiveFile_ok inflate za filerec World.empty h
    rw [hget]
    simp only [World.content_appended]

theorem extractedContent_isSome_iff (inflate : Inflater) (za : ZlibArchive) (filerec : FileRecord) :
    (extractedContent inflate za filerec).isSome = true ↔
      ∃ c, entryOutcome inflate za.Stream.data za.StartOfArcData filerec = Except.ok c := by
  rw [extractedContent_eq]
  rcases entryOutcome inflate za.Stream.data za.StartOfArcData filerec with e | c
  · simp
  · simp

/-- The segment loop, stated on the content that `GetArchiveFile` extracts. -/
theorem segmentLoop_fails_iff_extracted (inflate : Inflater) (registry : List FileRecord)
    (za : ZlibArchive) (w : World) (defers : List Deferred) (segments : List Segment)
    (hall : ∀ e ∈ registry, (extractedContent inflate za e).isSome = true) :
    ((segmentLoop inflate registry za w defers segments).err ≠ none ↔
        ∃ e ∈ registry, mapIndex XG_FILEMAP (filepathBase e.Name) = XG_GAMEFILE ∧
          ∀ c, extractedContent inflate za e = some c →
            (c.drop XG_GAMEHDR_LEN).take 4 ≠ magicDMLI) ∧
      ((segmentLoop inflate registry za w defers segments).err ≠ none →
        (segmentLoop inflate registry za w defers segments).segments = none) := by
  have h := segmentLoop_fails_iff inflate za.Stream.data za.StartOfArcData registry za w defers
    segments rfl rfl (fun e he => (extractedContent_isSome_iff inflate za e).mp (hall e he))
  refine ⟨?_, h.2⟩
  rw [h.1]
  constructor
  · rintro ⟨e, he, hk, hb⟩
    refine ⟨e, he, hk, fun c hc => hb c ?_⟩
    rw [extractedContent_eq] at hc
    split at hc
    · rename_i c2 hc2
      simp only [Option.some.injEq] at hc
      rw [hc2, hc]
    · simp at hc
  · rintro ⟨e, he, hk, hb⟩
    refine ⟨e, he, hk, fun c hc => hb c ?_⟩
    rw [extractedContent_eq, hc]
theorem File.read_data (f : File) (n : Nat) : (f.read n).2.1.data = f.data := rfl

theorem File.read_ok (f : File) (n : Nat) (h : f.pos < f.data.length) :
    (f.read n).2.2 = none := by
  simp only [File.read, File.remaining, List.length_take, List.length_drop]
  rw [if_neg]
  omega

theorem File.seekStart_nonneg (f : File) (off : Int) (h : 0 ≤ off) :
    (f.seekStart off).1 = ⟨f.data, off.toNat⟩ := by
  simp only [File.seekStart, File.seekTo]
  rw [if_neg (by omega)]

theorem header_FromStream_data (hdr : GameDataFormatHdrRecord) (s : File) :
    (GameDataFormatHdrRecord.FromStream hdr s).2.1.data = s.data := by
  unfold GameDataFormatHdrRecord.FromStream
  split
  · rename_i h
    simp only [File.readFull, Prod.mk.injEq] at h
    rw [← h.2.1]
  · rename_i h
    simp only [File.readFull, Prod.mk.injEq] at h
    split
    · simp only
      split
      · rw [← h.2.1]
      · split <;> rw [← h.2.1]
    · rw [← h.2.1]

theorem archivePhase_reaches_loop {inflate : Inflater} {data : List Byte} {za : ZlibArchive}
    (hopen : openedArchive inflate data = some za) (w : World) (defers : List Deferred)
    (segments : List Segment) :
    ∃ w2, archivePhase inflate data w defers segments
      = segmentLoop inflate za.ArcRegistry za w2 defers segments := by
  obtain ⟨w2, hnew⟩ := NewZlibArchive_of_opened hopen w
  unfold archivePhase
  rw [hnew]
  exact ⟨w2, rfl⟩

theorem thumbnailPhase_reaches_loop {inflate : Inflater} {data : List Byte} {za : ZlibArchive}
    (hopen : openedArchive inflate data = some za) (gdfheader : GameDataFormatHdrRecord)
    (xginfile : File) (hx : xginfile.data = data)
    (hthumb : gdfheader.ThumbnailSize ≤ 0 ∨
      (0 ≤ gdfheader.ThumbnailOffset ∧ gdfheader.ThumbnailOffset < data.length))
    (w : World) (defers : List Deferred) (segments : List Segment) :
    ∃ w2 defers2 segments2, thumbnailPhase inflate data gdfheader xginfile w defers segments
      = segmentLoop inflate za.ArcRegistry za w2 defers2 segments2 := by
  unfold thumbnailPhase
  by_cases hts : gdfheader.ThumbnailSize > 0
  · rw [if_pos hts]
    rcases hthumb with hle | ⟨hlo, hhi⟩
    · omega
    · simp only [NewSegment, World.createTemp]
      rw [File.seekStart_nonneg _ _ hlo]
      have hok := File.read_ok ⟨xginfile.data, gdfheader.ThumbnailOffset.toNat⟩
        gdfheader.ThumbnailSize.toNat (by simp only [hx]; omega)
      rcases hr : File.read ⟨xginfile.data, gdfheader.ThumbnailOffset.toNat⟩
        gdfheader.ThumbnailSize.toNat with ⟨bs, f2, e2⟩
      rw [hr] at hok
      simp only at hok
      subst hok
      simp only
      obtain ⟨w2, h2⟩ := archivePhase_reaches_loop hopen
        (World.write ⟨w.files ++ [⟨[], false⟩], w.handles ++ [⟨w.files.length, 0, false⟩]⟩
          w.handles.length (bs ++ List.replicate (gdfheader.ThumbnailSize.toNat - bs.length) 0))
        (Deferred.closeSegment ⟨w.files.length, w.handles.length, GDF_IMAGE, true⟩ :: defers)
        (segments ++ [⟨w.files.length, w.handles.length, GDF_IMAGE, true⟩])
      exact ⟨_, _, _, h2⟩
  · rw [if_neg hts]
    obtain ⟨w2, h2⟩ := archivePhase_reaches_loop hopen w defers segments
    exact ⟨_, _, _, h2⟩

/-- With a header that decodes, a header size that is not negative, a
thumbnail that is absent or starts inside the file, and an archive that
opens, `GetFileSegment` is the segment loop over the archive's registry. -/
theorem GetFileSegment_reaches_loop {inflate : Inflater} {data : List Byte} {za : ZlibArchive}
    (w : World)
    (hhdr : (GameDataFormatHdrRecord.FromStream GameDataFormatHdrRecord.zero ⟨data, 0⟩).2.2 = none)
    (hsize : 0 ≤
      (GameDataFormatHdrRecord.FromStream GameDataFormatHdrRecord.zero ⟨data, 0⟩).1.HeaderSize)
    (hthumb :
      (GameDataFormatHdrRecord.FromStream GameDataFormatHdrRecord.zero ⟨data, 0⟩).1.ThumbnailSize
        ≤ 0 ∨
      (0 ≤ (GameDataFormatHdrRecord.FromStream GameDataFormatHdrRecord.zero
          ⟨data, 0⟩).1.ThumbnailOffset ∧
        (GameDataFormatHdrRecord.FromStream GameDataFormatHdrRecord.zero
          ⟨data, 0⟩).1.ThumbnailOffset < data.length))
    (hopen : openedArchive inflate data = some za) :
    ∃ w2 defers2 segments2, GetFileSegment inflate data w
      = segmentLoop inflate za.ArcRegistry za w2 defers2 segments2 := by
  have hlen := FromStream_ok_length hhdr
  have hspan : headerSpan = 8232 := rfl
  simp only [File.remaining, List.drop_zero] at hlen
  have hdata := header_FromStream_data GameDataFormatHdrRecord.zero ⟨data, 0⟩
  unfold GetFileSegment
  rcases hfs : GameDataFormatHdrRecord.FromStream GameDataFormatHdrRecord.zero ⟨data, 0⟩
    with ⟨hdr, xg, e⟩
  rw [hfs] at hhdr hsize hthumb hdata
  simp only at hhdr hsize hthumb hdata
  subst hhdr
  simp only [NewSegment, World.createTemp]
  rw [if_neg (by omega), File.seekStart_nonneg _ _ (le_refl 0)]
  have hok := File.read_ok ⟨xg.data, (0 : Int).toNat⟩ hdr.HeaderSize.toNat
    (by simp only [hdata, Int.toNat_zero]; omega)
  have hrd := File.read_data ⟨xg.data, (0 : Int).toNat⟩ hdr.HeaderSize.toNat
  rcases hr : File.read ⟨xg.data, (0 : Int).toNat⟩ hdr.HeaderSize.toNat with ⟨bs, f2, e2⟩
  rw [hr] at hok hrd
  simp only at hok hrd
  subst hok
  simp only
  exact thumbnailPhase_reaches_loop hopen hdr f2 (by rw [hrd, hdata]) hthumb _ _ _

theorem openedArchive_of_fst {inflate : Inflater} {data : List Byte} {za : ZlibArchive}
    (h : (NewZlibArchive inflate data World.empty).1 = Except.ok za) :
    openedArchive inflate data = some za := by
  unfold openedArchive
  rcases hn : NewZlibArchive inflate data World.empty with ⟨r, w⟩
  rw [hn] at h
  simp only at h
  subst h
  rfl

theorem headerOutcome_eq (data : List Byte) :
    headerOutcome data =
      ((GameDataFormatHdrRecord.FromStream GameDataFormatHdrRecord.zero ⟨data, 0⟩).1,
        (GameDataFormatHdrRecord.FromStream GameDataFormatHdrRecord.zero ⟨data, 0⟩).2.2) := by
  unfold headerOutcome
  rcases GameDataFormatHdrRecord.FromStream GameDataFormatHdrRecord.zero ⟨data, 0⟩
    with ⟨hdr, s, err⟩
  rfl

theorem sampleFile_header :
    headerOutcome sampleFile =
      (⟨magicHMGR, 1, 8232, 0, 0, "00000000-0000-0000-0000-000000000000", "", "", "", ""⟩,
        none) := by
  decide!

theorem sampleFile_facts :
    (GameDataFormatHdrRecord.FromStream GameDataFormatHdrRecord.zero ⟨sampleFile, 0⟩).2.2 = none ∧
    0 ≤ (GameDataFormatHdrRecord.FromStream GameDataFormatHdrRecord.zero
      ⟨sampleFile, 0⟩).1.HeaderSize ∧
    (GameDataFormatHdrRecord.FromStream GameDataFormatHdrRecord.zero
      ⟨sampleFile, 0⟩).1.ThumbnailSize ≤ 0 ∧
    sampleOpened.ArcRegistry = [] := by
  have h := sampleFile_header
  rw [headerOutcome_eq] at h
  simp only [Prod.mk.injEq] at h
  obtain ⟨h1, h2⟩ := h
  rw [h1, h2]
  exact ⟨rfl, by decide, by decide, sampleFile_opened.2⟩

theorem header_ok_of_err {inflate : Inflater} {data : List Byte} {w : World}
    (h : (GetFileSegment inflate data w).err ≠ some Error.notGameDataFormat) :
    (GameDataFormatHdrRecord.FromStream GameDataFormatHdrRecord.zero ⟨data, 0⟩).2.2 = none := by
  unfold GetFileSegment at h
  rcases hfs : GameDataFormatHdrRecord.FromStream GameDataFormatHdrRecord.zero ⟨data, 0⟩
    with ⟨hdr, s, err⟩
  rw [hfs] at h
  cases err with
  | none => rfl
  | some e => exact absurd rfl h

theorem badThumbFile_facts :
    (GameDataFormatHdrRecord.FromStream GameDataFormatHdrRecord.zero ⟨badThumbFile, 0⟩).2.2
      = none ∧
    (openedArchive inflateEmptyOnly badThumbFile).map (fun za => za.ArcRegistry) = some [] ∧
    (GetFileSegment inflateEmptyOnly badThumbFile World.empty).err = some Error.eof := by
  have h3 : (GetFileSegment inflateEmptyOnly badThumbFile World.empty).err = some Error.eof := by
    decide!
  have h2 : (openedArchive inflateEmptyOnly badThumbFile).map (fun za => za.ArcRegistry)
      = some [] := by
    decide!
  exact ⟨header_ok_of_err (by rw [h3]; decide), h2, h3⟩

theorem gameArchive_facts :
    extractedContent inflateEmptyOnly gameArchive goodGameEntry = some gameData ∧
    extractedContent inflateEmptyOnly gameArchive badGameEntry = some (List.replicate 556 0) ∧
    (gameData.drop XG_GAMEHDR_LEN).take 4 = magicDMLI ∧
    ((List.replicate 556 (0 : Byte)).drop XG_GAMEHDR_LEN).take 4 ≠ magicDMLI ∧
    mapIndex XG_FILEMAP (filepathBase goodGameEntry.Name) = XG_GAMEFILE ∧
    mapIndex XG_FILEMAP (filepathBase badGameEntry.Name) = XG_GAMEFILE := by
  decide!

theorem trailer_FromStream_flag {ar r : ArchiveRecord} {s s2 : File}
    (h : ar.FromStream s = (r, s2, none)) :
    ∃ flag : Byte, (s.remaining.take archiveRecordSize)[20]? = some flag ∧
      r.CompressedRegistry = decide (flag ≠ 0) := by
  unfold ArchiveRecord.FromStream at h
  split at h
  · simp at h
  · rename_i buf st hrf
    simp only [File.readFull, Prod.mk.injEq] at hrf
    split at h
    · rename_i crc fc ver rs asz flag res h1 h2 h3 h4 h5 h6 h7
      simp only [Prod.mk.injEq, and_true] at h
      rw [← h.1, hrf.1]
      exact ⟨flag, h6, rfl⟩
    · simp at h

theorem NewZlibArchive_ok_index {inflate : Inflater} {data : List Byte} {w : World}
    {za : ZlibArchive} (h : (NewZlibArchive inflate data w).1 = Except.ok za) :
    ∃ w2, ZlibArchive.getArchiveIndex inflate
      { ArcRec := ArchiveRecord.zero, ArcRegistry := [], StartOfArcData := 0, EndOfArcData := 0,
        Stream := ⟨data, 0⟩, MaxBufSize := 32768 } w = (za, w2, none) := by
  unfold NewZlibArchive at h
  simp only at h
  split at h
  · simp at h
  · rename_i za1 w1 hidx
    simp only [Except.ok.injEq] at h
    subst h
    exact ⟨w1, hidx⟩

/-- No archive whose trailer has the compressed-registry flag byte 0 opens. -/
theorem NewZlibArchive_fails_of_flag_unset (inflate : Inflater) (data : List Byte) (w : World)
    (hflag : data[data.length - 13]? = some 0) (hlen : 33 ≤ data.length) :
    ∃ e, (NewZlibArchive inflate data w).1 = Except.error e := by
  rcases hr : (NewZlibArchive inflate data w).1 with e | za
  · exact ⟨e, rfl⟩
  · exfalso
    obtain ⟨w2, hidx⟩ := NewZlibArchive_ok_index hr
    obtain ⟨_, _, f3, f4, _, f6, _⟩ := getArchiveIndex_ok hidx
    obtain ⟨flag, hf, hc⟩ := trailer_FromStream_flag (triple_eta f3 f4)
    have hT : archiveRecordSize = 33 := rfl
    simp only [File.remaining, hT] at hf
    rw [List.getElem?_take_of_lt (by omega), List.getElem?_drop] at hf
    have h13 : data.length - 33 + 20 = data.length - 13 := by omega
    rw [h13, hflag] at hf
    simp only [Option.some.injEq] at hf
    rw [f6, ← hf] at hc
    simp at hc

theorem mapIndex_of_not_key (key : List Byte) (hk : key ∉ XG_FILEMAP.map Prod.fst) :
    mapIndex XG_FILEMAP key = GDF_HDR := by
  simp only [XG_FILEMAP, List.map_cons, List.map_nil, List.mem_cons, List.mem_singleton,
    List.not_mem_nil, or_false, not_or] at hk
  obtain ⟨h1, h2, h3, h4⟩ := hk
  have b1 : (key == ascii "temp.xgi") = false := beq_eq_false_iff_ne.mpr h1
  have b2 : (key == ascii "temp.xgr") = false := beq_eq_false_iff_ne.mpr h2
  have b3 : (key == ascii "temp.xgc") = false := beq_eq_false_iff_ne.mpr h3
  have b4 : (key == ascii "temp.xg") = false := beq_eq_false_iff_ne.mpr h4
  simp only [mapIndex, XG_FILEMAP, List.lookup, b1, b2, b3, b4]
  rfl

/-! ### Claims -/

/-- C1 (code defect): on the packed bytes `00 11 22 33 44 55 66 77 88 99 AA BB
CC DD EE FF` the code's `formatGUID` renders the fourth group from bytes 8-9
as a little-endian 16-bit value, so it prints `9988` where the stored order
is `8899`; the result is not the string the specification requires. -/
theorem formatGUID_sample_swaps_fourth_group :
    formatGUID sampleGUID = some "33221100-5544-7766-9988-aabbccddeeff" ∧
    formatGUID sampleGUID ≠ some "33221100-5544-7766-8899-aabbccddeeff" := by
  decide

theorem utf16Loop_takeWhile (xs : List Nat) :
    utf16Loop (xs.takeWhile (fun v => decide (v ≠ 0))) = utf16Loop xs := by
  induction xs with
  | nil => rfl
  | cons v rest ih =>
    by_cases hv : v = 0
    · subst hv; rfl
    · have hd : decide (v ≠ 0) = true := decide_eq_true hv
      rw [List.takeWhile_cons]
      simp only [hd, utf16Loop, hv, if_false, if_true, ih, List.length_cons]

theorem utf16Loop_length (xs : List Nat) :
    (utf16Loop xs).length = (xs.takeWhile (fun v => decide (v ≠ 0))).length := by
  induction xs with
  | nil => rfl
  | cons v rest ih =>
    by_cases hv : v = 0
    · subst hv; rfl
    · have hd : decide (v ≠ 0) = true := decide_eq_true hv
      rw [List.takeWhile_cons]
      simp only [hd, utf16Loop, hv, if_false, if_true, ih, List.length_cons]

/-- C2: for every sequence of 16-bit units, `UTF16IntArrayToStr` gives the
decode of the prefix that precedes the first zero unit, one character per unit
of that prefix, whatever follows the zero; and `[0x41, 0x42, 0, 0x43]` decodes
to the two-character text "AB". -/
theorem UTF16IntArrayToStr_stops_at_first_zero (xs : List Nat) :
    UTF16IntArrayToStr xs = UTF16IntArrayToStr (xs.takeWhile (fun v => decide (v ≠ 0))) ∧
    (UTF16IntArrayToStr xs).length = (xs.takeWhile (fun v => decide (v ≠ 0))).length ∧
    UTF16IntArrayToStr [0x0041, 0x0042, 0x0000, 0x0043] = "AB" := by
  refine ⟨?_, ?_, by decide⟩
  · simp only [UTF16IntArrayToStr, utf16Loop_takeWhile]
  · simp only [UTF16IntArrayToStr, String.length, utf16Loop_length]

/-- C3: on an input that holds at least the 8232-byte header span, the header
decoder succeeds exactly when bytes [0:4) are "HMGR" and bytes [4:8), read as a
little-endian 32-bit integer, are 1. -/
theorem FromStream_succeeds_iff_magic_and_version (hdr : GameDataFormatHdrRecord)
    (stream : File) (h : 8232 ≤ stream.remaining.length) :
    (GameDataFormatHdrRecord.FromStream hdr stream).2.2 = none ↔
      (stream.remaining.take 4 = magicHMGR ∧
        leUint32 ((stream.remaining.drop 4).take 4) = some 1) := by
  obtain ⟨version, hversion, hlt, heq⟩ := FromStream_of_le hdr stream h
  have hl : (stream.remaining.take headerSpan).length = 8232 := by
    have hspan : headerSpan = 8232 := rfl
    simp only [List.length_take]; omega
  rw [heq, hversion]
  constructor
  · intro hok
    split at hok
    · simp at hok
    · rename_i hcond
      simp only [not_or, not_not] at hcond
      exact ⟨hcond.1, by rw [(toInt32_eq_one_iff hlt).mp hcond.2]⟩
  · rintro ⟨hm, hv⟩
    simp only [Option.some.injEq] at hv
    subst hv
    have hcond : ¬ (stream.remaining.take 4 ≠ magicHMGR ∨ toInt32 1 ≠ 1) := by
      simp [hm, toInt32]
    rw [if_neg hcond]
    obtain ⟨r, hr⟩ := decodeHeaderBody_isSome
      { hdr with MagicNumber := stream.remaining.take 4, HeaderVersion := toInt32 1 } hl
    rw [hr]

/-- Witness for C3: the sample file, 8273 bytes with magic "HMGR" and version 1. -/
theorem FromStream_succeeds_iff_magic_and_version_witness :
    (GameDataFormatHdrRecord.FromStream GameDataFormatHdrRecord.zero ⟨sampleFile, 0⟩).2.2 = none ↔
      ((File.mk sampleFile 0).remaining.take 4 = magicHMGR ∧
        leUint32 (((File.mk sampleFile 0).remaining.drop 4).take 4) = some 1) :=
  FromStream_succeeds_iff_magic_and_version GameDataFormatHdrRecord.zero ⟨sampleFile, 0⟩
    (by
      simp only [File.remaining, List.drop_zero, sampleFile_length]
      omega)

/-- Layout of a successful header decode: magic "HMGR", version 1, HeaderSize
the little-endian 32-bit integer at [8:12), ThumbnailOffset the little-endian
64-bit integer at [12:20), ThumbnailSize the little-endian 32-bit integer at
[20:24), GameGUID what the code's `formatGUID` makes of [24:40), and the four
names the NUL-terminated UTF-16LE decodes of [40:2064), [2064:4088),
[4088:6112), [6112:8136); hence two inputs that decode successfully and agree
on their first 8136 bytes give the same record. -/
theorem FromStream_layout_of_ok (hdr : GameDataFormatHdrRecord) (stream : File)
    (h : (GameDataFormatHdrRecord.FromStream hdr stream).2.2 = none) :
    ((GameDataFormatHdrRecord.FromStream hdr stream).1.MagicNumber = magicHMGR ∧
    (GameDataFormatHdrRecord.FromStream hdr stream).1.HeaderVersion = 1 ∧
    ((slice stream.remaining 8 12).bind leUint32).map toInt32
      = some (GameDataFormatHdrRecord.FromStream hdr stream).1.HeaderSize ∧
    ((slice stream.remaining 12 20).bind leUint64).map toInt64
      = some (GameDataFormatHdrRecord.FromStream hdr stream).1.ThumbnailOffset ∧
    ((slice stream.remaining 20 24).bind leUint32).map toInt32
      = some (GameDataFormatHdrRecord.FromStream hdr stream).1.ThumbnailSize ∧
    (slice stream.remaining 24 40).bind formatGUID
      = some (GameDataFormatHdrRecord.FromStream hdr stream).1.GameGUID ∧
    ((slice stream.remaining 40 2064).bind unpackUint16Array).map UTF16IntArrayToStr
      = some (GameDataFormatHdrRecord.FromStream hdr stream).1.GameName ∧
    ((slice stream.remaining 2064 4088).bind unpackUint16Array).map UTF16IntArrayToStr
      = some (GameDataFormatHdrRecord.FromStream hdr stream).1.SaveName ∧
    ((slice stream.remaining 4088 6112).bind unpackUint16Array).map UTF16IntArrayToStr
      = some (GameDataFormatHdrRecord.FromStream hdr stream).1.LevelName ∧
    ((slice stream.remaining 6112 8136).bind unpackUint16Array).map UTF16IntArrayToStr
      = some (GameDataFormatHdrRecord.FromStream hdr stream).1.Comments) ∧
    ∀ (hdr2 : GameDataFormatHdrRecord) (stream2 : File),
      (GameDataFormatHdrRecord.FromStream hdr2 stream2).2.2 = none →
      stream2.remaining.take 8136 = stream.remaining.take 8136 →
      (GameDataFormatHdrRecord.FromStream hdr2 stream2).1
        = (GameDataFormatHdrRecord.FromStream hdr stream).1 := by
  refine ⟨FromStream_fields h, ?_⟩
  intro hdr2 stream2 h2 hagree
  have hspan : headerSpan = 8232 := rfl
  have hlen := FromStream_ok_length h
  have hlen2 := FromStream_ok_length h2
  have key : ∀ lo hi, hi ≤ 8136 → slice stream2.remaining lo hi = slice stream.remaining lo hi := by
    intro lo hi hhi
    rw [← slice_take hhi (show 8136 ≤ stream2.remaining.length by omega),
      ← slice_take hhi (show 8136 ≤ stream.remaining.length by omega), hagree]
  have f1 := FromStream_fields h
  have f2 := FromStream_fields h2
  rw [key 8 12 (by omega), key 12 20 (by omega), key 20 24 (by omega), key 24 40 (by omega),
    key 40 2064 (by omega), key 2064 4088 (by omega), key 4088 6112 (by omega),
    key 6112 8136 (by omega)] at f2
  generalize (GameDataFormatHdrRecord.FromStream hdr stream).1 = r1 at f1 ⊢
  generalize (GameDataFormatHdrRecord.FromStream hdr2 stream2).1 = r2 at f2 ⊢
  obtain ⟨a1, a2, a3, a4, a5, a6, a7, a8, a9, a10⟩ := f1
  obtain ⟨b1, b2, b3, b4, b5, b6, b7, b8, b9, b10⟩ := f2
  rw [a3] at b3
  rw [a4] at b4
  rw [a5] at b5
  rw [a6] at b6
  rw [a7] at b7
  rw [a8] at b8
  rw [a9] at b9
  rw [a10] at b10
  simp only [Option.some.injEq] at b3 b4 b5 b6 b7 b8 b9 b10
  cases r1
  cases r2
  simp only at a1 a2 b1 b2 b3 b4 b5 b6 b7 b8 b9 b10
  simp only [GameDataFormatHdrRecord.mk.injEq]
  exact ⟨by rw [b1, a1], by rw [b2, a2], b3.symm, b4.symm, b5.symm, b6.symm, b7.symm,
    b8.symm, b9.symm, b10.symm⟩

/-- C5: for every input file whose first four bytes are not "HMGR" or whose
version field at [4:8) is not 1 (or is missing), `GetFileSegment` returns the
error "not a game data format file" and no segments, and creates no temporary
file. -/
theorem GetFileSegment_rejects_bad_magic_or_version (inflate : Inflater) (data : List Byte)
    (w : World)
    (h : data.take 4 ≠ magicHMGR ∨ leUint32 ((data.drop 4).take 4) ≠ some 1) :
    GetFileSegment inflate data w = ⟨none, some Error.notGameDataFormat, w⟩ := by
  obtain ⟨e, he⟩ := FromStream_error_of_bad_magic GameDataFormatHdrRecord.zero ⟨data, 0⟩
    (by simpa [File.remaining] using h)
  unfold GetFileSegment
  rcases hfs : GameDataFormatHdrRecord.FromStream GameDataFormatHdrRecord.zero ⟨data, 0⟩
    with ⟨r, s, err⟩
  rw [hfs] at he
  simp only at he
  subst he
  rfl

/-- Witness for C5: a file that starts with "XXXX". -/
theorem GetFileSegment_rejects_bad_magic_or_version_witness :
    GetFileSegment inflateEmptyOnly [0x58, 0x58, 0x58, 0x58, 1, 0, 0, 0] World.empty
      = ⟨none, some Error.notGameDataFormat, World.empty⟩ :=
  GetFileSegment_rejects_bad_magic_or_version inflateEmptyOnly
    [0x58, 0x58, 0x58, 0x58, 1, 0, 0, 0] World.empty (by decide)

/-- C7 (code defect): a well-formed archive whose trailer has the
compressed-registry flag unset does not open.  `getArchiveIndex` calls
`extractSegment` with byte count 0, and the uncompressed branch rejects every
count that is not positive.  The sample archive fails with "invalid number of
bytes for uncompressed segment", and no file of at least 33 bytes whose flag
byte, 13 bytes before the end, is 0 opens without error. -/
theorem NewZlibArchive_uncompressed_registry_fails :
    (NewZlibArchive inflateEmptyOnly rawRegistryFile World.empty).1
      = Except.error Error.invalidNumBytes ∧
    ∀ (inflate : Inflater) (data : List Byte) (w : World),
      data[data.length - 13]? = some 0 → 33 ≤ data.length →
      ∃ e, (NewZlibArchive inflate data w).1 = Except.error e :=
  ⟨by decide!, NewZlibArchive_fails_of_flag_unset⟩

/-- C8: after a successful open of a file of length L (below 2^62), with T = 33
the byte length of the trailer record, r the trailer's registry size and a its
archive size: the trailer is the record decoded at offset L - T (recorded as
EndOfArcData), the registry is materialized from the bytes starting at offset
L - T - r, and StartOfArcData = L - T - r - a. -/
theorem NewZlibArchive_offsets (inflate : Inflater) (data : List Byte) (w : World)
    (za : ZlibArchive) (hL : (data.length : Int) < 4611686018427387904)
    (hopen : (NewZlibArchive inflate data w).1 = Except.ok za) :
    archiveRecordSize = 33 ∧
    (33 : Int) ≤ data.length ∧
    za.EndOfArcData = data.length - 33 ∧
    (ArchiveRecord.FromStream ArchiveRecord.zero ⟨data, data.length - 33⟩).1 = za.ArcRec ∧
    (ArchiveRecord.FromStream ArchiveRecord.zero ⟨data, data.length - 33⟩).2.2 = none ∧
    0 ≤ (data.length : Int) - 33 - za.ArcRec.RegistrySize ∧
    (NewZlibArchive inflate data w).2.content w.files.length
      = (inflate (data.drop ((data.length : Int) - 33 - za.ArcRec.RegistrySize).toNat)).output ∧
    za.StartOfArcData = data.length - 33 - za.ArcRec.RegistrySize - za.ArcRec.ArchiveSize := by
  have hT : archiveRecordSize = 33 := rfl
  unfold NewZlibArchive at hopen ⊢
  simp only at hopen ⊢
  split at hopen
  · simp at hopen
  · rename_i za1 w1 hidx
    simp only [Except.ok.injEq] at hopen
    subst hopen
    simp only
    obtain ⟨f1, f2, f3, f4, f5, _, _, f8, f9, _, _⟩ := getArchiveIndex_ok hidx
    simp only [hT, Nat.cast_ofNat] at f1 f2 f3 f4 f5 f8 f9
    obtain ⟨r1, r2, r3, r4⟩ := trailer_FromStream_range (triple_eta f3 f4)
    refine ⟨hT, f1, f2, f3, f4, f5, f8, ?_⟩
    rw [f9, wrapInt64_of_range (by omega) (by omega)]

/-- Witness for C8: the sample file of 8273 bytes, whose registry is the
8-byte zlib encoding of the empty string at offset 8232 and whose archive size
is 0. -/
theorem NewZlibArchive_offsets_witness :
    sampleOpened.StartOfArcData
      = (sampleFile.length : Int) - 33 - sampleOpened.ArcRec.RegistrySize
        - sampleOpened.ArcRec.ArchiveSize ∧
    sampleOpened.EndOfArcData = (sampleFile.length : Int) - 33 :=
  have h := NewZlibArchive_offsets inflateEmptyOnly sampleFile World.empty sampleOpened
    (by rw [sampleFile_length]; omega) sampleFile_opens
  ⟨h.2.2.2.2.2.2.2, h.2.2.1⟩

/-- C9: for an uncompressed entry, with the file shorter than 2^63 bytes: when
CSize > 0 and the range [StartOfArcData + Start, StartOfArcData + Start + CSize)
lies inside the file, `GetArchiveFile` succeeds, whatever the offset of the
shared stream and the state of the temporary storage, and the temporary file
it returns holds exactly those CSize bytes of the input; when CSize <= 0 it
returns an error. -/
theorem GetArchiveFile_uncompressed_is_verbatim (inflate : Inflater) (za : ZlibArchive)
    (filerec : FileRecord) (w : World) (hc : filerec.Compressed = false)
    (hL : (za.Stream.data.length : Int) < 9223372036854775808) :
    (0 < filerec.CSize → 0 ≤ za.StartOfArcData + filerec.Start →
      za.StartOfArcData + filerec.Start + filerec.CSize ≤ za.Stream.data.length →
      ∃ tmpFile name za2 w2,
        za.GetArchiveFile inflate filerec w = (Except.ok (tmpFile, name), za2, w2) ∧
        w2.fileExists name = true ∧
        w2.handles[tmpFile]? = some ⟨name, 0, false⟩ ∧
        ((w2.content name).length : Int) = filerec.CSize ∧
        w2.content name
          = (za.Stream.data.drop (za.StartOfArcData + filerec.Start).toNat).take
              filerec.CSize.toNat) ∧
    (filerec.CSize ≤ 0 →
      ∃ err za2 w2, za.GetArchiveFile inflate filerec w = (Except.error err, za2, w2)) := by
  constructor
  · intro hpos hlo hhi
    have hwrap : wrapInt64 (filerec.Start + za.StartOfArcData)
        = za.StartOfArcData + filerec.Start := by
      rw [wrapInt64_of_range (by omega) (by omega)]
      omega
    have hlen : ((za.Stream.data.drop (za.StartOfArcData + filerec.Start).toNat).take
        filerec.CSize.toNat).length = filerec.CSize.toNat := by
      simp only [List.length_take, List.length_drop]
      omega
    have hout : entryOutcome inflate za.Stream.data za.StartOfArcData filerec
        = Except.ok ((za.Stream.data.drop (za.StartOfArcData + filerec.Start).toNat).take
            filerec.CSize.toNat) := by
      unfold entryOutcome
      simp only [hwrap, hc, hlen]
      rw [if_neg (by omega), if_neg (by simp), if_neg (by omega), if_neg (by omega)]
    obtain ⟨pos, hget⟩ := GetArchiveFile_ok inflate za filerec w hout
    refine ⟨_, _, _, _, hget, ?_, ?_, ?_, ?_⟩
    · simp [World.fileExists]
    · have hl : (w.handles ++ [(⟨w.files.length, ((za.Stream.data.drop
          (za.StartOfArcData + filerec.Start).toNat).take filerec.CSize.toNat).length,
          true⟩ : Handle)]).length = w.handles.length + 1 := by simp
      rw [← hl]
      exact getElem?_append_self _ _
    · rw [World.content_appended, hlen]
      omega
    · rw [World.content_appended]
  · intro hneg
    by_cases htarget : wrapInt64 (filerec.Start + za.StartOfArcData) < 0
    · have hout : entryOutcome inflate za.Stream.data za.StartOfArcData filerec
          = Except.error Error.seekInvalid := by
        unfold entryOutcome
        simp only [htarget, if_true]
      obtain ⟨za2, w2, hget⟩ := GetArchiveFile_error inflate za filerec w hout
      exact ⟨_, _, _, hget⟩
    · have hout : entryOutcome inflate za.Stream.data za.StartOfArcData filerec
          = Except.error Error.invalidNumBytes := by
        unfold entryOutcome
        simp only [htarget, if_false, hc, hneg, if_true, Bool.false_eq_true]
      obtain ⟨za2, w2, hget⟩ := GetArchiveFile_error inflate za filerec w hout
      exact ⟨_, _, _, hget⟩

/-- Witness for C9: the entry "dir/foo.bin" (four bytes at start 0) of the
archive over "DATA", whose stream was left at offset 3. -/
theorem GetArchiveFile_uncompressed_is_verbatim_witness :
    ∃ tmpFile name za2 w2,
      sampleArchive.GetArchiveFile inflateEmptyOnly unknownEntry World.empty
        = (Except.ok (tmpFile, name), za2, w2) ∧
      w2.content name = ascii "DATA" := by
  obtain ⟨tmpFile, name, za2, w2, h1, _, _, _, h5⟩ :=
    (GetArchiveFile_uncompressed_is_verbatim inflateEmptyOnly sampleArchive unknownEntry
      World.empty (by decide) (by decide)).1 (by decide) (by decide) (by decide)
  exact ⟨tmpFile, name, za2, w2, h1, by rw [h5]; decide⟩

/-- C10 (amended): for every input file whose header decodes, whose header
size is not negative, whose thumbnail is absent (ThumbnailSize <= 0) or starts
inside the file, and whose archive opens with every registry entry extracting,
`GetFileSegment` fails if and only if some entry classified `XG_GAMEFILE` does
not have the four bytes "DMLI" at [556:560) of its extracted content, and on
failure it returns no segments; entries of the other kinds are not checked.
The same holds for the segment loop of `GetFileSegment` run over any registry
whose entries all extract. -/
theorem GetFileSegment_fails_iff_gamefile_lacks_magic (inflate : Inflater) (data : List Byte)
    (w : World) (za : ZlibArchive)
    (hhdr : (GameDataFormatHdrRecord.FromStream GameDataFormatHdrRecord.zero ⟨data, 0⟩).2.2 = none)
    (hsize : 0 ≤
      (GameDataFormatHdrRecord.FromStream GameDataFormatHdrRecord.zero ⟨data, 0⟩).1.HeaderSize)
    (hthumb :
      (GameDataFormatHdrRecord.FromStream GameDataFormatHdrRecord.zero ⟨data, 0⟩).1.ThumbnailSize
        ≤ 0 ∨
      (0 ≤ (GameDataFormatHdrRecord.FromStream GameDataFormatHdrRecord.zero
          ⟨data, 0⟩).1.ThumbnailOffset ∧
        (GameDataFormatHdrRecord.FromStream GameDataFormatHdrRecord.zero
          ⟨data, 0⟩).1.ThumbnailOffset < data.length))
    (hopen : openedArchive inflate data = some za)
    (hall : ∀ e ∈ za.ArcRegistry, (extractedContent inflate za e).isSome = true) :
    (((GetFileSegment inflate data w).err ≠ none ↔
        ∃ e ∈ za.ArcRegistry, mapIndex XG_FILEMAP (filepathBase e.Name) = XG_GAMEFILE ∧
          ∀ c, extractedContent inflate za e = some c →
            (c.drop XG_GAMEHDR_LEN).take 4 ≠ magicDMLI) ∧
      ((GetFileSegment inflate data w).err ≠ none →
        (GetFileSegment inflate data w).segments = none)) ∧
    ∀ (registry : List FileRecord) (archiveobj : ZlibArchive) (w0 : World)
      (defers : List Deferred) (segments : List Segment),
      (∀ e ∈ registry, (extractedContent inflate archiveobj e).isSome = true) →
      ((segmentLoop inflate registry archiveobj w0 defers segments).err ≠ none ↔
          ∃ e ∈ registry, mapIndex XG_FILEMAP (filepathBase e.Name) = XG_GAMEFILE ∧
            ∀ c, extractedContent inflate archiveobj e = some c →
              (c.drop XG_GAMEHDR_LEN).take 4 ≠ magicDMLI) ∧
        ((segmentLoop inflate registry archiveobj w0 defers segments).err ≠ none →
          (segmentLoop inflate registry archiveobj w0 defers segments).segments = none) := by
  obtain ⟨w2, defers2, segments2, heq⟩ := GetFileSegment_reaches_loop w hhdr hsize hthumb hopen
  rw [heq]
  exact ⟨segmentLoop_fails_iff_extracted inflate za.ArcRegistry za w2 defers2 segments2 hall,
    fun registry archiveobj w0 defers segments hreg =>
      segmentLoop_fails_iff_extracted inflate registry archiveobj w0 defers segments hreg⟩

/-- Witness for C10: the sample file (no thumbnail, empty registry) is
extracted without error; in the archive over `gameData` the loop accepts the
entry "temp.xg" whose content has "DMLI" at 556 and fails on the entry "temp.xg"
whose content stops at byte 556. -/
theorem GetFileSegment_fails_iff_gamefile_lacks_magic_witness :
    (GetFileSegment inflateEmptyOnly sampleFile World.empty).err = none ∧
    (segmentLoop inflateEmptyOnly [goodGameEntry] gameArchive World.empty [] []).err = none ∧
    (segmentLoop inflateEmptyOnly [badGameEntry] gameArchive World.empty [] []).err ≠ none := by
  have hreg : sampleOpened.ArcRegistry = [] := sampleFile_facts.2.2.2
  have hw := GetFileSegment_fails_iff_gamefile_lacks_magic inflateEmptyOnly sampleFile
    World.empty sampleOpened sampleFile_facts.1 sampleFile_facts.2.1
    (Or.inl sampleFile_facts.2.2.1) (openedArchive_of_fst sampleFile_opens)
    (by rw [hreg]; intro e he; simp at he)
  obtain ⟨g1, g2, g3, g4, g5, g6⟩ := gameArchive_facts
  refine ⟨?_, ?_, ?_⟩
  · by_contra hne
    obtain ⟨e, he, _⟩ := hw.1.1.mp hne
    rw [hreg] at he
    simp at he
  · by_contra hne
    have hgood := hw.2 [goodGameEntry] gameArchive World.empty [] []
      (by intro e he; rw [List.mem_singleton.mp he, g1]; rfl)
    obtain ⟨e, he, _, hb⟩ := hgood.1.mp hne
    rw [List.mem_singleton.mp he] at hb
    exact hb gameData g1 g3
  · have hbad := hw.2 [badGameEntry] gameArchive World.empty [] []
      (by intro e he; rw [List.mem_singleton.mp he, g2]; rfl)
    refine hbad.1.mpr ⟨badGameEntry, List.mem_singleton.mpr rfl, g6, ?_⟩
    intro c hc
    rw [g2] at hc
    simp only [Option.some.injEq] at hc
    rw [← hc]
    exact g4

/-- Counterexample to C10 as stated: `badThumbFile` has a valid header and an
archive that opens with an empty registry, so every entry extracts and no
entry classified `XG_GAMEFILE` lacks the magic; yet `GetFileSegment` fails with
`io.EOF`, because the thumbnail read at offset 1000000 finds no byte. -/
theorem GetFileSegment_fails_on_unreadable_thumbnail :
    (GameDataFormatHdrRecord.FromStream GameDataFormatHdrRecord.zero ⟨badThumbFile, 0⟩).2.2
      = none ∧
    ∃ za, openedArchive inflateEmptyOnly badThumbFile = some za ∧
      (∀ e ∈ za.ArcRegistry, (extractedContent inflateEmptyOnly za e).isSome = true) ∧
      (GetFileSegment inflateEmptyOnly badThumbFile World.empty).err = some Error.eof ∧
      ¬ ((GetFileSegment inflateEmptyOnly badThumbFile World.empty).err ≠ none ↔
          ∃ e ∈ za.ArcRegistry, mapIndex XG_FILEMAP (filepathBase e.Name) = XG_GAMEFILE ∧
            ∀ c, extractedContent inflateEmptyOnly za e = some c →
              (c.drop XG_GAMEHDR_LEN).take 4 ≠ magicDMLI) := by
  obtain ⟨h1, h2, h3⟩ := badThumbFile_facts
  refine ⟨h1, ?_⟩
  rcases hz : openedArchive inflateEmptyOnly badThumbFile with _ | za
  · rw [hz] at h2
    simp at h2
  · rw [hz] at h2
    simp only [Option.map_some', Option.some.injEq] at h2
    refine ⟨za, rfl, ?_, h3, ?_⟩
    · rw [h2]
      intro e he
      simp at he
    · rw [h3, h2]
      intro hiff
      obtain ⟨e, he, _⟩ := hiff.mp (by simp)
      simp at he

/-! ### Short strings, short headers, classification -/

theorem takeWhile_append_stop {α : Type} (p : α → Bool) (l r : List α) (a : α)
    (hl : ∀ x ∈ l, p x = true) (ha : p a = false) : (l ++ a :: r).takeWhile p = l := by
  induction l with
  | nil => simp [List.takeWhile, ha]
  | cons x t ih =>
    have hx : p x = true := hl x (List.mem_cons_self _ _)
    simp only [List.cons_append, List.takeWhile_cons, hx, if_true,
      ih (fun y hy => hl y (List.mem_cons_of_mem _ hy))]

theorem takeWhile_all {α : Type} (p : α → Bool) (l : List α) (hl : ∀ x ∈ l, p x = true) :
    l.takeWhile p = l := by
  induction l with
  | nil => rfl
  | cons x t ih =>
    have hx : p x = true := hl x (List.mem_cons_self _ _)
    simp only [List.takeWhile_cons, hx, if_true,
      ih (fun y hy => hl y (List.mem_cons_of_mem _ hy))]

theorem dropWhile_head_false {α : Type} (p : α → Bool) (x : α) (t : List α) (hx : p x = false) :
    (x :: t).dropWhile p = x :: t := by
  simp [List.dropWhile, hx]

/-- Go `filepath.Base` returns the last element of a path that ends in an
element without separator. -/
theorem filepathBase_last (dir base : List Byte) (hne : base ≠ [])
    (hsep : ∀ x ∈ base, x ≠ 47) :
    filepathBase (dir ++ 47 :: base) = base ∧ filepathBase base = base := by
  obtain ⟨y, ys, hrev⟩ : ∃ y ys, base.reverse = y :: ys := by
    rcases hb : base.reverse with _ | ⟨y, ys⟩
    · exact absurd (List.reverse_eq_nil_iff.mp hb) hne
    · exact ⟨y, ys, rfl⟩
  have hy : y ≠ 47 := hsep y (by
    have : y ∈ base.reverse := by rw [hrev]; exact List.mem_cons_self _ _
    exact List.mem_reverse.mp this)
  have hall : ∀ x ∈ base.reverse, decide (x ≠ 47) = true := fun x hx =>
    decide_eq_true (hsep x (List.mem_reverse.mp hx))
  have hd : decide (y = 47) = false := decide_eq_false hy
  have h47 : decide ((47 : Byte) ≠ 47) = false := by decide
  have htake : ∀ r : List Byte,
      (base.reverse ++ 47 :: r).takeWhile (fun x => decide (x ≠ 47)) = base.reverse :=
    fun r => takeWhile_append_stop _ _ r 47 hall h47
  constructor
  · have hp : dir ++ 47 :: base ≠ [] := by simp
    have hrp : (dir ++ 47 :: base).reverse = base.reverse ++ 47 :: dir.reverse := by simp
    unfold filepathBase
    rw [if_neg hp]
    simp only [hrp]
    have hdw : (base.reverse ++ 47 :: dir.reverse).dropWhile (fun x => decide (x = 47))
        = base.reverse ++ 47 :: dir.reverse := by
      rw [hrev]
      exact dropWhile_head_false _ _ _ hd
    simp only [hdw, List.reverse_reverse]
    rw [htake, List.reverse_reverse, if_neg hne]
  · unfold filepathBase
    rw [if_neg hne]
    have hdw : base.reverse.dropWhile (fun x => decide (x = 47)) = base.reverse := by
      rw [hrev]
      exact dropWhile_head_false _ _ _ hd
    simp only [hdw, List.reverse_reverse]
    rw [takeWhile_all _ _ hall, List.reverse_reverse, if_neg hne]
/-- Segments returned by the segment loop: the segments it started with,
followed by one non-auto-deleting segment per registry entry, in registry
order, each with the kind that `XG_FILEMAP` gives for the entry's base name. -/
theorem segmentLoop_segments (inflate : Inflater) :
    ∀ (registry : List FileRecord) (za : ZlibArchive) (w : World) (defers : List Deferred)
      (segments out : List Segment),
      (segmentLoop inflate registry za w defers segments).segments = some out →
      ∃ tail, out = segments ++ tail ∧
        tail.map Segment.Kind
          = registry.map (fun e => mapIndex XG_FILEMAP (filepathBase e.Name)) ∧
        ∀ s ∈ tail, s.AutoDelete = false := by
  intro registry
  induction registry with
  | nil =>
    intro za w defers segments out h
    simp only [segmentLoop, Option.some.injEq] at h
    exact ⟨[], by simp [h], rfl, by simp⟩
  | cons e rest ih =>
    intro za w defers segments out h
    simp only [segmentLoop] at h
    split at h
    · simp at h
    · rename_i segmentFile segFilename za2 w2 hget
      have key : ∀ (w3 : World),
          (segmentLoop inflate rest za2 w3
            (Deferred.removeFile segFilename :: Deferred.closeHandle segmentFile :: defers)
            (segments ++ [⟨segFilename, segmentFile,
              mapIndex XG_FILEMAP (filepathBase e.Name), false⟩])).segments = some out →
          ∃ tail, out = segments ++ tail ∧
            tail.map Segment.Kind
              = (e :: rest).map (fun e => mapIndex XG_FILEMAP (filepathBase e.Name)) ∧
            ∀ s ∈ tail, s.AutoDelete = false := by
        intro w3 h3
        obtain ⟨tail, ht1, ht2, ht3⟩ := ih za2 w3 _ _ out h3
        refine ⟨⟨segFilename, segmentFile, mapIndex XG_FILEMAP (filepathBase e.Name), false⟩
          :: tail, ?_, ?_, ?_⟩
        · rw [ht1, List.append_assoc, List.singleton_append]
        · simp only [List.map_cons, ht2]
        · intro s hs
          rcases List.mem_cons.mp hs with rfl | hs2
          · rfl
          · exact ht3 s hs2
      split at h
      · split at h
        · simp at h
        · split at h
          · simp at h
          · exact key _ h
      · exact key _ h
theorem FileRecord_FromStream_fails (fr : FileRecord) (stream : File) :
    (FileRecord.FromStream fr stream).2.2 ≠ none := by
  unfold FileRecord.FromStream
  split
  · simp
  · split
    · simp
    · simp

/-- C15 (code defect): `FileRecord.FromStream` never succeeds.  After the two
256-byte fields it calls `binary.Read` on the whole `FileRecord`, a struct with
string fields, which `encoding/binary` rejects.  On the complete 530-byte row
`sampleRow` it returns "binary.Read: invalid type" with 512 bytes consumed and
OSize, CSize, Start, CRC and the two flag bytes not decoded. -/
theorem FileRecord_FromStream_never_succeeds :
    (∀ (fr : FileRecord) (stream : File), (FileRecord.FromStream fr stream).2.2 ≠ none) ∧
    sampleRow.length = 530 ∧
    (FileRecord.FromStream FileRecord.zero ⟨sampleRow, 0⟩).2.2
      = some Error.binaryInvalidType ∧
    (FileRecord.FromStream FileRecord.zero ⟨sampleRow, 0⟩).2.1.pos = 512 ∧
    (FileRecord.FromStream FileRecord.zero ⟨sampleRow, 0⟩).1
      = { FileRecord.zero with Name := ascii "temp.xg" } :=
  ⟨FileRecord_FromStream_fails, by decide!, by decide!, by decide!, by decide!⟩

/-- C18: on an input with fewer bytes than the 8232-byte header span, the
header decoder returns an error (`io.EOF` on an empty input,
`io.ErrUnexpectedEOF` otherwise) and the record is what it was before the
call, whatever the bytes that are present. -/
theorem FromStream_short_input_leaves_record (hdr : GameDataFormatHdrRecord) (stream : File)
    (h : stream.remaining.length < 8232) :
    (GameDataFormatHdrRecord.FromStream hdr stream).2.2
      = some (if stream.remaining.length = 0 then Error.eof else Error.unexpectedEOF) ∧
    (GameDataFormatHdrRecord.FromStream hdr stream).1 = hdr := by
  have hspan : headerSpan = 8232 := rfl
  have hl : (stream.remaining.take headerSpan).length = stream.remaining.length := by
    simp only [List.length_take]; omega
  have hne : ¬ (stream.remaining.length = headerSpan) := by omega
  unfold GameDataFormatHdrRecord.FromStream
  simp only [File.readFull, hl, hne, if_false]
  by_cases h0 : stream.remaining.length = 0
  · simp only [h0, if_true, and_self]
  · simp only [h0, if_false, and_self]

/-- Witness for C18: eight bytes that carry the magic "HMGR" and version 1. -/
theorem FromStream_short_input_leaves_record_witness :
    (GameDataFormatHdrRecord.FromStream sampleRecord ⟨magicHMGR ++ [1, 0, 0, 0], 0⟩).2.2
      = some Error.unexpectedEOF ∧
    (GameDataFormatHdrRecord.FromStream sampleRecord ⟨magicHMGR ++ [1, 0, 0, 0], 0⟩).1
      = sampleRecord :=
  FromStream_short_input_leaves_record sampleRecord ⟨magicHMGR ++ [1, 0, 0, 0], 0⟩ (by decide)

/-- C19: the kind of an entry is a function of the base name of its name.  A
name whose last element is "temp.xgi", "temp.xgr", "temp.xgc" or "temp.xg",
with or without a directory prefix, is classified `XG_GAMEHDR`, `XG_ROLLOUTS`,
`XG_COMMENT` or `XG_GAMEFILE`; the four kinds are pairwise distinct; and the
segment that the loop of `GetFileSegment` appends for an entry carries that
kind. -/
theorem classification_uses_base_name :
    (∀ dir : List Byte,
      mapIndex XG_FILEMAP (filepathBase (dir ++ 47 :: ascii "temp.xgi")) = XG_GAMEHDR ∧
      mapIndex XG_FILEMAP (filepathBase (dir ++ 47 :: ascii "temp.xgr")) = XG_ROLLOUTS ∧
      mapIndex XG_FILEMAP (filepathBase (dir ++ 47 :: ascii "temp.xgc")) = XG_COMMENT ∧
      mapIndex XG_FILEMAP (filepathBase (dir ++ 47 :: ascii "temp.xg")) = XG_GAMEFILE) ∧
    (mapIndex XG_FILEMAP (filepathBase (ascii "temp.xgi")) = XG_GAMEHDR ∧
      mapIndex XG_FILEMAP (filepathBase (ascii "temp.xgr")) = XG_ROLLOUTS ∧
      mapIndex XG_FILEMAP (filepathBase (ascii "temp.xgc")) = XG_COMMENT ∧
      mapIndex XG_FILEMAP (filepathBase (ascii "temp.xg")) = XG_GAMEFILE) ∧
    (∀ name1 name2 : List Byte, filepathBase name1 = filepathBase name2 →
      mapIndex XG_FILEMAP (filepathBase name1) = mapIndex XG_FILEMAP (filepathBase name2)) ∧
    (XG_GAMEHDR ≠ XG_ROLLOUTS ∧ XG_GAMEHDR ≠ XG_COMMENT ∧ XG_GAMEHDR ≠ XG_GAMEFILE ∧
      XG_ROLLOUTS ≠ XG_COMMENT ∧ XG_ROLLOUTS ≠ XG_GAMEFILE ∧ XG_COMMENT ≠ XG_GAMEFILE) ∧
    (∀ (inflate : Inflater) (filerec : FileRecord) (za : ZlibArchive) (w : World)
      (defers : List Deferred) (segments out : List Segment),
      (segmentLoop inflate [filerec] za w defers segments).segments = some out →
      ∃ seg, out = segments ++ [seg] ∧
        seg.Kind = mapIndex XG_FILEMAP (filepathBase filerec.Name)) := by
  refine ⟨fun dir => ⟨?_, ?_, ?_, ?_⟩, by decide, fun n1 n2 h => by rw [h], by decide, ?_⟩
  · rw [(filepathBase_last dir (ascii "temp.xgi") (by decide) (by decide!)).1]; decide
  · rw [(filepathBase_last dir (ascii "temp.xgr") (by decide) (by decide!)).1]; decide
  · rw [(filepathBase_last dir (ascii "temp.xgc") (by decide) (by decide!)).1]; decide
  · rw [(filepathBase_last dir (ascii "temp.xg") (by decide) (by decide!)).1]; decide
  · intro inflate filerec za w defers segments out h
    obtain ⟨tail, h1, h2, _⟩ := segmentLoop_segments inflate [filerec] za w defers segments out h
    rcases tail with _ | ⟨seg, _ | ⟨s2, t⟩⟩
    · simp at h2
    · simp only [List.map_cons, List.map_nil, List.cons.injEq, and_true] at h2
      exact ⟨seg, h1, h2⟩
    · simp at h2

/-- C20: for a buffer `l :: rest` whose length byte `l` does not exceed the
number of bytes that follow it, `DelphiShortStrToStr` is exactly the `l` bytes
after the length byte; its length is `l`; and every buffer that agrees with it
on the first `1 + l` bytes gives the same string. -/
theorem DelphiShortStrToStr_returns_declared_bytes (l : Byte) (rest : List Byte)
    (h : l.val ≤ rest.length) :
    DelphiShortStrToStr (l :: rest) = some (rest.take l.val) ∧
    (rest.take l.val).length = l.val ∧
    ∀ b2 : List Byte, b2.take (1 + l.val) = (l :: rest).take (1 + l.val) →
      DelphiShortStrToStr b2 = some (rest.take l.val) := by
  have hmain : ∀ (r : List Byte), l.val ≤ r.length →
      DelphiShortStrToStr (l :: r) = some (r.take l.val) := by
    intro r hr
    unfold DelphiShortStrToStr
    simp only [List.getElem?_cons_zero]
    rw [slice_eq_some (by omega) (by simp only [List.length_cons]; omega)]
    simp
  refine ⟨hmain rest h, by simp only [List.length_take]; omega, ?_⟩
  intro b2 hb2
  have hlen : (b2.take (1 + l.val)).length = 1 + l.val := by
    rw [hb2]
    simp only [List.length_take, List.length_cons]
    omega
  rcases b2 with _ | ⟨x, r⟩
  · simp only [List.take_nil, List.length_nil] at hlen
    omega
  · have h1 : 1 + l.val = l.val + 1 := by omega
    rw [h1] at hb2 hlen
    simp only [List.take_succ_cons, List.cons.injEq] at hb2
    simp only [List.take_succ_cons, List.length_cons, List.length_take] at hlen
    obtain ⟨hx, hr⟩ := hb2
    subst hx
    rw [hmain r (by omega), hr]

/-- Witness for C20: length byte 2 followed by "ABC". -/
theorem DelphiShortStrToStr_returns_declared_bytes_witness :
    DelphiShortStrToStr (2 :: ascii "ABC") = some (ascii "AB") :=
  (DelphiShortStrToStr_returns_declared_bytes 2 (ascii "ABC") (by decide)).1

/-! ### The stream checksum -/

theorem drop_four_cons (l : List Byte) (h : 4 ≤ l.length) :
    ∃ b0 b1 b2 b3, l = b0 :: b1 :: b2 :: b3 :: l.drop 4 := by
  rcases l with _ | ⟨b0, _ | ⟨b1, _ | ⟨b2, _ | ⟨b3, t⟩⟩⟩⟩
  · simp at h
  · simp at h
  · simp at h
  · simp at h
  · exact ⟨b0, b1, b2, b3, rfl⟩

/-- With block size 4 the whole-stream loop combines every 4-byte chunk. -/
theorem crcLoopAll_block_four :
    ∀ (k : Nat) (data : List Byte) (pos crc fuel : Nat),
      data.length = pos + 4 * k → k + 1 ≤ fuel →
      crcLoopAll 4 fuel ⟨data, pos⟩ crc
        = some (Except.ok (crc ^^^ xorOfChunks (data.drop pos)), ⟨data, data.length⟩)
  | 0, data, pos, crc, fuel, hlen, hfuel => by
    obtain ⟨f, rfl⟩ : ∃ f, fuel = f + 1 := ⟨fuel - 1, by omega⟩
    have hnil : data.drop pos = [] := List.drop_eq_nil_of_le (by omega)
    have hp : pos = data.length := by omega
    simp only [crcLoopAll, File.read, File.remaining, hnil, List.take_nil, List.length_nil,
      crcStep, Nat.lt_irrefl, if_false, xorOfChunks, Nat.xor_zero, Nat.add_zero]
    simp [hp]
  | k + 1, data, pos, crc, fuel, hlen, hfuel => by
    obtain ⟨f, rfl⟩ : ∃ f, fuel = f + 1 := ⟨fuel - 1, by omega⟩
    obtain ⟨b0, b1, b2, b3, hd⟩ := drop_four_cons (data.drop pos)
      (by simp only [List.length_drop]; omega)
    have hdd : (data.drop pos).drop 4 = data.drop (pos + 4) := by
      rw [List.drop_drop]
    rw [hdd] at hd
    have ih := crcLoopAll_block_four k data (pos + 4) (crc ^^^ (b0.val + 256 * b1.val
      + 65536 * b2.val + 16777216 * b3.val)) f (by omega) (by omega)
    have ht : (data.drop pos).take 4 = [b0, b1, b2, b3] := by
      rw [hd]
      rfl
    rw [hd]
    simp only [crcLoopAll, File.read, File.remaining, ht, List.length_cons, List.length_nil,
      crcStep, crc32Update, leUint32, Option.map_some', xorOfChunks]
    simp only [Nat.zero_add, Nat.reduceAdd, Nat.lt_add_one, Nat.reduceLT, if_true, and_false,
      if_false, OfNat.ofNat_ne_zero, Nat.succ_ne_zero]
    rw [ih, Nat.xor_assoc]
/-- C14 (code defect): `crc32Update` combines only the first four bytes of the
block it is given, so the checksum depends on the block size.  On the 8-byte
stream `01 00 00 00 02 00 00 00` the exclusive or of the two chunks is 3;
`StreamCRC32` over the whole stream returns 3 with block size 4 and 1 with
block size 8.  With block size 4, and only then in general, it returns the
exclusive or of all chunks of a stream whose length is a multiple of 4. -/
theorem StreamCRC32_depends_on_block_size :
    (xorOfChunks [1, 0, 0, 0, 2, 0, 0, 0] = 3 ∧
      StreamCRC32 10 ⟨[1, 0, 0, 0, 2, 0, 0, 0], 0⟩ 0 0 8
        = some (Except.ok 1, ⟨[1, 0, 0, 0, 2, 0, 0, 0], 0⟩) ∧
      StreamCRC32 10 ⟨[1, 0, 0, 0, 2, 0, 0, 0], 0⟩ 0 0 4
        = some (Except.ok 3, ⟨[1, 0, 0, 0, 2, 0, 0, 0], 0⟩)) ∧
    ∀ (data : List Byte) (fuel : Nat), data.length % 4 = 0 → data.length / 4 + 1 ≤ fuel →
      StreamCRC32 fuel ⟨data, 0⟩ 0 0 4 = some (Except.ok (xorOfChunks data), ⟨data, 0⟩) := by
  refine ⟨by decide, ?_⟩
  intro data fuel hmod hfuel
  have hloop := crcLoopAll_block_four (data.length / 4) data 0 0 fuel (by omega) hfuel
  simp only [List.drop_zero, Nat.zero_xor] at hloop
  simp only [StreamCRC32, ne_eq, not_true_eq_false, if_false, Int.toNat_ofNat, if_true]
  have h4 : ¬ ((4 : Int) < 0) := by omega
  simp only [h4, if_false]
  have ht : (4 : Int).toNat = 4 := rfl
  rw [ht, hloop]
  simp [File.seekStart, File.seekTo]

theorem World.close_last (fs : List TmpFile) (hs : List Handle) (n p : Nat) :
    (World.mk fs (hs ++ [⟨n, p, false⟩])).close hs.length
      = (⟨fs, hs ++ [⟨n, p, true⟩]⟩, none) := by
  simp only [World.close, getElem?_append_self, set_append_self, Bool.false_eq_true, if_false]

theorem World.remove_last (fs : List TmpFile) (hs : List Handle) (c : List Byte) :
    (World.mk (fs ++ [⟨c, false⟩]) hs).remove fs.length
      = (⟨fs ++ [⟨c, true⟩], hs⟩, none) := by
  simp only [World.remove, getElem?_append_self, set_append_self, Bool.false_eq_true, if_false]

theorem getArchiveIndex_world {inflate : Inflater} {za0 za : ZlibArchive} {w w2 : World}
    (h : za0.getArchiveIndex inflate w = (za, w2, none)) :
    ∃ f h1 h2, w2 = ⟨w.files ++ [f], w.handles ++ [h1] ++ [h2]⟩ := by
  unfold ZlibArchive.getArchiveIndex at h
  simp only [seekEnd_eq] at h
  split at h
  · simp at h
  · rename_i x1 stream1 hseek1
    split at hseek1
    · simp at hseek1
    · simp only [Prod.mk.injEq, and_true] at hseek1
      subst hseek1
      simp only at h
      split at h
      · simp at h
      · rename_i x2 arcRec stream2 hrec
        split at h
        · simp at h
        · rename_i x3 stream3 hseek2
          split at hseek2
          · simp at hseek2
          · simp only [Prod.mk.injEq, and_true] at hseek2
            subst hseek2
            split at h
            · simp at h
            · rename_i x4 idxFilename za1 w1 hext
              obtain ⟨hb, herr, hname, hw1, hza1⟩ := extractSegment_zero_ok hext
              subst hname hw1 hza1
              simp only [World.openFile_appended, Prod.mk.injEq, World.content_appended] at h
              obtain ⟨hza, hw, hloop⟩ := h
              rw [World.close_last, World.remove_last] at hw
              exact ⟨_, _, _, hw.symm⟩

/-- Opening the archive leaves the temporary files and the handles that exist
before the call as they are. -/
theorem NewZlibArchive_frame {inflate : Inflater} {data : List Byte} {w w4 : World}
    {za : ZlibArchive} (h : NewZlibArchive inflate data w = (Except.ok za, w4)) :
    (∀ n, n < w.files.length → w4.files[n]? = w.files[n]?) ∧
    (∀ k, k < w.handles.length → w4.handles[k]? = w.handles[k]?) := by
  unfold NewZlibArchive at h
  simp only at h
  split at h
  · simp at h
  · rename_i za1 w1 hidx
    simp only [Prod.mk.injEq, Except.ok.injEq] at h
    obtain ⟨f, h1, h2, hw⟩ := getArchiveIndex_world hidx
    rw [← h.2, hw]
    constructor
    · intro n hn
      simp only [List.getElem?_append_left hn]
    · intro k hk
      have hk2 : k < (w.handles ++ [h1]).length := by
        rw [List.length_append]
        omega
      simp only [List.getElem?_append_left hk2, List.getElem?_append_left hk]
theorem World.createTemp_write (w : World) (bs : List Byte) :
    w.createTemp.2.2.write w.handles.length bs
      = ⟨w.files ++ [⟨bs, false⟩], w.handles ++ [⟨w.files.length, bs.length, false⟩]⟩ := by
  simp only [World.createTemp, World.write, getElem?_append_self, set_append_self,
    List.take_zero, List.nil_append, Nat.zero_add, List.drop_nil, List.append_nil]

theorem archivePhase_some {inflate : Inflater} {data : List Byte} {w : World}
    {defers : List Deferred} {segments out : List Segment}
    (h : (archivePhase inflate data w defers segments).segments = some out) :
    ∃ za w4, NewZlibArchive inflate data w = (Except.ok za, w4) ∧
      archivePhase inflate data w defers segments
        = segmentLoop inflate za.ArcRegistry za w4 defers segments := by
  unfold archivePhase at h ⊢
  split at h
  · simp at h
  · rename_i za w4 hnew
    rw [hnew]
    exact ⟨za, w4, rfl, rfl⟩

theorem thumbnailPhase_some {inflate : Inflater} {data : List Byte}
    {gdfheader : GameDataFormatHdrRecord} {xginfile : File} {w : World}
    {defers : List Deferred} {segments out : List Segment}
    (h : (thumbnailPhase inflate data gdfheader xginfile w defers segments).segments
      = some out) :
    (¬ 0 < gdfheader.ThumbnailSize ∧
      thumbnailPhase inflate data gdfheader xginfile w defers segments
        = archivePhase inflate data w defers segments) ∨
    (0 < gdfheader.ThumbnailSize ∧ ∃ imgbuf,
      thumbnailPhase inflate data gdfheader xginfile w defers segments
        = archivePhase inflate data
            ⟨w.files ++ [⟨imgbuf, false⟩], w.handles ++ [⟨w.files.length, imgbuf.length, false⟩]⟩
            (Deferred.closeSegment ⟨w.files.length, w.handles.length, GDF_IMAGE, true⟩ :: defers)
            (segments ++ [⟨w.files.length, w.handles.length, GDF_IMAGE, true⟩])) := by
  unfold thumbnailPhase at h ⊢
  by_cases hts : gdfheader.ThumbnailSize > 0
  · right
    rw [if_pos hts] at h ⊢
    refine ⟨hts, ?_⟩
    have hns : NewSegment GDF_IMAGE true w
        = (⟨w.files.length, w.handles.length, GDF_IMAGE, true⟩, w.createTemp.2.2) := rfl
    rw [hns] at h ⊢
    simp only at h ⊢
    split at h
    · simp at h
    · rename_i bs f2 hr
      simp only [World.createTemp_write]
      exact ⟨_, rfl⟩
  · left
    rw [if_neg hts] at h ⊢
    exact ⟨hts, rfl⟩

theorem GetFileSegment_some {inflate : Inflater} {data : List Byte} {w : World}
    {out : List Segment} (h : (GetFileSegment inflate data w).segments = some out) :
    (GameDataFormatHdrRecord.FromStream GameDataFormatHdrRecord.zero ⟨data, 0⟩).2.2 = none ∧
    0 ≤ (GameDataFormatHdrRecord.FromStream GameDataFormatHdrRecord.zero
      ⟨data, 0⟩).1.HeaderSize ∧
    ∃ xginfile, GetFileSegment inflate data w
      = thumbnailPhase inflate data
          (GameDataFormatHdrRecord.FromStream GameDataFormatHdrRecord.zero ⟨data, 0⟩).1 xginfile
          ⟨w.files ++ [⟨data.take (GameDataFormatHdrRecord.FromStream
              GameDataFormatHdrRecord.zero ⟨data, 0⟩).1.HeaderSize.toNat
              ++ List.replicate ((GameDataFormatHdrRecord.FromStream
                GameDataFormatHdrRecord.zero ⟨data, 0⟩).1.HeaderSize.toNat - data.length) 0,
              false⟩],
            w.handles ++ [⟨w.files.length, (data.take (GameDataFormatHdrRecord.FromStream
              GameDataFormatHdrRecord.zero ⟨data, 0⟩).1.HeaderSize.toNat
              ++ List.replicate ((GameDataFormatHdrRecord.FromStream
                GameDataFormatHdrRecord.zero ⟨data, 0⟩).1.HeaderSize.toNat - data.length) 0).length,
              false⟩]⟩
          [Deferred.closeSegment ⟨w.files.length, w.handles.length, GDF_HDR, true⟩]
          [⟨w.files.length, w.handles.length, GDF_HDR, true⟩] := by
  have hdata := header_FromStream_data GameDataFormatHdrRecord.zero ⟨data, 0⟩
  unfold GetFileSegment at h ⊢
  rcases hfs : GameDataFormatHdrRecord.FromStream GameDataFormatHdrRecord.zero ⟨data, 0⟩
    with ⟨hdr, xg, e⟩
  rw [hfs] at h hdata
  simp only at h hdata ⊢
  cases e with
  | some e => simp at h
  | none =>
    simp only at h ⊢
    have hns : NewSegment GDF_HDR true w
        = (⟨w.files.length, w.handles.length, GDF_HDR, true⟩, w.createTemp.2.2) := rfl
    rw [hns] at h ⊢
    simp only at h ⊢
    by_cases hneg : hdr.HeaderSize < 0
    · rw [if_pos hneg] at h
      simp at h
    · rw [if_neg hneg] at h ⊢
      refine ⟨trivial, by omega, ?_⟩
      rw [File.seekStart_nonneg _ _ (le_refl 0)] at h ⊢
      split at h
      · simp at h
      · rename_i bs f2 hr
        simp only [File.read, File.remaining, Int.toNat_zero, List.drop_zero, hdata,
          Prod.mk.injEq] at hr
        obtain ⟨hbs, _, _⟩ := hr
        subst hbs
        have hl : hdr.HeaderSize.toNat - (List.take hdr.HeaderSize.toNat data).length
            = hdr.HeaderSize.toNat - data.length := by
          rw [List.length_take]
          omega
        simp only [World.createTemp_write, hl]
        exact ⟨_, rfl⟩
theorem registryLoop_ok_zero {n : Nat} {idxFile rest : File} {acc reg : List FileRecord}
    (h : registryLoop n idxFile acc = (reg, rest, none)) : n = 0 ∧ reg = acc := by
  cases n with
  | zero =>
    simp only [registryLoop, Prod.mk.injEq, and_true] at h
    exact ⟨rfl, h.1.symm⟩
  | succ n =>
    exfalso
    simp only [registryLoop] at h
    have hf := FileRecord_FromStream_fails FileRecord.zero idxFile
    rcases hd : FileRecord.FromStream FileRecord.zero idxFile with ⟨fr, s, _ | e⟩
    · rw [hd] at hf
      exact hf rfl
    · rw [hd] at h
      simp at h

/-- An archive that opens has no positive FileCount and an empty registry. -/
theorem opened_registry_empty {inflate : Inflater} {data : List Byte} {w : World}
    {za : ZlibArchive} (h : (NewZlibArchive inflate data w).1 = Except.ok za) :
    za.ArcRec.FileCount ≤ 0 ∧ za.ArcRegistry = [] := by
  obtain ⟨w2, hidx⟩ := NewZlibArchive_ok_index h
  obtain ⟨_, _, _, _, _, _, _, _, _, _, f11⟩ := getArchiveIndex_ok hidx
  obtain ⟨h0, hreg⟩ := registryLoop_ok_zero f11
  refine ⟨?_, hreg⟩
  omega

/-- The trailer that an opened archive holds is the one decoded from the last
33 bytes of the file. -/
theorem opened_trailer {inflate : Inflater} {data : List Byte} {w : World}
    {za : ZlibArchive} (h : (NewZlibArchive inflate data w).1 = Except.ok za) :
    za.ArcRec = (ArchiveRecord.FromStream ArchiveRecord.zero
      ⟨data, data.length - archiveRecordSize⟩).1 := by
  obtain ⟨w2, hidx⟩ := NewZlibArchive_ok_index h
  obtain ⟨_, _, f3, _⟩ := getArchiveIndex_ok hidx
  exact f3.symm

theorem Segment.Close_autoDelete (s : Segment) (w : World) (hd : Handle) (f : TmpFile)
    (ha : s.AutoDelete = true)
    (hh : w.handles[s.File]? = some hd) (hc : hd.closed = false)
    (hf : w.files[s.Filename]? = some f) (hr : f.removed = false) :
    (s.Close w).1.files[s.Filename]? = some ⟨f.content, true⟩ ∧
    (s.Close w).1.handles[s.File]? = some ⟨hd.file, hd.pos, true⟩ ∧
    (∀ n, n ≠ s.Filename → (s.Close w).1.files[n]? = w.files[n]?) ∧
    (∀ k, k ≠ s.File → (s.Close w).1.handles[k]? = w.handles[k]?) := by
  have hk : s.File < w.handles.length := by
    by_contra hge
    rw [List.getElem?_eq_none (by omega)] at hh
    simp at hh
  have hn : s.Filename < w.files.length := by
    by_contra hge
    rw [List.getElem?_eq_none (by omega)] at hf
    simp at hf
  simp only [Segment.Close, World.close, hh, hc, Bool.false_eq_true, if_false, ha, if_true,
    World.remove, hf, hr]
  refine ⟨?_, ?_, ?_, ?_⟩
  · rw [List.getElem?_set_self hn]
  · rw [List.getElem?_set_self hk]
  · intro n hne
    rw [List.getElem?_set_ne (Ne.symm hne)]
  · intro k hne
    rw [List.getElem?_set_ne (Ne.symm hne)]

/-- What a successful call of `GetFileSegment` returns and leaves behind: the
archive opened, the result is the header segment followed by the thumbnail
segment when ThumbnailSize is positive, and when the caller regains control
the header segment's file holds the header block, is removed, and its handle is
closed; likewise for the thumbnail segment. -/
theorem GetFileSegment_success {inflate : Inflater} {data : List Byte} {w : World}
    {out : List Segment} (h : (GetFileSegment inflate data w).segments = some out) :
    (∃ za wa, (NewZlibArchive inflate data wa).1 = Except.ok za) ∧
    (GetFileSegment inflate data w).err = none ∧
    out = ⟨w.files.length, w.handles.length, GDF_HDR, true⟩ ::
      (if 0 < (headerOutcome data).1.ThumbnailSize
        then [⟨w.files.length + 1, w.handles.length + 1, GDF_IMAGE, true⟩] else []) ∧
    (GetFileSegment inflate data w).world.files[w.files.length]?
      = some ⟨data.take (headerOutcome data).1.HeaderSize.toNat
          ++ List.replicate ((headerOutcome data).1.HeaderSize.toNat - data.length) 0, true⟩ ∧
    (∃ pos, (GetFileSegment inflate data w).world.handles[w.handles.length]?
      = some ⟨w.files.length, pos, true⟩) ∧
    (0 < (headerOutcome data).1.ThumbnailSize →
      ∃ imgbuf pos, (GetFileSegment inflate data w).world.files[w.files.length + 1]?
          = some ⟨imgbuf, true⟩ ∧
        (GetFileSegment inflate data w).world.handles[w.handles.length + 1]?
          = some ⟨w.files.length + 1, pos, true⟩) := by
  obtain ⟨_, _, xg, h3⟩ := GetFileSegment_some h
  rw [headerOutcome_eq]
  simp only
  generalize (GameDataFormatHdrRecord.FromStream GameDataFormatHdrRecord.zero ⟨data, 0⟩).1
    = hdr at h3 ⊢
  generalize data.take hdr.HeaderSize.toNat
    ++ List.replicate (hdr.HeaderSize.toNat - data.length) 0 = block at h3 ⊢
  rw [h3] at h ⊢
  clear h3
  have hseg : ∀ (za : ZlibArchive) (w4 : World) (defers : List Deferred) (segs : List Segment),
      za.ArcRegistry = [] →
      segmentLoop inflate za.ArcRegistry za w4 defers segs
        = ⟨some segs, none, runDeferred defers w4⟩ := by
    intro za w4 defers segs hz
    rw [hz]
    rfl
  rcases thumbnailPhase_some h with ⟨hts, h2⟩ | ⟨hts, imgbuf, h2⟩
  · rw [h2] at h ⊢
    obtain ⟨za, w4, hnew, h1⟩ := archivePhase_some h
    have hopen := congrArg Prod.fst hnew
    simp only at hopen
    have hreg := (opened_registry_empty hopen).2
    obtain ⟨hff, hfh⟩ := NewZlibArchive_frame hnew
    rw [h1, hseg _ _ _ _ hreg] at h ⊢
    simp only [Option.some.injEq] at h
    have hf4 := hff w.files.length (by simp)
    have hh4 := hfh w.handles.length (by simp)
    simp only [getElem?_append_self] at hf4 hh4
    obtain ⟨c1, c2, _, _⟩ := Segment.Close_autoDelete
      ⟨w.files.length, w.handles.length, GDF_HDR, true⟩ w4 _ _ rfl hh4 rfl hf4 rfl
    refine ⟨⟨za, _, hopen⟩, rfl, ?_, c1, ⟨_, c2⟩, ?_⟩
    · rw [if_neg hts, ← h]
    · intro hpos
      exact absurd hpos hts
  · rw [h2] at h ⊢
    obtain ⟨za, w4, hnew, h1⟩ := archivePhase_some h
    have hopen := congrArg Prod.fst hnew
    simp only at hopen
    have hreg := (opened_registry_empty hopen).2
    obtain ⟨hff, hfh⟩ := NewZlibArchive_frame hnew
    rw [h1, hseg _ _ _ _ hreg] at h ⊢
    simp only [Option.some.injEq] at h
    have hl1 : (w.files ++ [(⟨block, false⟩ : TmpFile)]).length = w.files.length + 1 := by simp
    have hl2 : (w.handles ++ [(⟨w.files.length, block.length, false⟩ : Handle)]).length
        = w.handles.length + 1 := by simp
    dsimp only at h hff hfh ⊢
    simp only [hl1, hl2] at h hfh ⊢
    have hf0 := hff w.files.length (by simp)
    have hh0 := hfh w.handles.length (by simp)
    have hf1 := hff (w.files.length + 1) (by simp)
    have hh1 := hfh (w.handles.length + 1) (by simp)
    rw [List.getElem?_append_left (by simp), getElem?_append_self] at hf0 hh0
    rw [← hl1, getElem?_append_self] at hf1
    rw [← hl2, getElem?_append_self] at hh1
    rw [hl1] at hf1
    rw [hl2] at hh1
    obtain ⟨a1, a2, a3, a4⟩ := Segment.Close_autoDelete
      ⟨w.files.length + 1, w.handles.length + 1, GDF_IMAGE, true⟩ w4 _ _ rfl hh1 rfl hf1 rfl
    have hf0b := (a3 w.files.length (by simp)).trans hf0
    have hh0b := (a4 w.handles.length (by simp)).trans hh0
    obtain ⟨c1, c2, c3, c4⟩ := Segment.Close_autoDelete
      ⟨w.files.length, w.handles.length, GDF_HDR, true⟩ _ _ _ rfl hh0b rfl hf0b rfl
    refine ⟨⟨za, _, hopen⟩, trivial, ?_, c1, ⟨_, c2⟩, ?_⟩
    · rw [if_pos hts, ← h]
      rfl
    · intro _
      exact ⟨_, _, (c3 (w.files.length + 1) (by simp)).trans a1,
        (c4 (w.handles.length + 1) (by simp)).trans a2⟩
theorem segmentLoop_segments_of_ok (inflate : Inflater) :
    ∀ (registry : List FileRecord) (za : ZlibArchive) (w : World) (defers : List Deferred)
      (segments : List Segment),
      (segmentLoop inflate registry za w defers segments).err = none →
      (segmentLoop inflate registry za w defers segments).segments ≠ none := by
  intro registry
  induction registry with
  | nil =>
    intro za w defers segments _
    simp [segmentLoop]
  | cons e rest ih =>
    intro za w defers segments
    simp only [segmentLoop]
    split
    · simp
    · split
      · split
        · simp
        · split
          · simp
          · exact ih _ _ _ _
      · exact ih _ _ _ _

theorem GetFileSegment_segments_of_ok {inflate : Inflater} {data : List Byte} {w : World} :
    (GetFileSegment inflate data w).err = none →
    (GetFileSegment inflate data w).segments ≠ none := by
  unfold GetFileSegment
  split
  · simp
  · simp only
    split
    · simp
    · split
      · simp
      · unfold thumbnailPhase
        split
        · simp only
          split
          · simp
          · unfold archivePhase
            split
            · simp
            · exact segmentLoop_segments_of_ok inflate _ _ _ _ _
        · unfold archivePhase
          split
          · simp
          · exact segmentLoop_segments_of_ok inflate _ _ _ _ _
theorem headerOutcome_append (a x : List Byte) (ha : a.length = headerSpan) :
    headerOutcome (a ++ x) = headerOutcome a := by
  have h1 : (List.drop 0 (a ++ x)).take headerSpan = a := by
    rw [List.drop_zero, ← ha, List.take_left']
    rfl
  have h2 : (List.drop 0 a).take headerSpan = a := by
    rw [List.drop_zero, ← ha, List.take_length]
  unfold headerOutcome GameDataFormatHdrRecord.FromStream
  simp only [File.readFull, File.remaining, h1, h2, ha, if_true]
  rcases slice a 0 4 with _ | magic
  · rfl
  · rcases (slice a 4 8).bind leUint32 with _ | version
    · rfl
    · simp only
      split
      · rfl
      · split <;> rfl

theorem wellFormedFile_header :
    headerOutcome wellFormedFile = headerOutcome sampleFile := by
  have hl : (magicHMGR ++ [1, 0, 0, 0] ++ [0x28, 0x20, 0, 0]
      ++ List.replicate 8220 (0 : Byte)).length = headerSpan := by
    simp only [magicHMGR, headerSpan, List.length_append, List.length_replicate,
      List.length_cons, List.length_nil]
  unfold wellFormedFile sampleFile
  rw [List.append_assoc _ (zlibStored gameData), List.append_assoc _ _ (_ ++ List.replicate 12 0),
    List.append_assoc _ emptyZlib, headerOutcome_append _ _ hl, headerOutcome_append _ _ hl]
theorem wellFormedFile_length : wellFormedFile.length = 9377 := by
  have h1 : (zlibStored gameData).length = 571 := by decide!
  have h2 : (zlibStored gameRow).length = 541 := by decide!
  simp only [wellFormedFile, magicHMGR, List.length_append, List.length_replicate,
    List.length_cons, List.length_nil, h1, h2]

theorem wellFormedFile_fails :
    (GetFileSegment inflateStored wellFormedFile World.empty).err
      = some Error.binaryInvalidType := by
  decide!

theorem wellFormedFile_parts :
    (ArchiveRecord.FromStream ArchiveRecord.zero ⟨wellFormedFile, 9344⟩).1.FileCount = 1 ∧
    (inflateStored (wellFormedFile.drop 8803)).output = gameRow ∧
    (inflateStored (wellFormedFile.drop 8232)).output = gameData ∧
    (segmentLoop inflateStored [gameEntry] wellFormedArchive World.empty [] []).segments
      = some [⟨0, 1, XG_GAMEFILE, false⟩] := by
  decide!

/-- C11 (code defect): the scenario of the claim fails.  The file
`wellFormedFile` has a valid header with a 0-byte thumbnail, a trailer with
FileCount 1, a registry that decompresses to the row of "temp.xg", and an entry
that decompresses to 560 bytes with "DMLI" at offset 556, for which the entry
loop yields one GameDataFile segment; yet `GetFileSegment` returns no segment
and the error of `binary.Read`.  Every file whose trailer has a positive
FileCount fails.  What holds: a successful call returns the header segment and
then the thumbnail segment exactly when ThumbnailSize is positive, and the
entry loop, when it succeeds, appends one segment per entry in registry
order. -/
theorem GetFileSegment_single_entry_file_fails :
    (headerOutcome wellFormedFile
        = (⟨magicHMGR, 1, 8232, 0, 0, "00000000-0000-0000-0000-000000000000", "", "", "", ""⟩,
            none) ∧
      (ArchiveRecord.FromStream ArchiveRecord.zero ⟨wellFormedFile, 9344⟩).1.FileCount = 1 ∧
      (inflateStored (wellFormedFile.drop 8803)).output = gameRow ∧
      (inflateStored (wellFormedFile.drop 8232)).output = gameData ∧
      (segmentLoop inflateStored [gameEntry] wellFormedArchive World.empty [] []).segments
        = some [⟨0, 1, XG_GAMEFILE, false⟩] ∧
      (GetFileSegment inflateStored wellFormedFile World.empty).segments = none ∧
      (GetFileSegment inflateStored wellFormedFile World.empty).err
        = some Error.binaryInvalidType) ∧
    (∀ (inflate : Inflater) (data : List Byte) (w : World),
      0 < (ArchiveRecord.FromStream ArchiveRecord.zero
        ⟨data, data.length - archiveRecordSize⟩).1.FileCount →
      (GetFileSegment inflate data w).segments = none ∧
      (GetFileSegment inflate data w).err ≠ none) ∧
    (∀ (inflate : Inflater) (data : List Byte) (w : World) (out : List Segment),
      (GetFileSegment inflate data w).segments = some out →
      out.map Segment.Kind
        = GDF_HDR :: (if 0 < (headerOutcome data).1.ThumbnailSize then [GDF_IMAGE] else [])) ∧
    (∀ (inflate : Inflater) (registry : List FileRecord) (za : ZlibArchive) (w : World)
        (defers : List Deferred) (segments out : List Segment),
      (segmentLoop inflate registry za w defers segments).segments = some out →
      ∃ tail, out = segments ++ tail ∧
        tail.map Segment.Kind
          = registry.map (fun e => mapIndex XG_FILEMAP (filepathBase e.Name))) := by
  have hgen : ∀ (inflate : Inflater) (data : List Byte) (w : World),
      0 < (ArchiveRecord.FromStream ArchiveRecord.zero
        ⟨data, data.length - archiveRecordSize⟩).1.FileCount →
      (GetFileSegment inflate data w).segments = none ∧
      (GetFileSegment inflate data w).err ≠ none := by
    intro inflate data w hpos
    have hnone : (GetFileSegment inflate data w).segments = none := by
      rcases hs : (GetFileSegment inflate data w).segments with _ | out
      · rfl
      · exfalso
        obtain ⟨⟨za, wa, hopen⟩, _⟩ := GetFileSegment_success hs
        have hle := (opened_registry_empty hopen).1
        rw [opened_trailer hopen] at hle
        omega
    exact ⟨hnone, fun he => GetFileSegment_segments_of_ok he hnone⟩
  obtain ⟨p1, p2, p3, p4⟩ := wellFormedFile_parts
  refine ⟨⟨?_, p1, p2, p3, p4, ?_, wellFormedFile_fails⟩, hgen, ?_, ?_⟩
  · rw [wellFormedFile_header]
    exact sampleFile_header
  · exact (hgen inflateStored wellFormedFile World.empty (by
      have hl : wellFormedFile.length - archiveRecordSize = 9344 := by
        rw [wellFormedFile_length]
        rfl
      rw [hl, p1]
      decide)).1
  · intro inflate data w out h
    obtain ⟨_, _, hout, _⟩ := GetFileSegment_success h
    rw [hout]
    split <;> rfl
  · intro inflate registry za w defers segments out h
    obtain ⟨tail, h1, h2, _⟩ := segmentLoop_segments inflate registry za w defers segments out h
    exact ⟨tail, h1, h2⟩
theorem World.content_of_file {w : World} {n : Nat} {f : TmpFile} (h : w.files[n]? = some f) :
    w.content n = f.content := by
  simp only [World.content, h]

theorem World.fileExists_of_file {w : World} {n : Nat} {f : TmpFile} (h : w.files[n]? = some f) :
    w.fileExists n = !f.removed := by
  simp only [World.fileExists, h]

theorem World.handleOpen_of_handle {w : World} {k : Nat} {hd : Handle}
    (h : w.handles[k]? = some hd) : w.handleOpen k = !hd.closed := by
  simp only [World.handleOpen, h]

theorem longHeaderFile_run :
    (headerOutcome longHeaderFile).1.HeaderSize = 9000 ∧
    longHeaderFile.length = 8273 ∧
    (GetFileSegment inflateEmptyOnly longHeaderFile World.empty).segments
      = some [⟨0, 0, GDF_HDR, true⟩] := by
  decide!

/-- C12 (code defect): the header segment is not always the file's header
span.  On every successful call the first segment is the header segment and
its file holds the first HeaderSize bytes of the input followed by one zero
byte for each byte that HeaderSize exceeds the file length: the count returned
by `Read` is dropped and the whole buffer is written.  The content is the span
verbatim when HeaderSize is at most the file length, and longer than the file
otherwise.  For `longHeaderFile`, 8273 bytes with HeaderSize 9000, the call
succeeds and the header segment holds 9000 bytes, the last 727 of them zero
bytes that the file does not hold. -/
theorem header_segment_is_zero_padded :
    (∀ (inflate : Inflater) (data : List Byte) (w : World) (out : List Segment),
      (GetFileSegment inflate data w).segments = some out →
      ∃ s rest, out = s :: rest ∧ s.Kind = GDF_HDR ∧
        (GetFileSegment inflate data w).world.content s.Filename
          = data.take (headerOutcome data).1.HeaderSize.toNat
            ++ List.replicate ((headerOutcome data).1.HeaderSize.toNat - data.length) 0 ∧
        ((headerOutcome data).1.HeaderSize.toNat ≤ data.length →
          (GetFileSegment inflate data w).world.content s.Filename
            = data.take (headerOutcome data).1.HeaderSize.toNat) ∧
        (data.length < (headerOutcome data).1.HeaderSize.toNat →
          data.length < ((GetFileSegment inflate data w).world.content s.Filename).length)) ∧
    ((headerOutcome longHeaderFile).1.HeaderSize = 9000 ∧
      longHeaderFile.length = 8273 ∧
      (GetFileSegment inflateEmptyOnly longHeaderFile World.empty).segments
        = some [⟨0, 0, GDF_HDR, true⟩] ∧
      ((GetFileSegment inflateEmptyOnly longHeaderFile World.empty).world.content 0).length
        = 9000 ∧
      ((GetFileSegment inflateEmptyOnly longHeaderFile World.empty).world.content 0).drop 8273
        = List.replicate 727 0) := by
  have hgen : ∀ (inflate : Inflater) (data : List Byte) (w : World) (out : List Segment),
      (GetFileSegment inflate data w).segments = some out →
      (GetFileSegment inflate data w).world.content w.files.length
        = data.take (headerOutcome data).1.HeaderSize.toNat
          ++ List.replicate ((headerOutcome data).1.HeaderSize.toNat - data.length) 0 := by
    intro inflate data w out h
    obtain ⟨_, _, hout, hfile, _⟩ := GetFileSegment_success h
    exact World.content_of_file hfile
  constructor
  · intro inflate data w out h
    obtain ⟨_, _, hout, hfile, _⟩ := GetFileSegment_success h
    have hc := World.content_of_file hfile
    simp only at hc
    refine ⟨_, _, hout, rfl, hc, ?_, ?_⟩
    · intro hle
      rw [hc, Nat.sub_eq_zero_of_le hle]
      simp
    · intro hlt
      rw [hc, List.length_append, List.length_replicate, List.length_take]
      omega
  · obtain ⟨r1, r2, r3⟩ := longHeaderFile_run
    have hc := hgen inflateEmptyOnly longHeaderFile World.empty _ r3
    rw [r1, r2] at hc
    have hl0 : World.empty.files.length = 0 := rfl
    rw [hl0] at hc
    have ht : List.take (9000 : Int).toNat longHeaderFile = longHeaderFile := by
      apply List.take_of_length_le
      rw [r2]
      decide
    rw [ht] at hc
    have hn : (9000 : Int).toNat - 8273 = 727 := by decide
    rw [hn] at hc
    refine ⟨r1, r2, r3, ?_, ?_⟩
    · rw [hc, List.length_append, r2, List.length_replicate]
    · rw [hc, List.drop_append_of_le_length (by rw [r2])]
      rw [List.drop_of_length_le (by rw [r2]), List.nil_append]
theorem World.fileExists_close (w : World) (k n : Nat) :
    (w.close k).1.fileExists n = w.fileExists n := by
  unfold World.close
  split
  · rfl
  · split <;> rfl

theorem World.handleOpen_remove (w : World) (m k : Nat) :
    (w.remove m).1.handleOpen k = w.handleOpen k := by
  unfold World.remove
  split
  · rfl
  · split <;> rfl

theorem World.fileExists_remove (w : World) (m n : Nat) :
    (w.remove m).1.fileExists n = (if m = n then false else w.fileExists n) := by
  unfold World.remove
  split
  · rename_i hf
    split
    · rename_i hmn
      subst hmn
      simp only [World.fileExists, hf]
    · rfl
  · rename_i f hf
    have hlt : m < w.files.length := by
      by_contra hge
      rw [List.getElem?_eq_none (by omega)] at hf
      simp at hf
    split
    · rename_i hrem
      split
      · rename_i hmn
        subst hmn
        simp only [World.fileExists, hf, hrem, Bool.not_true]
      · rfl
    · split
      · rename_i hmn
        subst hmn
        simp only [World.fileExists, List.getElem?_set_self hlt, Bool.not_true]
      · rename_i hmn
        simp only [World.fileExists, List.getElem?_set_ne hmn]

theorem World.handleOpen_close (w : World) (k h : Nat) :
    (w.close k).1.handleOpen h = (if k = h then false else w.handleOpen h) := by
  unfold World.close
  split
  · rename_i hk
    split
    · rename_i hkh
      subst hkh
      simp only [World.handleOpen, hk]
    · rfl
  · rename_i hd hk
    have hlt : k < w.handles.length := by
      by_contra hge
      rw [List.getElem?_eq_none (by omega)] at hk
      simp at hk
    split
    · rename_i hcl
      split
      · rename_i hkh
        subst hkh
        simp only [World.handleOpen, hk, hcl, Bool.not_true]
      · rfl
    · split
      · rename_i hkh
        subst hkh
        simp only [World.handleOpen, List.getElem?_set_self hlt, Bool.not_true]
      · rename_i hkh
        simp only [World.handleOpen, List.getElem?_set_ne hkh]

/-- A deferred call does not bring back a removed file or reopen a handle. -/
theorem Deferred.run_keeps (d : Deferred) (w : World) (n k : Nat) :
    (w.fileExists n = false → (d.run w).fileExists n = false) ∧
    (w.handleOpen k = false → (d.run w).handleOpen k = false) := by
  cases d with
  | closeSegment s =>
    simp only [Deferred.run, Segment.Close]
    rcases hc : w.close s.File with ⟨w1, e⟩
    have hw1 : w1 = (w.close s.File).1 := by rw [hc]
    cases e with
    | some e =>
      simp only
      rw [hw1, World.fileExists_close, World.handleOpen_close]
      exact ⟨id, fun h => by split <;> simp [h]⟩
    | none =>
      simp only
      split
      · rw [World.fileExists_remove, World.handleOpen_remove, hw1, World.fileExists_close,
          World.handleOpen_close]
        exact ⟨fun h => by split <;> simp [h], fun h => by split <;> simp [h]⟩
      · simp only
        rw [hw1, World.fileExists_close, World.handleOpen_close]
        exact ⟨id, fun h => by split <;> simp [h]⟩
  | closeHandle h =>
    simp only [Deferred.run]
    rw [World.fileExists_close, World.handleOpen_close]
    exact ⟨id, fun h => by split <;> simp [h]⟩
  | removeFile name =>
    simp only [Deferred.run]
    rw [World.fileExists_remove, World.handleOpen_remove]
    exact ⟨fun h => by split <;> simp [h], id⟩

theorem runDeferred_keeps (n k : Nat) :
    ∀ (defers : List Deferred) (w : World),
      (w.fileExists n = false → (runDeferred defers w).fileExists n = false) ∧
      (w.handleOpen k = false → (runDeferred defers w).handleOpen k = false) := by
  intro defers
  induction defers with
  | nil => intro w; exact ⟨id, id⟩
  | cons d rest ih =>
    intro w
    simp only [runDeferred]
    exact ⟨fun h => (ih _).1 ((Deferred.run_keeps d w n k).1 h),
      fun h => (ih _).2 ((Deferred.run_keeps d w n k).2 h)⟩

/-- When the deferred calls have run, a file named by a deferred `os.Remove`
is gone and a handle named by a deferred `Close` is closed. -/
theorem runDeferred_releases (n k : Nat) :
    ∀ (defers : List Deferred) (w : World),
      (Deferred.removeFile n ∈ defers → (runDeferred defers w).fileExists n = false) ∧
      (Deferred.closeHandle k ∈ defers → (runDeferred defers w).handleOpen k = false) := by
  intro defers
  induction defers with
  | nil => intro w; simp
  | cons d rest ih =>
    intro w
    simp only [runDeferred, List.mem_cons]
    constructor
    · rintro (h | h)
      · subst h
        apply (runDeferred_keeps n k rest _).1
        simp only [Deferred.run, World.fileExists_remove, if_true]
      · exact (ih _).1 h
    · rintro (h | h)
      · subst h
        apply (runDeferred_keeps n k rest _).2
        simp only [Deferred.run, World.handleOpen_close, if_true]
      · exact (ih _).2 h

/-- The deferred calls of a successful run of the entry loop: every segment
that the loop appended has a deferred `os.Remove` on its file and a deferred
`Close` on its handle, and they have run when the loop returns. -/
theorem segmentLoop_defers (inflate : Inflater) :
    ∀ (registry : List FileRecord) (za : ZlibArchive) (w : World) (defers : List Deferred)
      (segments out : List Segment),
      (segmentLoop inflate registry za w defers segments).segments = some out →
      ∃ defers2 w2 tail,
        (segmentLoop inflate registry za w defers segments).world = runDeferred defers2 w2 ∧
        (∀ d ∈ defers, d ∈ defers2) ∧
        out = segments ++ tail ∧
        ∀ s ∈ tail, s.AutoDelete = false ∧
          Deferred.removeFile s.Filename ∈ defers2 ∧ Deferred.closeHandle s.File ∈ defers2 := by
  intro registry
  induction registry with
  | nil =>
    intro za w defers segments out h
    simp only [segmentLoop, Option.some.injEq] at h
    exact ⟨defers, w, [], rfl, fun d hd => hd, by simp [h], by simp⟩
  | cons e rest ih =>
    intro za w defers segments out
    simp only [segmentLoop]
    have key : ∀ (za2 : ZlibArchive) (w3 : World) (segmentFile segFilename : Nat),
        (segmentLoop inflate rest za2 w3
          (Deferred.removeFile segFilename :: Deferred.closeHandle segmentFile :: defers)
          (segments ++ [⟨segFilename, segmentFile,
            mapIndex XG_FILEMAP (filepathBase e.Name), false⟩])).segments = some out →
        ∃ defers2 w2 tail,
          (segmentLoop inflate rest za2 w3
            (Deferred.removeFile segFilename :: Deferred.closeHandle segmentFile :: defers)
            (segments ++ [⟨segFilename, segmentFile,
              mapIndex XG_FILEMAP (filepathBase e.Name), false⟩])).world
            = runDeferred defers2 w2 ∧
          (∀ d ∈ defers, d ∈ defers2) ∧
          out = segments ++ tail ∧
          ∀ s ∈ tail, s.AutoDelete = false ∧
            Deferred.removeFile s.Filename ∈ defers2 ∧
            Deferred.closeHandle s.File ∈ defers2 := by
      intro za2 w3 segmentFile segFilename h3
      obtain ⟨defers2, w2, tail, hw, hsub, hout, htail⟩ := ih za2 w3 _ _ out h3
      refine ⟨defers2, w2, ⟨segFilename, segmentFile,
        mapIndex XG_FILEMAP (filepathBase e.Name), false⟩ :: tail, hw, ?_, ?_, ?_⟩
      · intro d hd
        exact hsub d (List.mem_cons_of_mem _ (List.mem_cons_of_mem _ hd))
      · rw [hout, List.append_assoc, List.singleton_append]
      · intro s hs
        rcases List.mem_cons.mp hs with rfl | hs2
        · exact ⟨rfl, hsub _ (List.mem_cons_self _ _),
            hsub _ (List.mem_cons_of_mem _ (List.mem_cons_self _ _))⟩
        · exact htail s hs2
    split
    · simp
    · split
      · split
        · simp
        · split
          · simp
          · exact key _ _ _ _
      · exact key _ _ _ _
theorem gameArchive_loop_run :
    (segmentLoop inflateEmptyOnly [goodGameEntry] gameArchive World.empty [] []).segments
      = some [⟨0, 1, XG_GAMEFILE, false⟩] := by
  decide!

/-- C13 (code defect): the storage of the returned segments is released
before the caller receives them.  On every successful call of
`GetFileSegment` the result is not empty, and for each returned segment the
temporary file has been removed and the handle closed when the call returns:
the deferred `segment.Close()` of the header and thumbnail segments, and the
deferred `segmentFile.Close()` and `os.Remove(segFilename)` of the entry loop,
all run at the return.  The same holds for every segment that a successful run
of the entry loop appends, although these segments are not auto-deleting.
Instances: the header segment of `sampleFile`, and the GameDataFile segment of
the loop over `goodGameEntry`. -/
theorem GetFileSegment_releases_returned_segments :
    (∀ (inflate : Inflater) (data : List Byte) (w : World) (out : List Segment),
      (GetFileSegment inflate data w).segments = some out →
      out ≠ [] ∧ ∀ s ∈ out,
        (GetFileSegment inflate data w).world.fileExists s.Filename = false ∧
        (GetFileSegment inflate data w).world.handleOpen s.File = false) ∧
    (∀ (inflate : Inflater) (registry : List FileRecord) (za : ZlibArchive) (w : World)
        (defers : List Deferred) (segments out : List Segment),
      (segmentLoop inflate registry za w defers segments).segments = some out →
      ∃ tail, out = segments ++ tail ∧ ∀ s ∈ tail, s.AutoDelete = false ∧
        (segmentLoop inflate registry za w defers segments).world.fileExists s.Filename = false ∧
        (segmentLoop inflate registry za w defers segments).world.handleOpen s.File = false) ∧
    ((GetFileSegment inflateEmptyOnly sampleFile World.empty).segments
        = some [⟨0, 0, GDF_HDR, true⟩] ∧
      (GetFileSegment inflateEmptyOnly sampleFile World.empty).world.fileExists 0 = false ∧
      (GetFileSegment inflateEmptyOnly sampleFile World.empty).world.handleOpen 0 = false) ∧
    ((segmentLoop inflateEmptyOnly [goodGameEntry] gameArchive World.empty [] []).segments
        = some [⟨0, 1, XG_GAMEFILE, false⟩] ∧
      (segmentLoop inflateEmptyOnly [goodGameEntry] gameArchive World.empty [] []).world.fileExists
        0 = false ∧
      (segmentLoop inflateEmptyOnly [goodGameEntry] gameArchive World.empty [] []).world.handleOpen
        1 = false) := by
  have hgen : ∀ (inflate : Inflater) (data : List Byte) (w : World) (out : List Segment),
      (GetFileSegment inflate data w).segments = some out →
      out ≠ [] ∧ ∀ s ∈ out,
        (GetFileSegment inflate data w).world.fileExists s.Filename = false ∧
        (GetFileSegment inflate data w).world.handleOpen s.File = false := by
    intro inflate data w out h
    obtain ⟨_, _, hout, hfile, ⟨pos, hhandle⟩, hthumb⟩ := GetFileSegment_success h
    have e0 := World.fileExists_of_file hfile
    have o0 := World.handleOpen_of_handle hhandle
    simp only [Bool.not_true] at e0 o0
    refine ⟨by rw [hout]; simp, ?_⟩
    intro s hs
    rw [hout] at hs
    rcases List.mem_cons.mp hs with rfl | hs2
    · exact ⟨e0, o0⟩
    · by_cases hts : 0 < (headerOutcome data).1.ThumbnailSize
      · rw [if_pos hts] at hs2
        obtain ⟨imgbuf, pos1, hf1, hh1⟩ := hthumb hts
        have e1 := World.fileExists_of_file hf1
        have o1 := World.handleOpen_of_handle hh1
        simp only [Bool.not_true] at e1 o1
        rw [List.mem_singleton] at hs2
        subst hs2
        exact ⟨e1, o1⟩
      · rw [if_neg hts] at hs2
        simp at hs2
  have hloop : ∀ (inflate : Inflater) (registry : List FileRecord) (za : ZlibArchive) (w : World)
      (defers : List Deferred) (segments out : List Segment),
      (segmentLoop inflate registry za w defers segments).segments = some out →
      ∃ tail, out = segments ++ tail ∧ ∀ s ∈ tail, s.AutoDelete = false ∧
        (segmentLoop inflate registry za w defers segments).world.fileExists s.Filename = false ∧
        (segmentLoop inflate registry za w defers segments).world.handleOpen s.File
          = false := by
    intro inflate registry za w defers segments out h
    obtain ⟨defers2, w2, tail, hw, _, hout, htail⟩ :=
      segmentLoop_defers inflate registry za w defers segments out h
    refine ⟨tail, hout, ?_⟩
    intro s hs
    obtain ⟨ha, hr, hc⟩ := htail s hs
    rw [hw]
    exact ⟨ha, (runDeferred_releases s.Filename s.File defers2 w2).1 hr,
      (runDeferred_releases s.Filename s.File defers2 w2).2 hc⟩
  have hsample : (GetFileSegment inflateEmptyOnly sampleFile World.empty).segments
      = some [⟨0, 0, GDF_HDR, true⟩] := by
    obtain ⟨f1, f2, f3, f4⟩ := sampleFile_facts
    obtain ⟨w2, defers2, segs2, hrun⟩ :=
      GetFileSegment_reaches_loop World.empty f1 f2 (Or.inl f3) sampleFile_opened.1
    have hsome : (GetFileSegment inflateEmptyOnly sampleFile World.empty).segments
        = some segs2 := by
      rw [hrun, f4]
      rfl
    obtain ⟨_, _, hout, _⟩ := GetFileSegment_success hsome
    have hts : ¬ 0 < (headerOutcome sampleFile).1.ThumbnailSize := by
      rw [sampleFile_header]
      decide
    rw [if_neg hts] at hout
    rw [hsome, hout]
    rfl
  refine ⟨hgen, hloop, ⟨hsample, ?_, ?_⟩, ⟨gameArchive_loop_run, ?_, ?_⟩⟩
  · exact ((hgen inflateEmptyOnly sampleFile World.empty _ hsample).2 ⟨0, 0, GDF_HDR, true⟩
      (List.mem_singleton.mpr rfl)).1
  · exact ((hgen inflateEmptyOnly sampleFile World.empty _ hsample).2 ⟨0, 0, GDF_HDR, true⟩
      (List.mem_singleton.mpr rfl)).2
  · obtain ⟨tail, hout, htail⟩ := hloop _ _ _ _ _ _ _ gameArchive_loop_run
    simp only [List.nil_append] at hout
    exact (htail ⟨0, 1, XG_GAMEFILE, false⟩
      (by rw [← hout]; exact List.mem_singleton.mpr rfl)).2.1
  · obtain ⟨tail, hout, htail⟩ := hloop _ _ _ _ _ _ _ gameArchive_loop_run
    simp only [List.nil_append] at hout
    exact (htail ⟨0, 1, XG_GAMEFILE, false⟩
      (by rw [← hout]; exact List.mem_singleton.mpr rfl)).2.2

theorem runSteps_cons_ok {ρ : Type} {step : ρ → Option ρ} {rest : List (ρ → Option ρ)}
    (hstep : ∀ r, (step r).isSome = true)
    (hrest : ∀ r, (runSteps rest r).2 = some Error.panic) :
    ∀ r, (runSteps (step :: rest) r).2 = some Error.panic := by
  intro r
  have h := hstep r
  simp only [runSteps]
  rcases hs : step r with _ | r2
  · simp [hs] at h
  · exact hrest r2

theorem runSteps_cons_panic {ρ : Type} {step : ρ → Option ρ} {rest : List (ρ → Option ρ)}
    (hstep : ∀ r, step r = none) :
    ∀ r, (runSteps (step :: rest) r).2 = some Error.panic := by
  intro r
  simp only [runSteps, hstep r]

theorem slot_isSome {unpackedData : List Byte} {lo hi : Nat} (h1 : lo + 4 = hi)
    (h2 : hi ≤ unpackedData.length) :
    ∃ v, (slice unpackedData lo hi).bind leUint32 = some v := by
  rw [slice_eq_some (by omega) h2]
  have hl : 4 ≤ ((unpackedData.drop lo).take (hi - lo)).length := by
    simp only [List.length_take, List.length_drop]
    omega
  obtain ⟨v, hv⟩ := leUint32_isSome hl
  exact ⟨v, by simp only [Option.some_bind, hv]⟩

theorem int32At_isSome {unpackedData : List Byte} {lo hi : Nat} (h1 : lo + 4 = hi)
    (h2 : hi ≤ unpackedData.length) : (int32At unpackedData lo hi).isSome = true := by
  obtain ⟨v, hv⟩ := slot_isSome h1 h2
  simp only [int32At, hv, Option.map_some', Option.isSome_some]

theorem float32At_isSome {unpackedData : List Byte} {lo hi : Nat} (h1 : lo + 4 = hi)
    (h2 : hi ≤ unpackedData.length) : (float32At unpackedData lo hi).isSome = true := by
  obtain ⟨v, hv⟩ := slot_isSome h1 h2
  simp only [float32At, hv, Option.map_some', Option.isSome_some]

theorem float32At_overrun {unpackedData : List Byte} {lo hi : Nat}
    (h : unpackedData.length < hi) : float32At unpackedData lo hi = none := by
  have hs : slice unpackedData lo hi = none := by
    unfold slice
    rw [if_neg]
    omega
  simp only [float32At, hs, Option.none_bind, Option.map_none']

/-- On a buffer of 132 bytes the assignments panic: the fifth EvalDouble slot
is `unpackedData[130:134]`. -/
theorem doubleActionSteps_panic (unpackedData : List Byte) (hlen : unpackedData.length = 132) :
    ∀ r, (runSteps (doubleActionSteps unpackedData) r).2 = some Error.panic := by
  have hrange : List.range 7 = [0, 1, 2, 3, 4, 5, 6] := by decide
  simp only [doubleActionSteps, hrange, List.map_cons, List.map_nil, List.cons_append,
    List.nil_append]
  repeat
    first
    | (refine runSteps_cons_panic (fun r => ?_)
       rw [float32At_overrun (by omega), Option.map_none'])
    | (refine runSteps_cons_ok (fun r => ?_) ?_
       · rw [Option.isSome_map']
         first
         | exact int32At_isSome (by omega) (by omega)
         | exact float32At_isSome (by omega) (by omega)
         | (rw [slice_eq_some (by omega) (by omega)]; rfl))
/-- C23 (code defect): on every stream that holds at least 132 bytes
`EngineStructDoubleAction.FromStream` panics instead of returning success.
The seven Eval slots `[66+4i, 70+4i)` lie within the 132-byte buffer, but of
the seven EvalDouble slots `[114+4i, 118+4i)` only the first four do: the
fifth is `unpackedData[130:134]`, past the end of the buffer (the fields add up
to 142 bytes).  On a shorter stream the read fails, so no call succeeds. -/
theorem FromStream_double_action_overruns_buffer (esdar : EngineStructDoubleAction)
    (stream : File) (h : 132 ≤ stream.remaining.length) :
    (esdar.FromStream stream).2.2 = some Error.panic ∧
    (∀ i, i < 7 →
      (slice (stream.remaining.take 132) (66 + i * 4) (70 + i * 4)).isSome = true) ∧
    (∀ i, i < 7 →
      ((slice (stream.remaining.take 132) (114 + i * 4) (118 + i * 4)).isSome = true
        ↔ i < 4)) ∧
    (∀ (other : File), (esdar.FromStream other).2.2 ≠ none) := by
  have hlen : (stream.remaining.take 132).length = 132 := by
    simp only [List.length_take]
    omega
  refine ⟨?_, ?_, ?_, ?_⟩
  · unfold EngineStructDoubleAction.FromStream
    rw [readFull_of_le h]
    simp only
    exact doubleActionSteps_panic _ hlen esdar
  · intro i hi
    rw [slice_eq_some (by omega) (by omega)]
    rfl
  · intro i hi
    unfold slice
    constructor
    · intro hs
      by_contra hge
      rw [if_neg (by omega)] at hs
      simp at hs
    · intro hlt
      rw [if_pos (by omega)]
      rfl
  · intro other
    by_cases hl : 132 ≤ other.remaining.length
    · have hlen2 : (other.remaining.take 132).length = 132 := by
        simp only [List.length_take]
        omega
      unfold EngineStructDoubleAction.FromStream
      rw [readFull_of_le hl]
      simp only
      rw [doubleActionSteps_panic _ hlen2 esdar]
      simp
    · obtain ⟨bs, s, e, he⟩ := readFull_error_of_lt other 132 (by omega)
      unfold EngineStructDoubleAction.FromStream
      rw [he]
      simp

theorem FromStream_double_action_overruns_buffer_witness :
    132 ≤ (File.mk doubleActionBytes 0).remaining.length ∧
    (EngineStructDoubleAction.zero.FromStream ⟨doubleActionBytes, 0⟩).2.2
      = some Error.panic :=
  ⟨by decide!,
    (FromStream_double_action_overruns_buffer EngineStructDoubleAction.zero
      ⟨doubleActionBytes, 0⟩ (by decide!)).1⟩

theorem extractSegment_data (inflate : Inflater) (za : ZlibArchive) (w : World) (b : Bool)
    (numBytes : Int) :
    (za.extractSegment inflate w b numBytes).2.1.Stream.data = za.Stream.data := by
  unfold ZlibArchive.extractSegment
  simp only [File.copyN]
  cases b
  · simp only [Bool.false_eq_true, if_false]
    split
    · rfl
    · split <;>
      · rename_i heq
        simp only [Prod.mk.injEq] at heq
        rw [← heq.2.1]
  · simp only [if_true]
    split <;> rfl

theorem File.seekStart_ofNat (f : File) (pos : Nat) :
    (f.seekStart (pos : Int)).1 = ⟨f.data, pos⟩ := by
  have hnn : ¬ ((pos : Int) < 0) := by omega
  simp only [File.seekStart, File.seekTo, hnn, if_false, Int.toNat_ofNat]

theorem File.mk_data_pos (f : File) (d : List Byte) (h : d = f.data) : File.mk d f.pos = f := by
  subst h
  rfl

/-- The deferred `za.Stream.Seek(curStreamPos, io.SeekStart)` of
`getArchiveIndex`: on every path the stream is back at the offset it had when
the call began, over the same bytes. -/
theorem getArchiveIndex_stream (inflate : Inflater) (za : ZlibArchive) (w : World) :
    (za.getArchiveIndex inflate w).1.Stream = za.Stream := by
  unfold ZlibArchive.getArchiveIndex
  simp only [seekEnd_eq, File.seekStart_ofNat]
  split
  · exact File.mk_data_pos _ _ rfl
  · rename_i x1 stream1 hseek1
    split at hseek1
    · simp at hseek1
    · simp only [Prod.mk.injEq, and_true] at hseek1
      subst hseek1
      simp only
      have hd2 := trailer_FromStream_data za.ArcRec
        ⟨za.Stream.data, ((za.Stream.data.length : Int) + -(archiveRecordSize : Int)).toNat⟩
      split
      · rename_i x2 r2 stream2 e2 hrec
        rw [hrec] at hd2
        exact File.mk_data_pos _ _ hd2
      · rename_i x2 arcRec stream2 hrec
        rw [hrec] at hd2
        simp only at hd2
        split
        · exact File.mk_data_pos _ _ hd2
        · rename_i x3 stream3 hseek2
          split at hseek2
          · simp at hseek2
          · simp only [Prod.mk.injEq, and_true] at hseek2
            subst hseek2
            split
            · rename_i x4 e4 za4 w4 hext
              have hd4 := congrArg (fun r => r.2.1.Stream.data) hext
              simp only [extractSegment_data] at hd4
              exact File.mk_data_pos _ _ (hd4.symm.trans hd2)
            · rename_i x4 idxFilename za4 w4 hext
              have hd4 := congrArg (fun r => r.2.1.Stream.data) hext
              simp only [extractSegment_data] at hd4
              split
              · exact File.mk_data_pos _ _ (hd4.symm.trans hd2)
              · exact File.mk_data_pos _ _ (hd4.symm.trans hd2)
/-- C21: `getArchiveIndex` returns with the stream of the archive where it was
when the call began, over the same bytes, for every archive object, zlib reader
and temporary directory, whatever the outcome.  Instances with the stream at
offset 5 on entry: a file too short for the trailer seek, a registry size that
makes the second seek fail, a registry that is not a zlib stream, a registry
without the row that FileCount announces, and an index that is read. -/
theorem getArchiveIndex_restores_stream_position :
    (∀ (inflate : Inflater) (za : ZlibArchive) (w : World),
      (za.getArchiveIndex inflate w).1.Stream = za.Stream) ∧
    (((archiveAt (ascii "too short") 5).getArchiveIndex inflateEmptyOnly World.empty).2.2
        = some Error.seekInvalid ∧
      ((archiveAt (ascii "too short") 5).getArchiveIndex inflateEmptyOnly World.empty).1.Stream.pos
        = 5) ∧
    (((archiveAt sampleTrailer 5).getArchiveIndex inflateEmptyOnly World.empty).2.2
        = some Error.seekInvalid ∧
      ((archiveAt sampleTrailer 5).getArchiveIndex inflateEmptyOnly World.empty).1.Stream.pos
        = 5) ∧
    (((archiveAt (ascii "not zlib" ++ sampleTrailer) 5).getArchiveIndex inflateEmptyOnly
          World.empty).2.2 = some Error.zlib ∧
      ((archiveAt (ascii "not zlib" ++ sampleTrailer) 5).getArchiveIndex inflateEmptyOnly
          World.empty).1.Stream.pos = 5) ∧
    (((archiveAt (emptyZlib ++ oneRowTrailer) 5).getArchiveIndex inflateEmptyOnly
          World.empty).2.2 = some Error.eof ∧
      ((archiveAt (emptyZlib ++ oneRowTrailer) 5).getArchiveIndex inflateEmptyOnly
          World.empty).1.Stream.pos = 5) ∧
    (((archiveAt (emptyZlib ++ sampleTrailer) 5).getArchiveIndex inflateEmptyOnly
          World.empty).2.2 = none ∧
      ((archiveAt (emptyZlib ++ sampleTrailer) 5).getArchiveIndex inflateEmptyOnly
          World.empty).1.Stream.pos = 5) := by
  refine ⟨getArchiveIndex_stream, ⟨by decide, ?_⟩, ⟨by decide, ?_⟩, ⟨by decide, ?_⟩,
    ⟨by decide, ?_⟩, ⟨by decide, ?_⟩⟩ <;>
  · rw [getArchiveIndex_stream]
    rfl
theorem File.read_remaining (f : File) (n : Nat) :
    (f.read n).1 = f.remaining.take n ∧
    (f.read n).2.1 = ⟨f.data, f.pos + (f.remaining.take n).length⟩ ∧
    (f.read n).2.1.remaining = f.remaining.drop (f.remaining.take n).length ∧
    (f.read n).2.2 = (if 0 < n ∧ (f.remaining.take n).length = 0 then some Error.eof
      else none) := by
  refine ⟨rfl, rfl, ?_, rfl⟩
  simp only [File.read, File.remaining, List.drop_drop]

theorem crcLoopAll_data (blkSize : Nat) :
    ∀ (fuel : Nat) (stream : File) (crc : Nat) (r : Except Error Nat) (after : File),
      crcLoopAll blkSize fuel stream crc = some (r, after) → after.data = stream.data := by
  intro fuel
  induction fuel with
  | zero =>
    intro stream crc r after h
    simp [crcLoopAll] at h
  | succ fuel ih =>
    intro stream crc r after h
    simp only [crcLoopAll] at h
    have hd := File.read_data stream blkSize
    rcases hr : stream.read blkSize with ⟨bs, s2, err⟩
    rw [hr] at h hd
    simp only at h hd
    rcases hc : crcStep crc bs with _ | crc2
    · rw [hc] at h
      simp only [Option.some.injEq, Prod.mk.injEq] at h
      rw [← h.2]
      exact hd
    · rw [hc] at h
      simp only at h
      rcases err with _ | e
      · simp only at h
        exact (ih s2 crc2 r after h).trans hd
      · cases e <;>
        · simp only [Option.some.injEq, Prod.mk.injEq] at h
          rw [← h.2]
          exact hd

theorem crcLoopN_data :
    ∀ (fuel blkSize : Nat) (bytesLeft : Int) (stream : File) (crc : Nat)
      (r : Except Error Nat) (after : File),
      crcLoopN fuel blkSize bytesLeft stream crc = some (r, after) →
      after.data = stream.data := by
  intro fuel
  induction fuel with
  | zero =>
    intro blkSize bytesLeft stream crc r after h
    simp [crcLoopN] at h
  | succ fuel ih =>
    intro blkSize bytesLeft stream crc r after h
    simp only [crcLoopN] at h
    split at h
    · generalize (if (blkSize : Int) > bytesLeft then bytesLeft.toNat else blkSize) = b2 at h
      have hd := File.read_data stream b2
      rcases hr : stream.read b2 with ⟨bs, s2, err⟩
      rw [hr] at h hd
      simp only at h hd
      rcases hc : crcStep crc bs with _ | crc2
      · rw [hc] at h
        simp only [Option.some.injEq, Prod.mk.injEq] at h
        rw [← h.2]
        exact hd
      · rw [hc] at h
        simp only at h
        rcases err with _ | e
        · simp only at h
          exact (ih _ _ s2 crc2 r after h).trans hd
        · simp only [Option.some.injEq, Prod.mk.injEq] at h
          rw [← h.2]
          exact hd
    · simp only [Option.some.injEq, Prod.mk.injEq] at h
      rw [← h.2]

/-- A call of `StreamCRC32` that returns a checksum leaves the stream as it
was. -/
theorem StreamCRC32_ok_stream {fuel : Nat} {stream after : File}
    {numBytes startPos blkSize : Int} {crc : Nat}
    (h : StreamCRC32 fuel stream numBytes startPos blkSize = some (Except.ok crc, after)) :
    after = stream := by
  unfold StreamCRC32 at h
  simp only at h
  split at h
  · simp at h
  · rename_i x s1 hseek
    have hs1 : s1.data = stream.data := by
      split at hseek
      · unfold File.seekStart File.seekTo at hseek
        split at hseek
        · simp at hseek
        · simp only [Prod.mk.injEq, and_true] at hseek
          rw [← hseek]
      · simp only [Prod.mk.injEq, and_true] at hseek
        rw [← hseek]
    split at h
    · simp at h
    · split at h
      · simp at h
      · simp at h
      · rename_i x2 crc2 s2 hloop
        have hs2 : s2.data = s1.data := by
          split at hloop
          · exact crcLoopAll_data _ _ _ _ _ _ hloop
          · exact crcLoopN_data _ _ _ _ _ _ _ hloop
        have hk : s2.seekStart (stream.pos : Int) = (⟨s2.data, stream.pos⟩, none) := by
          have hnn : ¬ ((stream.pos : Int) < 0) := by omega
          simp only [File.seekStart, File.seekTo, hnn, if_false, Int.toNat_ofNat]
        rw [hk] at h
        simp only [Option.some.injEq, Prod.mk.injEq, Except.ok.injEq] at h
        rw [← h.2, hs2, hs1]
theorem crcLoopAll_remaining (blkSize : Nat) :
    ∀ (fuel : Nat) (s1 s2 : File) (crc : Nat), s1.remaining = s2.remaining →
      (crcLoopAll blkSize fuel s1 crc).map Prod.fst
        = (crcLoopAll blkSize fuel s2 crc).map Prod.fst := by
  intro fuel
  induction fuel with
  | zero => intro s1 s2 crc _; rfl
  | succ fuel ih =>
    intro s1 s2 crc hrem
    obtain ⟨a1, _, a3, a4⟩ := File.read_remaining s1 blkSize
    obtain ⟨b1, _, b3, b4⟩ := File.read_remaining s2 blkSize
    simp only [crcLoopAll]
    rcases h1 : s1.read blkSize with ⟨bs1, t1, e1⟩
    rcases h2 : s2.read blkSize with ⟨bs2, t2, e2⟩
    rw [h1] at a1 a3 a4
    rw [h2] at b1 b3 b4
    simp only at a1 a3 a4 b1 b3 b4
    have hbs : bs1 = bs2 := by rw [a1, b1, hrem]
    have he : e1 = e2 := by rw [a4, b4, hrem]
    have ht : t1.remaining = t2.remaining := by rw [a3, b3, hrem]
    subst hbs he
    simp only
    rcases crcStep crc bs1 with _ | crc2
    · rfl
    · simp only
      rcases e1 with _ | e
      · exact ih t1 t2 crc2 ht
      · cases e <;> rfl

theorem crcLoopN_remaining :
    ∀ (fuel blkSize : Nat) (bytesLeft : Int) (s1 s2 : File) (crc : Nat),
      s1.remaining = s2.remaining →
      (crcLoopN fuel blkSize bytesLeft s1 crc).map Prod.fst
        = (crcLoopN fuel blkSize bytesLeft s2 crc).map Prod.fst := by
  intro fuel
  induction fuel with
  | zero => intro blkSize bytesLeft s1 s2 crc _; rfl
  | succ fuel ih =>
    intro blkSize bytesLeft s1 s2 crc hrem
    simp only [crcLoopN]
    split
    · generalize (if (blkSize : Int) > bytesLeft then bytesLeft.toNat else blkSize) = b2
      obtain ⟨a1, _, a3, a4⟩ := File.read_remaining s1 b2
      obtain ⟨b1, _, b3, b4⟩ := File.read_remaining s2 b2
      rcases h1 : s1.read b2 with ⟨bs1, t1, e1⟩
      rcases h2 : s2.read b2 with ⟨bs2, t2, e2⟩
      rw [h1] at a1 a3 a4
      rw [h2] at b1 b3 b4
      simp only at a1 a3 a4 b1 b3 b4
      have hbs : bs1 = bs2 := by rw [a1, b1, hrem]
      have he : e1 = e2 := by rw [a4, b4, hrem]
      have ht : t1.remaining = t2.remaining := by rw [a3, b3, hrem]
      subst hbs he
      simp only
      rcases crcStep crc bs1 with _ | crc2
      · rfl
      · simp only
        rcases e1 with _ | e
        · exact ih _ _ t1 t2 crc2 ht
        · rfl
    · rfl

/-- With start offset 0 the outcome of `StreamCRC32` depends on the stream
only through the bytes from its current offset on. -/
theorem StreamCRC32_remaining (fuel : Nat) (s1 s2 : File) (numBytes blkSize : Int)
    (hrem : s1.remaining = s2.remaining) :
    (StreamCRC32 fuel s1 numBytes 0 blkSize).map Prod.fst
      = (StreamCRC32 fuel s2 numBytes 0 blkSize).map Prod.fst := by
  have hl : (if numBytes = 0 then crcLoopAll blkSize.toNat fuel s1 0
        else crcLoopN fuel blkSize.toNat numBytes s1 0).map Prod.fst
      = (if numBytes = 0 then crcLoopAll blkSize.toNat fuel s2 0
        else crcLoopN fuel blkSize.toNat numBytes s2 0).map Prod.fst := by
    split
    · exact crcLoopAll_remaining _ _ _ _ _ hrem
    · exact crcLoopN_remaining _ _ _ _ _ _ hrem
  have hk : ∀ (s : File) (p : Nat), s.seekStart (p : Int) = (⟨s.data, p⟩, none) := by
    intro s p
    have hnn : ¬ ((p : Int) < 0) := by omega
    simp only [File.seekStart, File.seekTo, hnn, if_false, Int.toNat_ofNat]
  unfold StreamCRC32
  simp only [ne_eq, not_true_eq_false, if_false]
  split
  · rfl
  · rcases h1 : (if numBytes = 0 then crcLoopAll blkSize.toNat fuel s1 0
        else crcLoopN fuel blkSize.toNat numBytes s1 0) with _ | ⟨r1, t1⟩
    · rcases h2 : (if numBytes = 0 then crcLoopAll blkSize.toNat fuel s2 0
          else crcLoopN fuel blkSize.toNat numBytes s2 0) with _ | ⟨r2, t2⟩
      · rfl
      · rw [h1, h2] at hl
        simp at hl
    · rcases h2 : (if numBytes = 0 then crcLoopAll blkSize.toNat fuel s2 0
          else crcLoopN fuel blkSize.toNat numBytes s2 0) with _ | ⟨r2, t2⟩
      · rw [h1, h2] at hl
        simp at hl
      · rw [h1, h2] at hl
        simp only [Option.map_some', Option.some.injEq] at hl
        subst hl
        cases r1 with
        | error e => rfl
        | ok c => simp only [hk, Option.map_some']
theorem crcLoopAll_ends (blkSize : Nat) (hb : 0 < blkSize) :
    ∀ (fuel : Nat) (stream : File) (crc : Nat), stream.remaining.length < fuel →
      (crcLoopAll blkSize fuel stream crc).isSome = true := by
  intro fuel
  induction fuel with
  | zero => intro stream crc h; omega
  | succ fuel ih =>
    intro stream crc hfuel
    obtain ⟨a1, _, a3, a4⟩ := File.read_remaining stream blkSize
    simp only [crcLoopAll]
    rcases h1 : stream.read blkSize with ⟨bs, t, e⟩
    rw [h1] at a1 a3 a4
    simp only at a1 a3 a4 ⊢
    rcases crcStep crc bs with _ | crc2
    · rfl
    · simp only
      rcases e with _ | e
      · simp only
        apply ih
        rw [a3, List.length_drop]
        have hne : ¬ (0 < blkSize ∧ (stream.remaining.take blkSize).length = 0) := by
          intro hc
          rw [if_pos hc] at a4
          simp at a4
        simp only [List.length_take] at hne ⊢
        omega
      · cases e <;> rfl

theorem crcLoopN_ends :
    ∀ (fuel blkSize : Nat) (bytesLeft : Int) (stream : File) (crc : Nat), 0 < blkSize →
      stream.remaining.length < fuel →
      (crcLoopN fuel blkSize bytesLeft stream crc).isSome = true := by
  intro fuel
  induction fuel with
  | zero => intro blkSize bytesLeft stream crc _ h; omega
  | succ fuel ih =>
    intro blkSize bytesLeft stream crc hb hfuel
    simp only [crcLoopN]
    split
    · rename_i hleft
      have hb2 : 0 < (if (blkSize : Int) > bytesLeft then bytesLeft.toNat else blkSize) := by
        split
        · omega
        · exact hb
      generalize (if (blkSize : Int) > bytesLeft then bytesLeft.toNat else blkSize) = b2 at hb2 ⊢
      obtain ⟨a1, _, a3, a4⟩ := File.read_remaining stream b2
      rcases h1 : stream.read b2 with ⟨bs, t, e⟩
      rw [h1] at a1 a3 a4
      simp only at a1 a3 a4 ⊢
      rcases crcStep crc bs with _ | crc2
      · rfl
      · simp only
        rcases e with _ | e
        · simp only
          apply ih _ _ _ _ hb2
          rw [a3, List.length_drop]
          have hne : ¬ (0 < b2 ∧ (stream.remaining.take b2).length = 0) := by
            intro hc
            rw [if_pos hc] at a4
            simp at a4
          simp only [List.length_take] at hne ⊢
          omega
        · rfl
    · rfl

/-- With a positive block size `StreamCRC32` returns or panics within as many
loop iterations as the stream has bytes, plus one. -/
theorem StreamCRC32_ends (fuel : Nat) (stream : File) (numBytes startPos blkSize : Int)
    (hb : 0 < blkSize) (hfuel : stream.data.length < fuel) :
    (StreamCRC32 fuel stream numBytes startPos blkSize).isSome = true := by
  have hbn : 0 < blkSize.toNat := by omega
  unfold StreamCRC32
  simp only
  split
  · rfl
  · rename_i x s1 hseek
    have hs1 : s1.remaining.length < fuel := by
      have hd : s1.data = stream.data := by
        split at hseek
        · unfold File.seekStart File.seekTo at hseek
          split at hseek
          · simp at hseek
          · simp only [Prod.mk.injEq, and_true] at hseek
            rw [← hseek]
        · simp only [Prod.mk.injEq, and_true] at hseek
          rw [← hseek]
      simp only [File.remaining, List.length_drop, hd]
      omega
    rw [if_neg (by omega)]
    have hloop : (if numBytes = 0 then crcLoopAll blkSize.toNat fuel s1 0
        else crcLoopN fuel blkSize.toNat numBytes s1 0).isSome = true := by
      split
      · exact crcLoopAll_ends _ hbn _ _ _ hs1
      · exact crcLoopN_ends _ _ _ _ _ hbn hs1
    rcases hr : (if numBytes = 0 then crcLoopAll blkSize.toNat fuel s1 0
        else crcLoopN fuel blkSize.toNat numBytes s1 0) with _ | ⟨r, t⟩
    · rw [hr] at hloop
      simp at hloop
    · cases r with
      | error e => rfl
      | ok c =>
        simp only
        split <;> rfl

/-- C22: a call of `StreamCRC32` that returns a checksum leaves the stream at
the offset it had before the call, over the same bytes.  With start offset 0
the checksum is taken from the current offset: every stream with the same
bytes from its current offset on gives the same checksum.  With a positive
block size the call ends: more loop iterations than the stream has bytes
always give an outcome. -/
theorem StreamCRC32_restores_position (fuel : Nat) (stream after : File)
    (numBytes startPos blkSize : Int) (crc : Nat)
    (h : StreamCRC32 fuel stream numBytes startPos blkSize = some (Except.ok crc, after)) :
    after = stream ∧
    (startPos = 0 → ∀ (other : File), other.remaining = stream.remaining →
      (StreamCRC32 fuel other numBytes 0 blkSize).map Prod.fst = some (Except.ok crc)) ∧
    (0 < blkSize → ∀ (fuel2 : Nat), stream.data.length < fuel2 →
      (StreamCRC32 fuel2 stream numBytes startPos blkSize).isSome = true) := by
  refine ⟨StreamCRC32_ok_stream h, ?_, ?_⟩
  · intro h0 other hrem
    subst h0
    rw [StreamCRC32_remaining fuel other stream numBytes blkSize hrem, h]
    rfl
  · intro hb fuel2 hfuel
    exact StreamCRC32_ends fuel2 stream numBytes startPos blkSize hb hfuel

theorem StreamCRC32_restores_position_witness :
    StreamCRC32 3 ⟨[1, 0, 0, 0, 2, 0, 0, 0], 4⟩ 0 0 4
        = some (Except.ok 2, ⟨[1, 0, 0, 0, 2, 0, 0, 0], 4⟩) ∧
    (StreamCRC32 3 ⟨[2, 0, 0, 0], 0⟩ 0 0 4).map Prod.fst = some (Except.ok 2) :=
  ⟨by decide,
    (StreamCRC32_restores_position 3 ⟨[1, 0, 0, 0, 2, 0, 0, 0], 4⟩
      ⟨[1, 0, 0, 0, 2, 0, 0, 0], 4⟩ 0 0 4 2 (by decide)).2.1 rfl ⟨[2, 0, 0, 0], 0⟩ (by decide)⟩
theorem leUint32_eq_none_iff (l : List Byte) : leUint32 l = none ↔ l.length < 4 := by
  rcases l with _ | ⟨a, _ | ⟨b, _ | ⟨c, _ | ⟨d, t⟩⟩⟩⟩ <;> simp [leUint32]

/-- The step that hands a block to `crc32Update` panics exactly on a block of
one to three bytes. -/
theorem crcStep_eq_none_iff (crc : Nat) (bs : List Byte) :
    crcStep crc bs = none ↔ 0 < bs.length ∧ bs.length < 4 := by
  unfold crcStep crc32Update
  split
  · rename_i hpos
    rw [Option.map_eq_none', leUint32_eq_none_iff]
    exact ⟨fun h => ⟨hpos, h⟩, fun h => h.2⟩
  · rename_i hpos
    constructor
    · intro h
      simp at h
    · intro h
      exact absurd h.1 hpos

/-- C24 (code defect): `StreamCRC32` hands blocks of fewer than four bytes to
`crc32Update`, whose `binary.LittleEndian.Uint32` then indexes past the block
and panics.  On the five bytes 01 02 03 04 05 with block size 4 the second
block is the single byte 05 and the call panics.  The step panics exactly on a
block of one to three bytes; so the call panics on every stream that is not at
its end when the block size is 1, 2 or 3, and when the requested byte count
is 1, 2 or 3. -/
theorem StreamCRC32_panics_on_short_block :
    StreamCRC32 3 ⟨[1, 2, 3, 4, 5], 0⟩ 0 0 4
      = some (Except.error Error.panic, ⟨[1, 2, 3, 4, 5], 5⟩) ∧
    (∀ (crc : Nat) (bs : List Byte),
      crcStep crc bs = none ↔ 0 < bs.length ∧ bs.length < 4) ∧
    (∀ (fuel : Nat) (stream : File) (blkSize : Int),
      0 < stream.remaining.length → 0 < blkSize → blkSize < 4 →
      (StreamCRC32 (fuel + 1) stream 0 0 blkSize).map Prod.fst
        = some (Except.error Error.panic)) ∧
    (∀ (fuel : Nat) (stream : File) (numBytes blkSize : Int),
      0 < stream.remaining.length → 0 < blkSize → 0 < numBytes → numBytes < 4 →
      (StreamCRC32 (fuel + 1) stream numBytes 0 blkSize).map Prod.fst
        = some (Except.error Error.panic)) := by
  refine ⟨by decide, crcStep_eq_none_iff, ?_, ?_⟩
  · intro fuel stream blkSize hrem hb1 hb2
    have hstep : crcStep 0 (stream.remaining.take blkSize.toNat) = none := by
      rw [crcStep_eq_none_iff, List.length_take]
      omega
    unfold StreamCRC32
    simp only [ne_eq, not_true_eq_false, if_false, if_true, crcLoopAll, File.read]
    rw [if_neg (by omega)]
    simp only [hstep, Option.map_some']
  · intro fuel stream numBytes blkSize hrem hb hn1 hn2
    have hstep : crcStep 0 (stream.remaining.take
        (if ((blkSize.toNat : Nat) : Int) > numBytes then numBytes.toNat else blkSize.toNat))
        = none := by
      rw [crcStep_eq_none_iff, List.length_take]
      split <;> omega
    unfold StreamCRC32
    simp only [ne_eq, not_true_eq_false, if_false, crcLoopN, File.read]
    rw [if_neg (by omega), if_neg (by omega), if_pos (by omega)]
    simp only [hstep, Option.map_some']

theorem FromStream_ok_of_magic (hdr : GameDataFormatHdrRecord) (stream : File)
    (h : 8232 ≤ stream.remaining.length) (hm : stream.remaining.take 4 = magicHMGR)
    (hv : leUint32 ((stream.remaining.drop 4).take 4) = some 1) :
    (GameDataFormatHdrRecord.FromStream hdr stream).2.2 = none := by
  obtain ⟨version, hversion, hlt, heq⟩ := FromStream_of_le hdr stream h
  have hl : (stream.remaining.take headerSpan).length = 8232 := by
    have hspan : headerSpan = 8232 := rfl
    simp only [List.length_take]; omega
  rw [hversion, Option.some.injEq] at hv
  subst hv
  have hcond : ¬ (stream.remaining.take 4 ≠ magicHMGR ∨ toInt32 1 ≠ 1) := by
    simp [hm, toInt32]
  rw [heq, if_neg hcond]
  obtain ⟨r, hr⟩ := decodeHeaderBody_isSome
    { hdr with MagicNumber := stream.remaining.take 4, HeaderVersion := toInt32 1 } hl
  rw [hr]

theorem guidFile_decodes :
    (GameDataFormatHdrRecord.FromStream GameDataFormatHdrRecord.zero ⟨guidFile, 0⟩).2.2 = none ∧
    slice guidFile 24 40 = some sampleGUID ∧
    (GameDataFormatHdrRecord.FromStream GameDataFormatHdrRecord.zero ⟨guidFile, 0⟩).1.GameGUID
      = "33221100-5544-7766-9988-aabbccddeeff" := by
  have hlen : guidFile.length = 8273 := by
    simp only [guidFile, magicHMGR, sampleGUID, emptyZlib, sampleTrailer, List.length_append,
      List.length_replicate, List.length_cons, List.length_nil]
  have hrem : (File.mk guidFile 0).remaining = guidFile := rfl
  have hok := FromStream_ok_of_magic GameDataFormatHdrRecord.zero ⟨guidFile, 0⟩
    (by rw [hrem, hlen]; omega) (by rw [hrem]; rfl) (by rw [hrem]; rfl)
  have hs : slice guidFile 24 40 = some sampleGUID := by
    rw [slice_eq_some (by omega) (by rw [hlen]; omega)]
    rfl
  have hg := (FromStream_fields hok).2.2.2.2.2.1
  rw [hrem, hs] at hg
  have hf : formatGUID sampleGUID = some "33221100-5544-7766-9988-aabbccddeeff" := by decide
  simp only [Option.some_bind, hf, Option.some.injEq] at hg
  exact ⟨hok, hs, hg.symm⟩

/-- C4 (code defect): the decoded GameGUID is not the GUID rendering of bytes
[24:40).  The file `guidFile` has a valid header whose bytes [24:40) are
`00 11 22 ... FF`; it decodes successfully with GameGUID
"33221100-5544-7766-9988-aabbccddeeff", while the GUID rendering of these bytes
is "33221100-5544-7766-8899-aabbccddeeff": the decoder calls `formatGUID`,
which byte-swaps bytes 8-9.  The rest of the documented layout holds on every
successful decode: HeaderSize, ThumbnailOffset and ThumbnailSize are the
little-endian integers at [8:12), [12:20) and [20:24), the four names are the
NUL-terminated UTF-16LE decodes of their ranges, GameGUID is what `formatGUID`
makes of [24:40), and two inputs that agree on their first 8136 bytes decode
to the same record. -/
theorem FromStream_GameGUID_swaps_fourth_group :
    ((GameDataFormatHdrRecord.FromStream GameDataFormatHdrRecord.zero
          ⟨guidFile, 0⟩).2.2 = none ∧
      slice guidFile 24 40 = some sampleGUID ∧
      (GameDataFormatHdrRecord.FromStream GameDataFormatHdrRecord.zero
          ⟨guidFile, 0⟩).1.GameGUID = "33221100-5544-7766-9988-aabbccddeeff" ∧
      guidRendering sampleGUID = some "33221100-5544-7766-8899-aabbccddeeff" ∧
      some (GameDataFormatHdrRecord.FromStream GameDataFormatHdrRecord.zero
          ⟨guidFile, 0⟩).1.GameGUID ≠ (slice guidFile 24 40).bind guidRendering) ∧
    ∀ (hdr : GameDataFormatHdrRecord) (stream : File),
      (GameDataFormatHdrRecord.FromStream hdr stream).2.2 = none →
      (((slice stream.remaining 8 12).bind leUint32).map toInt32
          = some (GameDataFormatHdrRecord.FromStream hdr stream).1.HeaderSize ∧
        ((slice stream.remaining 12 20).bind leUint64).map toInt64
          = some (GameDataFormatHdrRecord.FromStream hdr stream).1.ThumbnailOffset ∧
        ((slice stream.remaining 20 24).bind leUint32).map toInt32
          = some (GameDataFormatHdrRecord.FromStream hdr stream).1.ThumbnailSize ∧
        (slice stream.remaining 24 40).bind formatGUID
          = some (GameDataFormatHdrRecord.FromStream hdr stream).1.GameGUID ∧
        ((slice stream.remaining 40 2064).bind unpackUint16Array).map UTF16IntArrayToStr
          = some (GameDataFormatHdrRecord.FromStream hdr stream).1.GameName ∧
        ((slice stream.remaining 2064 4088).bind unpackUint16Array).map UTF16IntArrayToStr
          = some (GameDataFormatHdrRecord.FromStream hdr stream).1.SaveName ∧
        ((slice stream.remaining 4088 6112).bind unpackUint16Array).map UTF16IntArrayToStr
          = some (GameDataFormatHdrRecord.FromStream hdr stream).1.LevelName ∧
        ((slice stream.remaining 6112 8136).bind unpackUint16Array).map UTF16IntArrayToStr
          = some (GameDataFormatHdrRecord.FromStream hdr stream).1.Comments) ∧
      ∀ (hdr2 : GameDataFormatHdrRecord) (stream2 : File),
        (GameDataFormatHdrRecord.FromStream hdr2 stream2).2.2 = none →
        stream2.remaining.take 8136 = stream.remaining.take 8136 →
        (GameDataFormatHdrRecord.FromStream hdr2 stream2).1
          = (GameDataFormatHdrRecord.FromStream hdr stream).1 := by
  obtain ⟨g1, g2, g3⟩ := guidFile_decodes
  have hr : guidRendering sampleGUID = some "33221100-5544-7766-8899-aabbccddeeff" := by
    decide
  refine ⟨⟨g1, g2, g3, hr, ?_⟩, ?_⟩
  · rw [g2, g3, Option.some_bind, hr]
    decide
  · intro hdr stream h
    exact ⟨(FromStream_layout_of_ok hdr stream h).1.2.2, (FromStream_layout_of_ok hdr stream h).2⟩
/-- No file whose trailer announces a registry row yields segments: the open
fails, and with it `GetFileSegment`. -/
theorem GetFileSegment_fails_of_rows (inflate : Inflater) (data : List Byte) (w : World)
    (hpos : 0 < (ArchiveRecord.FromStream ArchiveRecord.zero
      ⟨data, data.length - archiveRecordSize⟩).1.FileCount) :
    (GetFileSegment inflate data w).segments = none ∧
    (GetFileSegment inflate data w).err ≠ none := by
  have hnone : (GetFileSegment inflate data w).segments = none := by
    rcases hs : (GetFileSegment inflate data w).segments with _ | out
    · rfl
    · exfalso
      obtain ⟨⟨za, wa, hopen⟩, _⟩ := GetFileSegment_success hs
      have hle := (opened_registry_empty hopen).1
      rw [opened_trailer hopen] at hle
      omega
  exact ⟨hnone, fun he => GetFileSegment_segments_of_ok he hnone⟩

/-- No file whose trailer announces a registry row opens. -/
theorem NewZlibArchive_fails_of_rows (inflate : Inflater) (data : List Byte) (w : World)
    (hpos : 0 < (ArchiveRecord.FromStream ArchiveRecord.zero
      ⟨data, data.length - archiveRecordSize⟩).1.FileCount) :
    ∃ e, (NewZlibArchive inflate data w).1 = Except.error e := by
  rcases hr : (NewZlibArchive inflate data w).1 with e | za
  · exact ⟨e, rfl⟩
  · exfalso
    have hle := (opened_registry_empty hr).1
    rw [opened_trailer hr] at hle
    omega

theorem unknownEntryFile_header :
    headerOutcome unknownEntryFile = headerOutcome sampleFile := by
  have hl : (magicHMGR ++ [1, 0, 0, 0] ++ [0x28, 0x20, 0, 0]
      ++ List.replicate 8220 (0 : Byte)).length = headerSpan := by
    simp only [magicHMGR, headerSpan, List.length_append, List.length_replicate,
      List.length_cons, List.length_nil]
  unfold unknownEntryFile sampleFile
  rw [List.append_assoc _ (zlibStored (ascii "DATA")),
    List.append_assoc _ _ (_ ++ List.replicate 12 0),
    List.append_assoc _ emptyZlib, headerOutcome_append _ _ hl, headerOutcome_append _ _ hl]

theorem unknownEntryFile_parts :
    unknownEntryFile.length - archiveRecordSize = 8788 ∧
    (ArchiveRecord.FromStream ArchiveRecord.zero ⟨unknownEntryFile, 8788⟩).1.FileCount = 1 ∧
    (inflateStored (unknownEntryFile.drop 8247)).output = fooRow ∧
    (inflateStored (unknownEntryFile.drop 8232)).output = ascii "DATA" ∧
    (segmentLoop inflateStored [fooEntry] unknownEntryArchive World.empty [] []).segments
      = some [⟨0, 1, GDF_HDR, false⟩] := by
  decide!

theorem fooRow_decode :
    (FileRecord.FromStream FileRecord.zero ⟨fooRow, 0⟩).1.Name = ascii "dir/foo.bin" ∧
    (FileRecord.FromStream FileRecord.zero ⟨fooRow, 0⟩).2.2 = some Error.binaryInvalidType ∧
    filepathBase (ascii "dir/foo.bin") = ascii "foo.bin" ∧
    ascii "foo.bin" ∉ XG_FILEMAP.map Prod.fst := by
  decide!

/-- C6 (code defect): an entry whose base name is not in `XG_FILEMAP` does not
get a segment of kind `XG_UNKNOWN`.  The file `unknownEntryFile` has a valid
header, a trailer with FileCount 1, and a registry whose one row names the
entry "dir/foo.bin", base name "foo.bin", not a key of `XG_FILEMAP`.
`GetFileSegment` returns no segment for it at all: the row is not decoded
(`binary.Read` on the whole record fails).  And the entry loop, run on the
entry that the row describes, extracts the entry and gives its segment the
kind 0, which is `GDF_HDR`: the map index expression yields 0 for every key
that is not in the map, and `XG_UNKNOWN` (7) is never assigned. -/
theorem GetFileSegment_never_classifies_unknown :
    (headerOutcome unknownEntryFile
        = (⟨magicHMGR, 1, 8232, 0, 0, "00000000-0000-0000-0000-000000000000", "", "", "", ""⟩,
            none) ∧
      (ArchiveRecord.FromStream ArchiveRecord.zero ⟨unknownEntryFile, 8788⟩).1.FileCount = 1 ∧
      (inflateStored (unknownEntryFile.drop 8247)).output = fooRow ∧
      (FileRecord.FromStream FileRecord.zero ⟨fooRow, 0⟩).1.Name = ascii "dir/foo.bin" ∧
      filepathBase (ascii "dir/foo.bin") = ascii "foo.bin" ∧
      ascii "foo.bin" ∉ XG_FILEMAP.map Prod.fst) ∧
    ((GetFileSegment inflateStored unknownEntryFile World.empty).segments = none ∧
      (GetFileSegment inflateStored unknownEntryFile World.empty).err ≠ none ∧
      (FileRecord.FromStream FileRecord.zero ⟨fooRow, 0⟩).2.2 = some Error.binaryInvalidType) ∧
    ((inflateStored (unknownEntryFile.drop 8232)).output = ascii "DATA" ∧
      (segmentLoop inflateStored [fooEntry] unknownEntryArchive World.empty [] []).segments
        = some [⟨0, 1, GDF_HDR, false⟩] ∧
      GDF_HDR ≠ XG_UNKNOWN) ∧
    ∀ key : List Byte, key ∉ XG_FILEMAP.map Prod.fst → mapIndex XG_FILEMAP key = GDF_HDR := by
  obtain ⟨p0, p1, p2, p3, p4⟩ := unknownEntryFile_parts
  obtain ⟨r1, r2, r3, r4⟩ := fooRow_decode
  have hfail := GetFileSegment_fails_of_rows inflateStored unknownEntryFile World.empty (by
    rw [p0, p1]
    decide)
  refine ⟨⟨?_, p1, p2, r1, r3, r4⟩, ⟨hfail.1, hfail.2, r2⟩, ⟨p3, p4, by decide⟩,
    mapIndex_of_not_key⟩
  rw [unknownEntryFile_header]
  exact sampleFile_header
theorem gameRow_decode :
    gameRow.length = 530 ∧
    (FileRecord.FromStream FileRecord.zero ⟨gameRow, 0⟩).2.2 = some Error.binaryInvalidType ∧
    (FileRecord.FromStream FileRecord.zero ⟨gameRow, 0⟩).2.1.pos = 512 := by
  decide!

/-- C16 (code defect): `ArcRegistry` never holds a descriptor.  The file
`wellFormedFile` has a trailer with FileCount 1 and a registry that
decompresses to exactly one 530-byte record, the row of "temp.xg"; decoding
that record fails after 512 bytes (`binary.Read` on the whole `FileRecord`),
so the archive does not open and the registry is not filled.  No file whose
trailer has a positive FileCount opens, and every archive that does open has
FileCount at most 0 and an empty registry: the count and order of the
descriptors that the loop of `getArchiveIndex` is written to produce are never
those of a registry with records. -/
theorem NewZlibArchive_never_fills_registry :
    ((ArchiveRecord.FromStream ArchiveRecord.zero ⟨wellFormedFile, 9344⟩).1.FileCount = 1 ∧
      (inflateStored (wellFormedFile.drop 8803)).output = gameRow ∧
      gameRow.length = 530 ∧
      (FileRecord.FromStream FileRecord.zero ⟨gameRow, 0⟩).2.2
        = some Error.binaryInvalidType ∧
      (FileRecord.FromStream FileRecord.zero ⟨gameRow, 0⟩).2.1.pos = 512 ∧
      ∃ e, (NewZlibArchive inflateStored wellFormedFile World.empty).1 = Except.error e) ∧
    (∀ (inflate : Inflater) (data : List Byte) (w : World),
      0 < (ArchiveRecord.FromStream ArchiveRecord.zero
        ⟨data, data.length - archiveRecordSize⟩).1.FileCount →
      ∃ e, (NewZlibArchive inflate data w).1 = Except.error e) ∧
    (∀ (inflate : Inflater) (data : List Byte) (w : World) (za : ZlibArchive),
      (NewZlibArchive inflate data w).1 = Except.ok za →
      za.ArcRec.FileCount ≤ 0 ∧ za.ArcRegistry = []) := by
  obtain ⟨p1, p2, _, _⟩ := wellFormedFile_parts
  obtain ⟨r1, r2, r3⟩ := gameRow_decode
  refine ⟨⟨p1, p2, r1, r2, r3, ?_⟩, NewZlibArchive_fails_of_rows, ?_⟩
  · apply NewZlibArchive_fails_of_rows
    have hl : wellFormedFile.length - archiveRecordSize = 9344 := by
      rw [wellFormedFile_length]
      rfl
    rw [hl, p1]
    decide
  · intro inflate data w za hopen
    exact opened_registry_empty hopen

end Xgfile
